import Mathlib

/-!
Verification development for the tile streaming and cache engine
(`PlanarMapTileLayer` in the repository source).  The engine's scheduling,
caching, retry and eviction logic is shallowly embedded below:

* JS numbers appearing as tile indices, frames and counters are embedded as
  `ℤ`/`ℕ`; timestamps and opacities (compared against fractional thresholds)
  are embedded as the exact-rational type `Q` below.
  `Number.POSITIVE_INFINITY` used as the initial tile priority is embedded as
  `none : Option ℤ` with the comparison `prioLT`.
* The JS `Map` cache (insertion ordered, keyed by the string `"z/x/y"` which
  is injective on the non-negative tile ids the engine uses) is embedded as an
  insertion-ordered association list keyed by `TileId`; the `Set` of queued
  keys as a duplicate-free list.
* The external geometry (`GeoCoordinator`, Web-Mercator math, mesh/texture
  objects) is not part of the core under verification (spec §1/§6): the
  camera-derived `ViewState` is the input of `updateFn`, and a tile's
  renderable surface is reduced to the fields the engine reads back
  (`meshVisible`, opacities).  Fetches are events: a dispatch records a
  `(key, attempt)` pair and a completion event (success or failure) re-enters
  the engine exactly as the `THREE.TextureLoader` callbacks do.
* `outstanding`, `appliedLog` and `disposeLog` are ghost instrumentation:
  they are only appended to / consumed by the event machinery and never
  influence any branch, and exist to state in-flight, application and
  disposal properties.
-/

/-- JS `%` (truncated remainder, sign of the dividend). -/
def jsMod (a b : ℤ) : ℤ := Int.tmod a b

/-- Source `wrapInt`: `((value % range) + range) % range`. -/
def wrapInt (value : ℤ) (range : ℤ) : ℤ := jsMod (jsMod value range + range) range

/-- Exact rational numbers as fractions with (by construction) positive
denominator, not necessarily reduced.  The engine only ever compares
rationals and copies them around — it never tests representation equality in
a branch — so no gcd normalization is needed; this keeps every operation
structurally computable (Batteries' `Rat` arithmetic is `@[irreducible]`
and does not reduce in the kernel). -/
structure Q where
  num : ℤ
  den : ℤ
deriving DecidableEq, Repr

instance (n : ℕ) : OfNat Q n := ⟨⟨(n : ℤ), 1⟩⟩

instance : NatCast Q := ⟨fun n => ⟨(n : ℤ), 1⟩⟩

instance : IntCast Q := ⟨fun n => ⟨n, 1⟩⟩

instance : Add Q := ⟨fun a b => ⟨a.num * b.den + b.num * a.den, a.den * b.den⟩⟩

instance : Neg Q := ⟨fun a => ⟨-a.num, a.den⟩⟩

instance : Sub Q := ⟨fun a b => a + -b⟩

instance : Mul Q := ⟨fun a b => ⟨a.num * b.num, a.den * b.den⟩⟩

/-- Division, sign-normalized so the denominator stays positive (division by
zero yields junk, as it would in JS; the engine only divides by positive
constants). -/
instance : Div Q := ⟨fun a b =>
  if b.num = 0 then ⟨0, 1⟩
  else if b.num < 0 then ⟨-(a.num * b.den), a.den * -b.num⟩
  else ⟨a.num * b.den, a.den * b.num⟩⟩

instance : LE Q := ⟨fun a b => a.num * b.den ≤ b.num * a.den⟩

instance : LT Q := ⟨fun a b => a.num * b.den < b.num * a.den⟩

instance (a b : Q) : Decidable (a ≤ b) :=
  inferInstanceAs (Decidable (a.num * b.den ≤ b.num * a.den))

instance (a b : Q) : Decidable (a < b) :=
  inferInstanceAs (Decidable (a.num * b.den < b.num * a.den))

instance : Max Q := ⟨fun a b => if a ≤ b then b else a⟩

instance : Min Q := ⟨fun a b => if a ≤ b then a else b⟩

/-- `Math.abs`. -/
def Q.abs (a : Q) : Q := ⟨|a.num|, a.den⟩

/-- `Math.floor` (valid for the positive denominators the engine builds). -/
def Q.floor (a : Q) : ℤ := Int.fdiv a.num a.den

/-- `Number.isInteger` (value-based). -/
def Q.isInt (a : Q) : Bool := Int.emod a.num a.den = 0

/-- JS `Math.round` (half-up, toward +∞). -/
def jsRound (q : Q) : ℤ := Q.floor (q + 1/2)

/-- Source `clampInt`: `Math.max(min, Math.min(max, Math.round(value)))`. -/
def clampInt (value : Q) (lo hi : ℤ) : ℤ := max lo (min hi (jsRound value))

/-- Source `clampNumber`. -/
def clampNumber (value lo hi : Q) : Q := max lo (min hi value)

/-- Insert into a `le`-ascending list, after every element that may stay
before `x` (the comparator reports "not after"). -/
def insertLE {α : Type} (le : α → α → Bool) (x : α) : List α → List α
  | [] => [x]
  | y :: ys => if le y x then y :: insertLE le x ys else x :: y :: ys

/-- The stable sort `Array.prototype.sort` performs (insertion sort: for a
total preorder comparator the stable ascending permutation is unique, so
any stable sort agrees with the source's). -/
def stableSortBy {α : Type} (le : α → α → Bool) (l : List α) : List α :=
  l.foldl (fun acc x => insertLE le x acc) []

/-- `a < b` on `Infinity`-extended priorities (`none` is `Infinity`). -/
def prioLT : Option ℤ → Option ℤ → Bool
  | some a, some b => a < b
  | some _, none => true
  | none, _ => false

/-- Source `shortestTileDx`: wrap-aware column distance. -/
def shortestTileDx (centerX tileX : ℤ) (n : ℤ) : ℤ :=
  min |tileX - centerX| (n - |tileX - centerX|)

/-- Tile id `(x, y, z)` as in the source `TileId`; the source's string key
`"z/x/y"` is injective on these, so the id itself is used as the cache key. -/
structure TileId where
  x : ℤ
  y : ℤ
  z : ℕ
deriving DecidableEq, Repr

/-- Source `TileState`. -/
inductive TState where
  | idle | queued | loading | ready | error
deriving DecidableEq, Repr

/-- Cache entry, mirroring the source `ActiveTile` minus the GPU objects
(`mesh`/`texture`); `meshVisible` keeps the `mesh.visible` flag the engine
itself writes and reads back. -/
structure MTile where
  tileId : TileId
  state : TState
  attempts : ℕ
  priority : Option ℤ
  lastWantedFrame : ℤ
  lastTouchedFrame : ℤ
  currentOpacity : Q
  targetOpacity : Q
  lastFadeUpdateMs : Q
  meshVisible : Bool
deriving DecidableEq

/-- Source `DesiredTile` (the debug-only `tileRect` geometry is omitted; the
key is the tile id itself). -/
structure DesiredTile where
  tileId : TileId
  priority : ℤ
deriving DecidableEq, Repr

/-- Source `LayerViewState`.  The model fixes `viewportBounds = null`
(radius mode); the `stateKey` string
`"zoom|centerX|centerY|tileRadius|none"` is injective on these fields, so
key equality is record equality, and the initial empty-string key is
`Option.none` at the use sites. -/
structure ViewState where
  zoom : ℕ
  centerX : ℤ
  centerY : ℤ
  tileRadius : ℕ
deriving DecidableEq, Repr

/-- Source `TileLodLevel` after `normalizeLodLevels` (zoom is an integer in
`[0,22]`; the remaining raw numeric overrides are floored at their use
sites, as in the source). -/
structure LodLevel where
  zoom : ℕ
  maxTiles : Option Q
  marginTiles : Option Q
  updateThrottleMs : Option Q
  zoomThrottleMs : Option Q
  immediateTileShift : Option Q
deriving DecidableEq, Repr

/-- Raw per-zoom override as supplied in the options. -/
structure LodLevelOpt where
  zoom : Q
  maxTiles : Option Q := none
  marginTiles : Option Q := none
  updateThrottleMs : Option Q := none
  zoomThrottleMs : Option Q := none
  immediateTileShift : Option Q := none
deriving DecidableEq, Repr

inductive YType where
  | xyz | tms
deriving DecidableEq, Repr

/-- The layer configuration: the `readonly` fields the constructor derives
from the options (geometry-only fields `_originMercator`, `_maxAnisotropy`
and the THREE.js scene objects are outside the core). -/
structure Config where
  enabled : Bool
  minZoom : ℕ
  maxZoom : ℕ
  tileRadius : ℕ
  maxDynamicTileRadius : ℕ
  opacity : Q
  zOffset : Q
  urlTemplate : String
  yType : YType
  subdomains : List String
  maxConcurrentRequests : ℕ
  maxCachedTiles : ℕ
  retainFrames : ℕ
  retryLimit : ℕ
  updateThrottleMs : ℕ
  zoomThrottleMs : ℕ
  immediateTileShift : ℕ
  lodLevels : List LodLevel
  debugOverlay : Bool
  enableProgressiveBlend : Bool
  fadeDurationMs : ℕ
  maxParentSearchDepth : ℕ
deriving DecidableEq, Repr

/-- Source `PlanarMapTileDebugInfo` (`renderedZoomStats` as zoom/count
pairs). -/
structure DebugInfo where
  enabled : Bool
  zoom : ℕ
  centerX : ℤ
  centerY : ℤ
  tileCount : ℕ
  tileRadius : ℕ
  queuedCount : ℕ
  loadingCount : ℕ
  readyCount : ℕ
  errorCount : ℕ
  requestedCount : ℕ
  renderedCount : ℕ
  renderedZoomStats : List (ℕ × ℕ)
deriving DecidableEq, Repr

abbrev TileMap := List (TileId × MTile)

/-- `Map.get` — first binding for the key. -/
def mapLookup : TileMap → TileId → Option MTile
  | [], _ => none
  | (k', t) :: rest, k => if k' = k then some t else mapLookup rest k

def mapContains (m : TileMap) (k : TileId) : Bool := (mapLookup m k).isSome

/-- `Map.set` — replace in place when present (JS `Map` keeps insertion
order), append otherwise. -/
def mapSet (m : TileMap) (k : TileId) (t : MTile) : TileMap :=
  if mapContains m k then
    m.map (fun p => if p.1 = k then (k, t) else p)
  else
    m ++ [(k, t)]

/-- `Map.delete`. -/
def mapErase (m : TileMap) (k : TileId) : TileMap := m.filter (fun p => p.1 ≠ k)

/-- The full engine state: the mutable fields of `PlanarMapTileLayer`
together with the immutable configuration and the ghost event bookkeeping. -/
structure Engine where
  cfg : Config
  tiles : TileMap
  queuedKeys : List TileId
  frame : ℤ
  stateKey : Option ViewState
  inflightCount : ℕ
  loadQueue : List TileId
  lastLayoutUpdateMs : Q
  pendingViewState : Option ViewState
  appliedViewState : Option ViewState
  activeDesiredTiles : List DesiredTile
  requestedCount : ℕ
  debugInfo : DebugInfo
  outstanding : List (TileId × ℕ)
  appliedLog : List ViewState
  disposeLog : List TileId
deriving DecidableEq

/-- Source `createTileShell` (geometry/material creation elided): a fresh
`idle` entry with infinite priority, `lastWantedFrame = -1`,
`lastTouchedFrame = this._frame`. -/
def createTileShell (tileId : TileId) (frame : ℤ) (now : Q) : MTile :=
  { tileId := tileId
    state := .idle
    attempts := 0
    priority := none
    lastWantedFrame := -1
    lastTouchedFrame := frame
    currentOpacity := 0
    targetOpacity := 0
    lastFadeUpdateMs := now
    meshVisible := false }

/-- Source `enqueueTileLoad`. -/
def enqueueTileLoad (e : Engine) (k : TileId) : Engine :=
  match mapLookup e.tiles k with
  | none => e
  | some t =>
    if t.state = .loading ∨ t.state = .queued ∨ t.state = .ready then e
    else
      let e := { e with tiles := mapSet e.tiles k { t with state := .queued } }
      if e.queuedKeys.contains k then e
      else { e with queuedKeys := e.queuedKeys ++ [k], loadQueue := e.loadQueue ++ [k] }

/-- Source `startTileLoad` up to the asynchronous fetch: state `loading`,
`attempts + 1`, one more in-flight slot; the ghost `outstanding` records the
issued `(key, attempt)` pair whose callback will later complete. -/
def startTileLoad (e : Engine) (k : TileId) : Engine :=
  match mapLookup e.tiles k with
  | none => e
  | some t =>
    { e with
      tiles := mapSet e.tiles k { t with state := .loading, attempts := t.attempts + 1 }
      inflightCount := e.inflightCount + 1
      outstanding := e.outstanding ++ [(k, t.attempts + 1)] }

/-- Source `pickBestQueueIndex`. -/
def pickBestQueueIndex (e : Engine) : ℕ :=
  (e.loadQueue.enum.foldl
    (fun (acc : ℕ × Option ℤ) p =>
      match mapLookup e.tiles p.2 with
      | none => acc
      | some t => if prioLT t.priority acc.2 then (p.1, t.priority) else acc)
    (0, none)).1

/-- The loop body recursion of `processLoadQueue`, with the iteration count
as structural fuel: every iteration removes one queue entry, so fuel equal
to the queue length (supplied by `processLoadQueue`) runs the source loop to
completion. -/
def processLoadQueueAux : ℕ → Engine → Engine
  | 0, e => e
  | Nat.succ fuel, e =>
    if e.inflightCount < e.cfg.maxConcurrentRequests ∧ e.loadQueue ≠ [] then
      let nextIndex := pickBestQueueIndex e
      match e.loadQueue[nextIndex]? with
      | none => e
      | some key =>
        let e' := { e with loadQueue := e.loadQueue.eraseIdx nextIndex
                           queuedKeys := e.queuedKeys.filter (· ≠ key) }
        match mapLookup e'.tiles key with
        | none => processLoadQueueAux fuel e'
        | some t =>
          if t.state = .queued then processLoadQueueAux fuel (startTileLoad e' key)
          else processLoadQueueAux fuel e'
    else e

/-- Source `processLoadQueue`: drain the queue while a concurrency slot is
free, dispatching the best-priority key; keys whose tile is gone or no
longer `queued` are dropped without consuming a slot. -/
def processLoadQueue (e : Engine) : Engine := processLoadQueueAux e.loadQueue.length e

/-- The body of the success callback in `startTileLoad` (texture plumbing
elided): release the slot, discard the ghost outstanding entry, and install
`ready` only if the completion is still current. -/
def handleSuccess (e : Engine) (k : TileId) (attempt : ℕ) : Engine :=
  let e := { e with inflightCount := e.inflightCount - 1
                    outstanding := e.outstanding.erase (k, attempt) }
  match mapLookup e.tiles k with
  | none => e
  | some current =>
    if current.attempts ≠ attempt then e
    else { e with tiles := mapSet e.tiles k { current with state := .ready } }

/-- The body of the failure callback in `startTileLoad`: release the slot,
and if still current mark `error`, re-queueing (via `idle`) while
`attempts ≤ retryLimit`. -/
def handleFailure (e : Engine) (k : TileId) (attempt : ℕ) : Engine :=
  let e := { e with inflightCount := e.inflightCount - 1
                    outstanding := e.outstanding.erase (k, attempt) }
  match mapLookup e.tiles k with
  | none => e
  | some current =>
    if current.attempts ≠ attempt then e
    else
      let e := { e with tiles := mapSet e.tiles k { current with state := .error } }
      if current.attempts ≤ e.cfg.retryLimit then
        let e := { e with tiles := mapSet e.tiles k { current with state := .idle } }
        enqueueTileLoad e k
      else e

/-- A fetch completion event: the corresponding callback body followed by
the queue drain both callbacks end with. -/
def completeLoad (e : Engine) (k : TileId) (attempt : ℕ) (ok : Bool) : Engine :=
  processLoadQueue (if ok then handleSuccess e k attempt else handleFailure e k attempt)

/-- Source `disposeTile` (geometry/texture release elided); the ghost
`disposeLog` records the disposal.  Note the key is removed from
`_queuedKeys` but not from `_loadQueue`. -/
def disposeTile (e : Engine) (k : TileId) : Engine :=
  { e with queuedKeys := e.queuedKeys.filter (· ≠ k)
           tiles := mapErase e.tiles k
           disposeLog := e.disposeLog ++ [k] }

/-- Source `getLodLevel` (linear search). -/
def getLodLevel (cfg : Config) (zoom : ℕ) : Option LodLevel :=
  cfg.lodLevels.find? (fun level => level.zoom = zoom)

/-- Source `defaultMaxTilesByZoom`. -/
def defaultMaxTilesByZoom (zoom : ℕ) : ℕ :=
  if zoom ≥ 18 then 64
  else if zoom ≥ 16 then 81
  else if zoom ≥ 14 then 100
  else if zoom ≥ 12 then 121
  else if zoom ≥ 10 then 144
  else if zoom ≥ 8 then 196
  else if zoom ≥ 6 then 256
  else if zoom ≥ 4 then 324
  else 400

/-- Source `collectDesiredTilesByRadius`: a `(2r+1)²` window around the
center, dropping out-of-range rows and wrapping columns. -/
def collectDesiredTilesByRadius (centerX centerY : ℤ) (zoom : ℕ) (radius : ℕ) :
    List DesiredTile :=
  let n : ℤ := (2 : ℤ) ^ zoom
  ((List.range (2 * radius + 1)).map (fun i => (i : ℤ) - radius)).flatMap
    (fun dy =>
      ((List.range (2 * radius + 1)).map (fun i => (i : ℤ) - radius)).filterMap
        (fun dx =>
          let tileY := centerY + dy
          if tileY < 0 ∨ tileY ≥ n then none
          else
            let tileX := wrapInt (centerX + dx) n
            some { tileId := { x := tileX, y := tileY, z := zoom }
                   priority := shortestTileDx centerX tileX n ^ 2 + dy * dy }))

/-- Source `collectDesiredTiles` with `viewportBounds = null` (radius mode):
sort by priority ascending (JS `sort` is stable) and truncate to the LOD
cap. -/
def collectDesiredTiles (cfg : Config) (s : ViewState) : List DesiredTile :=
  let lod := getLodLevel cfg s.zoom
  let maxTiles : ℤ :=
    max 16 (Q.floor ((lod.bind (·.maxTiles)).getD (defaultMaxTilesByZoom s.zoom : Q)))
  let list := collectDesiredTilesByRadius s.centerX s.centerY s.zoom s.tileRadius
  let list := stableSortBy (fun a b => decide (a.priority ≤ b.priority)) list
  list.take maxTiles.toNat

/-- The per-desired-tile body of the first loop in `applyViewState`:
create-if-absent, refresh priority and frame stamps, and enqueue from
`idle`, or from `error` while within the retry budget. -/
def applyDesiredStep (now : Q) (e : Engine) (d : DesiredTile) : Engine :=
  let e :=
    if mapContains e.tiles d.tileId then e
    else { e with tiles := mapSet e.tiles d.tileId (createTileShell d.tileId e.frame now) }
  match mapLookup e.tiles d.tileId with
  | none => e
  | some tile =>
    let tile := { tile with priority := some d.priority
                            lastWantedFrame := e.frame
                            lastTouchedFrame := e.frame }
    let e := { e with tiles := mapSet e.tiles d.tileId tile }
    if tile.state = .idle then enqueueTileLoad e d.tileId
    else if tile.state = .error ∧ tile.attempts ≤ e.cfg.retryLimit then
      enqueueTileLoad e d.tileId
    else e

/-- Comparator of the capacity-eviction sort
(`a.lastTouchedFrame - b.lastTouchedFrame || b.priority - a.priority`,
where `Infinity - Infinity` is `NaN`, treated as equal by `Array.sort`):
`a` may stay before `b` iff the comparator is not positive. -/
def evictLE (a b : TileId × MTile) : Bool :=
  a.2.lastTouchedFrame < b.2.lastTouchedFrame ∨
    (a.2.lastTouchedFrame = b.2.lastTouchedFrame ∧ ¬ prioLT a.2.priority b.2.priority)

/-- The capacity loop of `evictTiles`: walk the sorted candidates, disposing
until the cache is within `maxCachedTiles`. -/
def evictCapacityLoop : List (TileId × MTile) → Engine → Engine
  | [], e => e
  | c :: rest, e =>
    if e.tiles.length ≤ e.cfg.maxCachedTiles then e
    else evictCapacityLoop rest (disposeTile e c.1)

/-- Source `evictTiles`: the staleness pass (non-wanted, non-`loading`,
older than `retainFrames`) followed by the capacity pass over the
least-recently-touched, lowest-priority candidates. -/
def evictTiles (e : Engine) (wantedKeys : List TileId) : Engine :=
  let staleKeys :=
    (e.tiles.filter (fun p =>
      ¬ wantedKeys.contains p.1 ∧ p.2.state ≠ .loading ∧
        (e.cfg.retainFrames : ℤ) < e.frame - p.2.lastWantedFrame)).map (·.1)
  let e := staleKeys.foldl (fun e k =>
    if mapContains e.tiles k then disposeTile e k else e) e
  if e.tiles.length ≤ e.cfg.maxCachedTiles then e
  else
    let evictCandidates :=
      stableSortBy evictLE
        (e.tiles.filter (fun p => ¬ wantedKeys.contains p.1 ∧ p.2.state ≠ .loading))
    evictCapacityLoop evictCandidates e

/-- Source `applyViewState` (debug-overlay rendering elided): compute the
desired set, register/enqueue each desired tile, fade out long-unwanted
tiles, commit the state key and evict.  The ghost `appliedLog` records the
application. -/
def applyViewState (e : Engine) (s : ViewState) (now : Q) : Engine :=
  let desiredTiles := collectDesiredTiles e.cfg s
  let e := { e with requestedCount := desiredTiles.length
                    activeDesiredTiles := desiredTiles
                    appliedLog := e.appliedLog ++ [s] }
  let wantedKeys := desiredTiles.map (·.tileId)
  let e := desiredTiles.foldl (applyDesiredStep now) e
  let e := { e with tiles := e.tiles.map (fun (p : TileId × MTile) =>
    if ¬ wantedKeys.contains p.1 ∧ (e.cfg.retainFrames : ℤ) < e.frame - p.2.lastWantedFrame
    then (p.1, { p.2 with targetOpacity := 0 })
    else p) }
  let e := { e with stateKey := some s }
  evictTiles e wantedKeys

/-- The parent id one level up (`x/2, y/2, z-1`, floor division). -/
def ancestorKey (x y : ℤ) (z : ℕ) : TileId :=
  { x := Int.fdiv x 2, y := Int.fdiv y 2, z := z - 1 }

/-- Register a visited ancestor as a cache entry (created if absent), as the
walk in `findReadyAncestor` does. -/
def registerTile (e : Engine) (key : TileId) (now : Q) : Engine :=
  if mapContains e.tiles key then e
  else { e with tiles := mapSet e.tiles key (createTileShell key e.frame now) }

/-- The once-per-frame ancestor touch of `findReadyAncestor`: stamp the
frame counters and enqueue unless already loading/ready or out of retries,
recording the key in the per-frame visited set. -/
def touchAncestor (e : Engine) (key : TileId) (touched : List TileId) :
    Engine × List TileId :=
  if touched.contains key then (e, touched)
  else
    match mapLookup e.tiles key with
    | none => (e, touched ++ [key])
    | some parent =>
      let parent := { parent with lastWantedFrame := e.frame, lastTouchedFrame := e.frame }
      let e := { e with tiles := mapSet e.tiles key parent }
      if parent.state = .idle then (enqueueTileLoad e key, touched ++ [key])
      else if parent.state = .error ∧ parent.attempts ≤ e.cfg.retryLimit then
        (enqueueTileLoad e key, touched ++ [key])
      else (e, touched ++ [key])

/-- One step of the ancestor walk in `findReadyAncestor`: halve the
coordinates, register the parent, touch it once per frame, and stop at the
first `ready` ancestor. -/
def findReadyAncestorAux (now : Q) :
    Engine → ℤ → ℤ → ℕ → List TileId → ℕ → Engine × List TileId × Option TileId
  | e, _, _, _, touched, 0 => (e, touched, none)
  | e, x, y, z, touched, Nat.succ fuel =>
    if e.cfg.minZoom < z then
      let key := ancestorKey x y z
      let e := registerTile e key now
      let et := touchAncestor e key touched
      let e := et.1
      let touched := et.2
      match mapLookup e.tiles key with
      | some parent =>
        if parent.state = .ready then (e, touched, some key)
        else findReadyAncestorAux now e (Int.fdiv x 2) (Int.fdiv y 2) (z - 1) touched fuel
      | none => findReadyAncestorAux now e (Int.fdiv x 2) (Int.fdiv y 2) (z - 1) touched fuel
    else (e, touched, none)

/-- Source `findReadyAncestor`, started from a tile id with the configured
search depth as fuel (the loop bound `i < maxParentSearchDepth`). -/
def findReadyAncestor (e : Engine) (tileId : TileId) (touched : List TileId) (now : Q) :
    Engine × List TileId × Option TileId :=
  findReadyAncestorAux now e tileId.x tileId.y tileId.z touched e.cfg.maxParentSearchDepth

/-- Source `animateTileOpacity` (material opacity mirrors
`currentOpacity`): snap when progressive blend is off, else a linear ease
of `dt / fadeDurationMs` toward `targetOpacity`, clamped to the configured
opacity; the mesh is visible while the opacity exceeds `0.001`. -/
def animateTileOpacity (cfg : Config) (tile : MTile) (now : Q) : MTile :=
  if ¬ cfg.enableProgressiveBlend then
    let visible := tile.targetOpacity > 1/1000
    { tile with currentOpacity := if visible then cfg.opacity else 0
                meshVisible := visible
                lastFadeUpdateMs := now }
  else
    let dt := max 0 (now - tile.lastFadeUpdateMs)
    let tile := { tile with lastFadeUpdateMs := now }
    if dt ≤ 0 then tile
    else
      let tile :=
        if Q.abs (tile.targetOpacity - tile.currentOpacity) < 1/10000 then
          { tile with currentOpacity := tile.targetOpacity }
        else
          let step := min 1 (dt / (cfg.fadeDurationMs : Q))
          { tile with currentOpacity :=
              tile.currentOpacity + (tile.targetOpacity - tile.currentOpacity) * step }
      let tile := { tile with currentOpacity := clampNumber tile.currentOpacity 0 cfg.opacity }
      { tile with meshVisible := tile.currentOpacity > 1/1000 }

/-- The per-desired-tile body of the first loop in
`updateProgressiveVisibility`: a `ready` desired tile is marked visible and
re-stamped; otherwise the ancestor walk runs and the found fallback is
marked visible and re-stamped. -/
def visibilityStep (now : Q) (acc : Engine × List TileId × List TileId) (d : DesiredTile) :
    Engine × List TileId × List TileId :=
  let (e, vis, touched) := acc
  match mapLookup e.tiles d.tileId with
  | none => (e, vis, touched)
  | some current =>
    if current.state = .ready then
      ({ e with tiles := mapSet e.tiles d.tileId { current with lastWantedFrame := e.frame } },
        vis ++ [d.tileId], touched)
    else
      match findReadyAncestor e d.tileId touched now with
      | (e, touched, some a) =>
        match mapLookup e.tiles a with
        | some fallback =>
          ({ e with tiles := mapSet e.tiles a { fallback with lastWantedFrame := e.frame } },
            vis ++ [a], touched)
        | none => (e, vis, touched)
      | (e, touched, none) => (e, vis, touched)

/-- Source `updateProgressiveVisibility`: collect the visible keys over the
active desired set, then retarget and animate every tile's opacity (full
opacity iff visible, `ready` and wanted within `retainFrames`). -/
def updateProgressiveVisibility (e0 : Engine) (now : Q) : Engine :=
  let acc := e0.activeDesiredTiles.foldl (visibilityStep now) (e0, [], [])
  let e := acc.1
  let visibleKeys := acc.2.1
  { e with tiles := e.tiles.map (fun (p : TileId × MTile) =>
      let tile := p.2
      let age := e.frame - tile.lastWantedFrame
      let shouldBeVisible :=
        visibleKeys.contains p.1 ∧ tile.state = .ready ∧ age ≤ (e.cfg.retainFrames : ℤ)
      (p.1, animateTileOpacity e.cfg
        { tile with targetOpacity := if shouldBeVisible then e.cfg.opacity else 0 } now)) }

/-- Source `refreshDebugInfo`. -/
def refreshDebugInfo (e : Engine) (zoom : ℕ) (centerX centerY : ℤ) (tileRadius : ℕ) :
    Engine :=
  let tiles := e.tiles.map (·.2)
  let loadingCount := tiles.countP (fun t => t.state = .loading)
  let readyCount := tiles.countP (fun t => t.state = .ready)
  let errorCount := tiles.countP (fun t => t.state = .error)
  let rendered := tiles.filter (fun t =>
    t.state = .ready ∧ t.meshVisible ∧ t.currentOpacity > 1/1000)
  let zoomStats := rendered.foldl
    (fun (m : List (ℕ × ℕ)) t =>
      if m.any (fun p => p.1 = t.tileId.z) then
        m.map (fun p => if p.1 = t.tileId.z then (p.1, p.2 + 1) else p)
      else m ++ [(t.tileId.z, 1)])
    []
  { e with debugInfo :=
    { enabled := e.cfg.enabled
      zoom := zoom
      centerX := centerX
      centerY := centerY
      tileCount := e.tiles.length
      tileRadius := tileRadius
      queuedCount := e.loadQueue.length
      loadingCount := loadingCount
      readyCount := readyCount
      errorCount := errorCount
      requestedCount := e.requestedCount
      renderedCount := rendered.length
      renderedZoomStats := stableSortBy (fun a b => decide (b.1 ≤ a.1)) zoomStats } }

/-- Source `shouldApplyNow`: apply immediately on first application, on a
center shift of at least the immediate threshold, or on a zoom jump of 2;
otherwise wait out the zoom throttle (zoom or radius changed) or the update
throttle (pure panning), with per-zoom LOD overrides. -/
def shouldApplyNow (e : Engine) (next : ViewState) (nowMsValue : Q) : Bool :=
  match e.stateKey, e.appliedViewState with
  | none, _ => true
  | _, none => true
  | some _, some current =>
    let elapsed := nowMsValue - e.lastLayoutUpdateMs
    let centerShift := |next.centerX - current.centerX| + |next.centerY - current.centerY|
    let zoomShift := |(next.zoom : ℤ) - (current.zoom : ℤ)|
    let radiusShift := |(next.tileRadius : ℤ) - (current.tileRadius : ℤ)|
    let lod := getLodLevel e.cfg next.zoom
    let updateThrottleMs : ℤ :=
      max 16 (Q.floor ((lod.bind (·.updateThrottleMs)).getD (e.cfg.updateThrottleMs : Q)))
    let zoomThrottleMs : ℤ :=
      max updateThrottleMs
        (Q.floor ((lod.bind (·.zoomThrottleMs)).getD (e.cfg.zoomThrottleMs : Q)))
    let immediateTileShift : ℤ :=
      max 1 (Q.floor ((lod.bind (·.immediateTileShift)).getD (e.cfg.immediateTileShift : Q)))
    if centerShift ≥ immediateTileShift then true
    else if zoomShift ≥ 2 then true
    else if zoomShift ≥ 1 ∨ radiusShift ≥ 1 then elapsed ≥ (zoomThrottleMs : Q)
    else elapsed ≥ (updateThrottleMs : Q)

/-- The tail of `update` after the throttling/application decision: queue
drain, visibility pass and telemetry refresh (the telemetry center falls
back to the freshly computed view state when nothing was ever applied). -/
def updateTail (e : Engine) (vs : ViewState) (now : Q) : Engine :=
  let e := processLoadQueue e
  let e := updateProgressiveVisibility e now
  match e.appliedViewState with
  | some a => refreshDebugInfo e a.zoom a.centerX a.centerY a.tileRadius
  | none => refreshDebugInfo e vs.zoom vs.centerX vs.centerY vs.tileRadius

/-- The throttling decision and (possibly deferred) view-state application
of `update`: an unchanged-or-immediate update applies the stored pending
state if one exists, otherwise the fresh state; a deferred update stores
the fresh state as pending and re-applies nothing. -/
def updateApplyPhase (e : Engine) (vs : ViewState) (now : Q) : Engine :=
  let ea :=
    if some vs ≠ e.stateKey ∧ ¬ shouldApplyNow e vs now then
      ({ e with pendingViewState := some vs }, e.appliedViewState.getD vs)
    else
      match e.pendingViewState with
      | some pending => ({ e with pendingViewState := none }, pending)
      | none => (e, vs)
  let e := ea.1
  let applyState := ea.2
  if some applyState ≠ e.stateKey then
    let e := applyViewState e applyState now
    { e with lastLayoutUpdateMs := now, appliedViewState := some applyState }
  else e

/-- Source `update`.  The camera-derived computation of the next view state
(zoom pick, center tile, effective radius — external geometry, spec §6) is
the `vs` input; from there the throttling decision, application, queue
drain, visibility pass and telemetry refresh are as in the source. -/
def updateFn (e : Engine) (vs : ViewState) (now : Q) : Engine :=
  if ¬ e.cfg.enabled then e
  else
    let e := { e with frame := e.frame + 1 }
    updateTail (updateApplyPhase e vs now) vs now

/-- The engine state right after construction. -/
def initEngine (cfg : Config) : Engine :=
  { cfg := cfg
    tiles := []
    queuedKeys := []
    frame := 0
    stateKey := none
    inflightCount := 0
    loadQueue := []
    lastLayoutUpdateMs := 0
    pendingViewState := none
    appliedViewState := none
    activeDesiredTiles := []
    requestedCount := 0
    debugInfo :=
      { enabled := cfg.enabled
        zoom := cfg.minZoom
        centerX := 0
        centerY := 0
        tileCount := 0
        tileRadius := cfg.tileRadius
        queuedCount := 0
        loadingCount := 0
        readyCount := 0
        errorCount := 0
        requestedCount := 0
        renderedCount := 0
        renderedZoomStats := [] }
    outstanding := []
    appliedLog := []
    disposeLog := [] }

/-- The engine's event system: a per-frame `update` call, or the completion
(success or failure) of a dispatched fetch still outstanding. -/
inductive Step : Engine → Engine → Prop
  | update (e : Engine) (vs : ViewState) (now : Q) : Step e (updateFn e vs now)
  | complete (e : Engine) (k : TileId) (attempt : ℕ) (ok : Bool)
      (h : (k, attempt) ∈ e.outstanding) : Step e (completeLoad e k attempt ok)

def DEFAULT_URL_TEMPLATE : String := "https://tile.openstreetmap.org/{z}/{x}/{y}.png"

def DEFAULT_SUBDOMAINS : List String := ["a", "b", "c"]

/-- The digit-range pattern of `normalizeSubdomains`
(`/^(\d+)\s*-\s*(\d+)$/`). -/
def parseRangeDigits (cs : List Char) : Option (ℕ × ℕ) :=
  let d1 := cs.takeWhile Char.isDigit
  let rest := cs.dropWhile Char.isDigit
  if d1.isEmpty then none
  else
    match rest.dropWhile Char.isWhitespace with
    | [] => none
    | c :: rest2 =>
      if c ≠ '-' then none
      else
        let rest2 := rest2.dropWhile Char.isWhitespace
        let d2 := rest2.takeWhile Char.isDigit
        let rest3 := rest2.dropWhile Char.isDigit
        if d2.isEmpty ∨ ¬ rest3.isEmpty then none
        else some ((String.mk d1).toNat?.getD 0, (String.mk d2).toNat?.getD 0)

/-- The comma-split / char-split fallback of `normalizeSubdomains`. -/
def splitFallbackSubdomains (trimmed : String) : List String :=
  let split := ((trimmed.splitOn ",").map String.trim).filter (fun x => x.length > 0)
  if split.length > 0 then split
  else if trimmed.length > 1 then trimmed.data.map Char.toString
  else [trimmed]

/-- Source `normalizeSubdomains`: an array is trimmed/filtered with a
fallback to the defaults when it comes out empty; a string is parsed as a
numeric range, a comma list or individual characters. -/
def normalizeSubdomains : Option (List String ⊕ String) → List String
  | none => DEFAULT_SUBDOMAINS
  | some (.inl input) =>
    let out := (input.map String.trim).filter (fun x => x.length > 0)
    if out.length > 0 then out else DEFAULT_SUBDOMAINS
  | some (.inr s) =>
    let trimmed := s.trim
    if trimmed.length = 0 then DEFAULT_SUBDOMAINS
    else
      match parseRangeDigits trimmed.data with
      | some (start, stop) =>
        if start ≤ stop then (List.range (stop - start + 1)).map (fun i => toString (start + i))
        else splitFallbackSubdomains trimmed
      | none => splitFallbackSubdomains trimmed

/-- Source `normalizeLodLevels`: keep integral zooms in `[0, 22]`, sorted by
zoom descending. -/
def normalizeLodLevels : Option (List LodLevelOpt) → List LodLevel
  | none => []
  | some levels =>
    if levels.isEmpty then []
    else
      let out := (levels.filter (fun l => Q.isInt l.zoom ∧ 0 ≤ l.zoom ∧ l.zoom ≤ 22)).map
        (fun l =>
          { zoom := (Q.floor l.zoom).toNat
            maxTiles := l.maxTiles
            marginTiles := l.marginTiles
            updateThrottleMs := l.updateThrottleMs
            zoomThrottleMs := l.zoomThrottleMs
            immediateTileShift := l.immediateTileShift })
      stableSortBy (fun a b => decide (b.zoom ≤ a.zoom)) out

/-- Source `PlanarMapTileLayerOptions` for the fields the core consumes
(the geometry-only `originLon`/`originLat`/`maxAnisotropy` are carried but
feed only the external projection/texture plumbing). -/
structure Options where
  enabled : Option Bool := none
  originLon : Option Q := none
  originLat : Option Q := none
  minZoom : Option Q := none
  maxZoom : Option Q := none
  tileRadius : Option Q := none
  maxDynamicTileRadius : Option Q := none
  opacity : Option Q := none
  zOffset : Option Q := none
  urlTemplate : Option String := none
  yType : Option YType := none
  subdomains : Option (List String ⊕ String) := none
  maxAnisotropy : Option Q := none
  maxConcurrentRequests : Option Q := none
  maxCachedTiles : Option Q := none
  retainFrames : Option Q := none
  retryLimit : Option Q := none
  updateThrottleMs : Option Q := none
  zoomThrottleMs : Option Q := none
  immediateTileShift : Option Q := none
  lodLevels : Option (List LodLevelOpt) := none
  debugOverlay : Option Bool := none
  enableProgressiveBlend : Option Bool := none
  fadeDurationMs : Option Q := none
  maxParentSearchDepth : Option Q := none
deriving DecidableEq

/-- The `PlanarMapTileLayer` constructor's option normalization: every
option is clamped/defaulted, exactly as in the source constructor. -/
def mkConfig (options : Options) : Config :=
  let minZoom := (clampInt (options.minZoom.getD 0) 0 22).toNat
  let maxZoom := (clampInt (options.maxZoom.getD 18) 0 22).toNat
  let tileRadius := (max 0 (Q.floor (options.tileRadius.getD 2))).toNat
  let updateThrottleMs := (max 16 (Q.floor (options.updateThrottleMs.getD 80))).toNat
  { enabled := options.enabled.getD true
    minZoom := minZoom
    maxZoom := maxZoom
    tileRadius := tileRadius
    maxDynamicTileRadius :=
      (max (tileRadius : ℤ) (Q.floor (options.maxDynamicTileRadius.getD 10))).toNat
    opacity := clampNumber (options.opacity.getD 1) 0 1
    zOffset := options.zOffset.getD (-(35/100))
    urlTemplate := options.urlTemplate.getD DEFAULT_URL_TEMPLATE
    yType := options.yType.getD .xyz
    subdomains := normalizeSubdomains options.subdomains
    maxConcurrentRequests := (max 1 (Q.floor (options.maxConcurrentRequests.getD 8))).toNat
    maxCachedTiles := (max 16 (Q.floor (options.maxCachedTiles.getD 600))).toNat
    retainFrames := (max 0 (Q.floor (options.retainFrames.getD 90))).toNat
    retryLimit := (max 0 (Q.floor (options.retryLimit.getD 2))).toNat
    updateThrottleMs := updateThrottleMs
    zoomThrottleMs :=
      (max (updateThrottleMs : ℤ) (Q.floor (options.zoomThrottleMs.getD 140))).toNat
    immediateTileShift := (max 1 (Q.floor (options.immediateTileShift.getD 2))).toNat
    lodLevels := normalizeLodLevels options.lodLevels
    debugOverlay := options.debugOverlay.getD true
    enableProgressiveBlend := options.enableProgressiveBlend.getD true
    fadeDurationMs := (max 30 (Q.floor (options.fadeDurationMs.getD 180))).toNat
    maxParentSearchDepth := (max 1 (Q.floor (options.maxParentSearchDepth.getD 6))).toNat }

/-- Source `PlanarMapTileLayer` constructor as a fallible construction: the
result type is `Except` so that "construction fails fast" is statable
against it; the constructor body contains no `throw` path, so it always
returns `Except.ok` of the normalized configuration. -/
def mkLayer (options : Options) : Except String Config :=
  Except.ok (mkConfig options)

/-- Source `pickSubdomain`: deterministic pseudo-random pick by
`|x + y + z| mod count`. -/
def pickSubdomain (cfg : Config) (tileId : TileId) : String :=
  if cfg.subdomains.length = 0 then ""
  else
    (cfg.subdomains[(tileId.x + tileId.y + (tileId.z : ℤ)).natAbs % cfg.subdomains.length]?).getD ""

/-- The pure readiness scan of the ancestor walk: the same
coordinate-halving iteration as `findReadyAncestorAux` with the cache
registration side effects stripped, returning the first (nearest) `ready`
ancestor; used to state which ancestor the walk finds. -/
def nearestReadyAncestorAux (tiles : TileMap) (minZoom : ℕ) :
    ℤ → ℤ → ℕ → ℕ → Option TileId
  | _, _, _, 0 => none
  | x, y, z, Nat.succ fuel =>
    if minZoom < z then
      let key := ancestorKey x y z
      match mapLookup tiles key with
      | some parent =>
        if parent.state = .ready then some key
        else nearestReadyAncestorAux tiles minZoom (Int.fdiv x 2) (Int.fdiv y 2) (z - 1) fuel
      | none => nearestReadyAncestorAux tiles minZoom (Int.fdiv x 2) (Int.fdiv y 2) (z - 1) fuel
    else none

/-- `nearestReadyAncestorAux` from a tile id with the configured depth. -/
def nearestReadyAncestor (e : Engine) (tileId : TileId) : Option TileId :=
  nearestReadyAncestorAux e.tiles e.cfg.minZoom tileId.x tileId.y tileId.z
    e.cfg.maxParentSearchDepth

/-- Whether the cache holds a `ready` tile at a key (the only fact the
ancestor scan reads). -/
def isReadyAt (m : TileMap) (k : TileId) : Bool :=
  match mapLookup m k with
  | some t => decide (t.state = .ready)
  | none => false

/-- The in-flight budget invariant: the `_inflightCount` counter equals the
number of dispatched, uncompleted loads and never exceeds
`maxConcurrentRequests`. -/
def EngineWf (e : Engine) : Prop :=
  e.inflightCount = e.outstanding.length ∧
    e.inflightCount ≤ e.cfg.maxConcurrentRequests

instance (e : Engine) : Decidable (EngineWf e) := by
  unfold EngineWf; infer_instance

/-- The load-queue/dedup-set coupling: `_queuedKeys` tracks exactly the
queued keys and the queue holds no duplicates. -/
def QueueDedup (e : Engine) : Prop :=
  (∀ k ∈ e.queuedKeys, k ∈ e.loadQueue) ∧
    (∀ k ∈ e.loadQueue, k ∈ e.queuedKeys) ∧ e.loadQueue.Nodup

instance (e : Engine) : Decidable (QueueDedup e) := by
  unfold QueueDedup; infer_instance

/-- A tile in terminal `error`: its retry budget is exhausted. -/
def TerminalError (e : Engine) (k : TileId) (a : ℕ) : Prop :=
  ∃ t, mapLookup e.tiles k = some t ∧ t.state = .error ∧ t.attempts = a ∧
    e.cfg.retryLimit < a

instance (e : Engine) (k : TileId) (a : ℕ) : Decidable (TerminalError e k a) := by
  unfold TerminalError
  cases mapLookup e.tiles k with
  | none => exact isFalse (by rintro ⟨t, h, -⟩; cases h)
  | some t =>
    exact decidable_of_iff (t.state = .error ∧ t.attempts = a ∧ e.cfg.retryLimit < a)
      ⟨fun h => ⟨t, rfl, h⟩, fun ⟨t', h, h'⟩ => by cases h; exact h'⟩

/-- A run of `update` calls each of which the throttle defers (state key
changed, `shouldApplyNow` false at the state the call sees). -/
def deferredRun : Engine → List (ViewState × Q) → Bool
  | _, [] => true
  | e, (v, t) :: rest =>
    (decide (some v ≠ e.stateKey) && !shouldApplyNow e v t) && deferredRun (updateFn e v t) rest

/-- Retry scenario (spec Scenario B): `retryLimit = 2`, a single desired
tile at the minimum zoom (no ancestor fallback), progressive blend off. -/
def cfgB : Config := mkConfig { minZoom := some 2, enableProgressiveBlend := some false }

def vsB : ViewState := { zoom := 2, centerX := 1, centerY := 1, tileRadius := 0 }

def tB : TileId := { x := 1, y := 1, z := 2 }

def exB1 : Engine := updateFn (initEngine cfgB) vsB 0

def exB2 : Engine := completeLoad exB1 tB 1 false

def exB3 : Engine := completeLoad exB2 tB 2 false

def exB4 : Engine := completeLoad exB3 tB 3 false

def exB5 : Engine := updateFn exB4 vsB 100

/-- Idempotence scenario: one desired tile whose ancestors are registered by
the visibility pass of the first update. -/
def cfgF : Config := mkConfig { enableProgressiveBlend := some false }

def vsF : ViewState := { zoom := 2, centerX := 1, centerY := 1, tileRadius := 0 }

def pF : TileId := { x := 0, y := 0, z := 1 }

def exF1 : Engine := updateFn (initEngine cfgF) vsF 0

def exF2 : Engine := updateFn exF1 vsF 1000

/-- Cache-bound scenario: 25 desired tiles against the minimum capacity 16. -/
def cfgG : Config := mkConfig { maxCachedTiles := some 16, enableProgressiveBlend := some false }

def vsG : ViewState := { zoom := 3, centerX := 4, centerY := 4, tileRadius := 2 }

def exG : Engine := applyViewState { initEngine cfgG with frame := 1 } vsG 0

/-- Queue-dedup scenario: one slot, zero retain frames, so a queued tile is
evicted while its key is still in the load queue and then recreated. -/
def cfgH : Config :=
  mkConfig { maxConcurrentRequests := some 1, retainFrames := some 0
             enableProgressiveBlend := some false }

def vsH1 : ViewState := { zoom := 2, centerX := 1, centerY := 1, tileRadius := 1 }

def vsH2 : ViewState := { zoom := 2, centerX := 3, centerY := 3, tileRadius := 1 }

def kH : TileId := { x := 0, y := 0, z := 2 }

def exH1 : Engine := updateFn (initEngine cfgH) vsH1 0

def exH2 : Engine := updateFn exH1 vsH2 1000

def exH3 : Engine := updateFn exH2 vsH1 2000

/-- Throttle scenario (spec Scenario D): defaults (`updateThrottleMs = 80`,
`immediateTileShift = 2`), a pan of one tile at t=50 deferred, applied at
t=85. -/
def cfgD : Config := mkConfig { enableProgressiveBlend := some false }

def vsD0 : ViewState := { zoom := 2, centerX := 1, centerY := 1, tileRadius := 0 }

def vsD1 : ViewState := { zoom := 2, centerX := 2, centerY := 1, tileRadius := 0 }

def exD0 : Engine := updateFn (initEngine cfgD) vsD0 0

/-- Ancestor-fallback scenario: a queued tile at zoom 2 whose zoom-1 parent
is `ready`. -/
def cfgK : Config := mkConfig { enableProgressiveBlend := some false }

def tK : TileId := { x := 1, y := 1, z := 2 }

def pK : TileId := { x := 0, y := 0, z := 1 }

def exK : Engine :=
  { initEngine cfgK with
      frame := 5
      tiles := [(tK, { createTileShell tK 5 0 with state := .queued }),
                (pK, { createTileShell pK 5 0 with state := .ready })]
      activeDesiredTiles := [{ tileId := tK, priority := 0 }] }

/-- Disabled-layer configuration. -/
def cfgOff : Config := mkConfig { enabled := some false }

set_option maxRecDepth 100000

/-- C10: with `enabled = false` every `update` call is a complete no-op on
the engine state — no frame increment, no cache mutation, no dispatch, no
telemetry change (the guard `if (!this._enabled) return` is the first
statement of `update`). -/
theorem claim_c10 (e : Engine) (vs : ViewState) (now : Q) (h : e.cfg.enabled = false) :
    updateFn e vs now = e := by
  simp [updateFn, h]

/-- C10 witness: the disabled layer's first update returns the construction
state unchanged. -/
theorem claim_c10_witness :
    (initEngine cfgOff).cfg.enabled = false ∧
      updateFn (initEngine cfgOff) vsD0 0 = initEngine cfgOff :=
  ⟨by decide, claim_c10 _ _ _ (by decide)⟩

/-- C8 counterexample: a configuration with an empty subdomain list — and
one with `minZoom > maxZoom` — constructs successfully (the claim says
construction fails fast); the empty list is silently replaced by the
default subdomains. -/
theorem claim_c8_counterexample :
    (mkLayer { subdomains := some (.inl []) }).isOk = true ∧
      (mkConfig { subdomains := some (.inl []) }).subdomains = ["a", "b", "c"] ∧
      (mkLayer { minZoom := some 9, maxZoom := some 3 }).isOk = true ∧
      (mkConfig { minZoom := some 9, maxZoom := some 3 }).minZoom = 9 ∧
      (mkConfig { minZoom := some 9, maxZoom := some 3 }).maxZoom = 3 :=
  ⟨rfl, by decide, rfl, by decide, by decide⟩

/-- C8 amended: construction never fails — every option set yields a
configuration with clamped/normalized values (zoom bounds clamped to
`[0, 22]` independently, without a `minZoom ≤ maxZoom` check), and an empty
subdomain list is silently replaced by the defaults, so the configured
subdomain list is never empty. -/
theorem claim_c8_amended (options : Options) :
    mkLayer options = Except.ok (mkConfig options) ∧
      (mkConfig options).subdomains ≠ [] := by
  refine ⟨rfl, ?_⟩
  show normalizeSubdomains options.subdomains ≠ []
  match hsub : options.subdomains with
  | none => simp [normalizeSubdomains, DEFAULT_SUBDOMAINS]
  | some (.inl arr) =>
    simp only [normalizeSubdomains]
    split
    · next h =>
      intro hnil
      rw [hnil] at h
      simp at h
    · simp [DEFAULT_SUBDOMAINS]
  | some (.inr s) =>
    simp only [normalizeSubdomains]
    split
    · simp [DEFAULT_SUBDOMAINS]
    · split
      · next h =>
        split
        · simp
        · simp only [splitFallbackSubdomains]
          split
          · next hs =>
            intro hnil
            rw [hnil] at hs
            simp at hs
          · split
            · next hlen =>
              intro hnil
              have hlen' : s.trim.data.length > 1 := hlen
              rw [List.map_eq_nil_iff.mp hnil] at hlen'
              simp at hlen'
            · simp
      · simp only [splitFallbackSubdomains]
        split
        · next hs =>
          intro hnil
          rw [hnil] at hs
          simp at hs
        · split
          · next hlen =>
            intro hnil
            have hlen' : s.trim.data.length > 1 := hlen
            rw [List.map_eq_nil_iff.mp hnil] at hlen'
            simp at hlen'
          · simp

/-- C4 counterexample: applying `vsG` (25 desired tiles at zoom 3) with
`maxCachedTiles = 16` ends its eviction pass with 25 cache entries and not a
single `loading` tile — the excess entries are freshly wanted `queued`
tiles, which the capacity pass also never evicts, so the bound is exceeded
without being blocked by `Loading` tiles. -/
theorem claim_c4_counterexample :
    cfgG.maxCachedTiles = 16 ∧ exG.tiles.length = 25 ∧
      (exG.tiles.map (·.2)).countP (fun t => t.state = .loading) = 0 := by
  refine ⟨by decide, by decide, by decide⟩

/-- C2 counterexample: with `retryLimit = 2`, after the second current
failure the tile is re-queued by the failure callback (state `queued`, key
back in the load queue) and immediately re-dispatched (state `loading`,
`attempts = 3`) — not terminal `Error` — and telemetry still reports
`errorCount = 0` on the next update. -/
theorem claim_c2_counterexample :
    cfgB.retryLimit = 2 ∧
      (mapLookup (handleFailure exB2 tB 2).tiles tB).map (·.state) = some .queued ∧
      tB ∈ (handleFailure exB2 tB 2).loadQueue ∧
      (mapLookup exB3.tiles tB).map (fun t => (t.state, t.attempts)) = some (.loading, 3) ∧
      (updateFn exB3 vsB 50).debugInfo.errorCount = 0 := by
  refine ⟨by decide, by decide, by decide, by decide, by decide⟩

/-- C2 amended: with `retryLimit = 2` the tile reaches terminal `Error`
only after its third failure (`attempts = 3 > retryLimit`); from then on
`errorCount = 1` in telemetry and the tile is not re-queued by the next
update of the unchanged desired set (the load queue stays empty). -/
theorem claim_c2_amended :
    cfgB.retryLimit = 2 ∧
      (mapLookup exB4.tiles tB).map (fun t => (t.state, t.attempts)) = some (.error, 3) ∧
      exB4.loadQueue = [] ∧
      exB5.debugInfo.errorCount = 1 ∧
      (mapLookup exB5.tiles tB).map (fun t => (t.state, t.attempts)) = some (.error, 3) ∧
      exB5.loadQueue = [] := by
  refine ⟨by decide, by decide, by decide, by decide, by decide, by decide⟩

/-- C9 counterexample: tile `kH` is enqueued, evicted while still queued
(`disposeTile` removes it from `_queuedKeys` but leaves its key in
`_loadQueue`), recreated by the next view state and enqueued again — after
which its key sits in the pending load queue twice. -/
theorem claim_c9_counterexample :
    kH ∈ exH2.disposeLog ∧ exH2.loadQueue.count kH = 1 ∧
      (mapLookup exH2.tiles kH) = none ∧
      exH3.loadQueue.count kH = 2 ∧
      (mapLookup exH3.tiles kH).map (·.state) = some .queued := by
  refine ⟨by decide, by decide, by decide, by decide, by decide⟩

/-- C6 counterexample: two consecutive updates with the identical state key
and no completions in between — the second update dispatches the ancestor
tiles the first update's visibility pass enqueued after its queue drain:
parent `pF` goes from `(queued, attempts 0)` to `(loading, attempts 1)` and
two new fetches are issued. -/
theorem claim_c6_counterexample :
    exF1.stateKey = some vsF ∧ exF2.stateKey = some vsF ∧
      exF1.pendingViewState = none ∧
      (mapLookup exF1.tiles pF).map (fun t => (t.state, t.attempts)) = some (.queued, 0) ∧
      (mapLookup exF2.tiles pF).map (fun t => (t.state, t.attempts)) = some (.loading, 1) ∧
      exF2.outstanding.length = exF1.outstanding.length + 2 := by
  refine ⟨by decide, by decide, by decide, by decide, by decide, by decide⟩

theorem foldl_preserve {α β : Type} {f : β → α → β} {P : β → Prop}
    (h : ∀ b a, P b → P (f b a)) : ∀ (l : List α) (b : β), P b → P (List.foldl f b l) := by
  intro l
  induction l with
  | nil => intro b hb; exact hb
  | cons x xs ih => intro b hb; exact ih _ (h b x hb)

theorem mapLookup_append (m1 m2 : TileMap) (k : TileId) :
    mapLookup (m1 ++ m2) k =
      match mapLookup m1 k with
      | some t => some t
      | none => mapLookup m2 k := by
  induction m1 with
  | nil => rfl
  | cons p rest ih =>
    obtain ⟨k', t'⟩ := p
    by_cases h : k' = k <;> simp [mapLookup, h, ih]

theorem mapLookup_cons_self (k : TileId) (t : MTile) (rest : TileMap) :
    mapLookup ((k, t) :: rest) k = some t := by
  simp [mapLookup]

theorem mapLookup_cons_ne (k0 k : TileId) (t : MTile) (rest : TileMap) (h : k0 ≠ k) :
    mapLookup ((k0, t) :: rest) k = mapLookup rest k := by
  simp only [mapLookup]
  rw [if_neg h]

theorem mapLookup_map_replace_self (m : TileMap) (k : TileId) (t : MTile)
    (hc : mapContains m k = true) :
    mapLookup (m.map (fun p => if p.1 = k then (k, t) else p)) k = some t := by
  induction m with
  | nil => simp [mapContains, mapLookup] at hc
  | cons p rest ih =>
    obtain ⟨k', t'⟩ := p
    by_cases h : k' = k
    · subst h
      have h' : (if (k', t').1 = k' then (k', t) else (k', t')) = (k', t) := by
        simp
      rw [List.map_cons, h', mapLookup_cons_self]
    · have h' : (if (k', t').1 = k then (k, t) else (k', t')) = (k', t') := by
        simp [h]
      rw [List.map_cons, h', mapLookup_cons_ne _ _ _ _ h]
      exact ih (by simpa [mapContains, mapLookup_cons_ne _ _ _ _ h] using hc)

theorem mapLookup_map_replace_ne (m : TileMap) (k k' : TileId) (t : MTile) (h : k' ≠ k) :
    mapLookup (m.map (fun p => if p.1 = k then (k, t) else p)) k' = mapLookup m k' := by
  induction m with
  | nil => rfl
  | cons p rest ih =>
    obtain ⟨k0, t0⟩ := p
    by_cases h0 : k0 = k
    · subst h0
      have h' : (if (k0, t0).1 = k0 then (k0, t) else (k0, t0)) = (k0, t) := by
        simp
      rw [List.map_cons, h', mapLookup_cons_ne _ _ _ _ (Ne.symm h),
        mapLookup_cons_ne _ _ _ _ (Ne.symm h), ih]
    · have h' : (if (k0, t0).1 = k then (k, t) else (k0, t0)) = (k0, t0) := by
        simp [h0]
      rw [List.map_cons, h']
      by_cases h1 : k0 = k'
      · subst h1
        rw [mapLookup_cons_self, mapLookup_cons_self]
      · rw [mapLookup_cons_ne _ _ _ _ h1, mapLookup_cons_ne _ _ _ _ h1, ih]

theorem mapLookup_mapSet_self (m : TileMap) (k : TileId) (t : MTile) :
    mapLookup (mapSet m k t) k = some t := by
  unfold mapSet
  split
  · next hc => exact mapLookup_map_replace_self m k t hc
  · rw [mapLookup_append]
    next hc =>
    have hm : mapLookup m k = none := by
      cases hl : mapLookup m k with
      | none => rfl
      | some t' => exact absurd (by simp [mapContains, hl]) hc
    rw [hm, mapLookup_cons_self]

theorem mapLookup_mapSet_ne (m : TileMap) (k k' : TileId) (t : MTile) (h : k' ≠ k) :
    mapLookup (mapSet m k t) k' = mapLookup m k' := by
  unfold mapSet
  split
  · exact mapLookup_map_replace_ne m k k' t h
  · rw [mapLookup_append]
    cases hl : mapLookup m k' with
    | some t' => rfl
    | none => rw [mapLookup_cons_ne _ _ _ _ (Ne.symm h)]; rfl

theorem mapLookup_mapErase_self (m : TileMap) (k : TileId) :
    mapLookup (mapErase m k) k = none := by
  induction m with
  | nil => rfl
  | cons p rest ih =>
    obtain ⟨k0, t0⟩ := p
    by_cases h : k0 = k
    · simpa [mapErase, h] using ih
    · simp only [mapErase, List.filter_cons] at ih ⊢
      rw [if_pos (by simpa using h)]
      rw [mapLookup_cons_ne _ _ _ _ h]
      exact ih

theorem mapLookup_mapErase_ne (m : TileMap) (k k' : TileId) (h : k' ≠ k) :
    mapLookup (mapErase m k) k' = mapLookup m k' := by
  induction m with
  | nil => rfl
  | cons p rest ih =>
    obtain ⟨k0, t0⟩ := p
    by_cases h0 : k0 = k
    · subst h0
      simp only [mapErase, List.filter_cons] at ih ⊢
      rw [if_neg (by simp), mapLookup_cons_ne _ _ _ _ (Ne.symm h)]
      exact ih
    · simp only [mapErase, List.filter_cons] at ih ⊢
      rw [if_pos (by simpa using h0)]
      by_cases h1 : k0 = k'
      · subst h1
        rw [mapLookup_cons_self, mapLookup_cons_self]
      · rw [mapLookup_cons_ne _ _ _ _ h1, mapLookup_cons_ne _ _ _ _ h1, ih]

theorem enqueueTileLoad_persist (e : Engine) (k : TileId) :
    (enqueueTileLoad e k).cfg = e.cfg ∧
    (enqueueTileLoad e k).frame = e.frame ∧
    (enqueueTileLoad e k).stateKey = e.stateKey ∧
    (enqueueTileLoad e k).inflightCount = e.inflightCount ∧
    (enqueueTileLoad e k).lastLayoutUpdateMs = e.lastLayoutUpdateMs ∧
    (enqueueTileLoad e k).pendingViewState = e.pendingViewState ∧
    (enqueueTileLoad e k).appliedViewState = e.appliedViewState ∧
    (enqueueTileLoad e k).activeDesiredTiles = e.activeDesiredTiles ∧
    (enqueueTileLoad e k).requestedCount = e.requestedCount ∧
    (enqueueTileLoad e k).debugInfo = e.debugInfo ∧
    (enqueueTileLoad e k).outstanding = e.outstanding ∧
    (enqueueTileLoad e k).appliedLog = e.appliedLog ∧
    (enqueueTileLoad e k).disposeLog = e.disposeLog := by
  unfold enqueueTileLoad
  cases mapLookup e.tiles k with
  | none => simp
  | some t =>
    by_cases h1 : (t.state = TState.loading ∨ t.state = TState.queued ∨ t.state = TState.ready)
    · simp [h1]
    · by_cases h2 : k ∈ e.queuedKeys <;> simp [h1, h2]

theorem startTileLoad_persist (e : Engine) (k : TileId) :
    (startTileLoad e k).cfg = e.cfg ∧
    (startTileLoad e k).frame = e.frame ∧
    (startTileLoad e k).stateKey = e.stateKey ∧
    (startTileLoad e k).loadQueue = e.loadQueue ∧
    (startTileLoad e k).queuedKeys = e.queuedKeys ∧
    (startTileLoad e k).lastLayoutUpdateMs = e.lastLayoutUpdateMs ∧
    (startTileLoad e k).pendingViewState = e.pendingViewState ∧
    (startTileLoad e k).appliedViewState = e.appliedViewState ∧
    (startTileLoad e k).activeDesiredTiles = e.activeDesiredTiles ∧
    (startTileLoad e k).requestedCount = e.requestedCount ∧
    (startTileLoad e k).debugInfo = e.debugInfo ∧
    (startTileLoad e k).appliedLog = e.appliedLog ∧
    (startTileLoad e k).disposeLog = e.disposeLog := by
  unfold startTileLoad
  cases mapLookup e.tiles k <;> simp

theorem disposeTile_persist (e : Engine) (k : TileId) :
    (disposeTile e k).cfg = e.cfg ∧
    (disposeTile e k).frame = e.frame ∧
    (disposeTile e k).stateKey = e.stateKey ∧
    (disposeTile e k).inflightCount = e.inflightCount ∧
    (disposeTile e k).loadQueue = e.loadQueue ∧
    (disposeTile e k).lastLayoutUpdateMs = e.lastLayoutUpdateMs ∧
    (disposeTile e k).pendingViewState = e.pendingViewState ∧
    (disposeTile e k).appliedViewState = e.appliedViewState ∧
    (disposeTile e k).activeDesiredTiles = e.activeDesiredTiles ∧
    (disposeTile e k).requestedCount = e.requestedCount ∧
    (disposeTile e k).debugInfo = e.debugInfo ∧
    (disposeTile e k).outstanding = e.outstanding ∧
    (disposeTile e k).appliedLog = e.appliedLog := by
  unfold disposeTile
  simp

theorem applyDesiredStep_persist (now : Q) (e : Engine) (d : DesiredTile) :
    (applyDesiredStep now e d).cfg = e.cfg ∧
    (applyDesiredStep now e d).frame = e.frame ∧
    (applyDesiredStep now e d).stateKey = e.stateKey ∧
    (applyDesiredStep now e d).inflightCount = e.inflightCount ∧
    (applyDesiredStep now e d).lastLayoutUpdateMs = e.lastLayoutUpdateMs ∧
    (applyDesiredStep now e d).pendingViewState = e.pendingViewState ∧
    (applyDesiredStep now e d).appliedViewState = e.appliedViewState ∧
    (applyDesiredStep now e d).activeDesiredTiles = e.activeDesiredTiles ∧
    (applyDesiredStep now e d).requestedCount = e.requestedCount ∧
    (applyDesiredStep now e d).debugInfo = e.debugInfo ∧
    (applyDesiredStep now e d).outstanding = e.outstanding ∧
    (applyDesiredStep now e d).appliedLog = e.appliedLog ∧
    (applyDesiredStep now e d).disposeLog = e.disposeLog := by
  unfold applyDesiredStep
  by_cases hc : mapContains e.tiles d.tileId
  · simp only [hc, if_true]
    cases hl : mapLookup e.tiles d.tileId with
    | none => simp
    | some tile =>
      simp only [hl]
      split
      · exact enqueueTileLoad_persist _ _
      · split
        · exact enqueueTileLoad_persist _ _
        · exact ⟨rfl, rfl, rfl, rfl, rfl, rfl, rfl, rfl, rfl, rfl, rfl, rfl, rfl⟩
  · simp only [Bool.not_eq_true] at hc
    simp only [hc, Bool.false_eq_true, if_false, mapLookup_mapSet_self]
    split
    · exact enqueueTileLoad_persist _ _
    · split
      · exact enqueueTileLoad_persist _ _
      · exact ⟨rfl, rfl, rfl, rfl, rfl, rfl, rfl, rfl, rfl, rfl, rfl, rfl, rfl⟩
@[simp] theorem enqueueTileLoad_cfg (e : Engine) (k : TileId) :
    (enqueueTileLoad e k).cfg = e.cfg := (enqueueTileLoad_persist e k).1

@[simp] theorem enqueueTileLoad_frame (e : Engine) (k : TileId) :
    (enqueueTileLoad e k).frame = e.frame := (enqueueTileLoad_persist e k).2.1

@[simp] theorem enqueueTileLoad_stateKey (e : Engine) (k : TileId) :
    (enqueueTileLoad e k).stateKey = e.stateKey := (enqueueTileLoad_persist e k).2.2.1

@[simp] theorem enqueueTileLoad_inflightCount (e : Engine) (k : TileId) :
    (enqueueTileLoad e k).inflightCount = e.inflightCount := (enqueueTileLoad_persist e k).2.2.2.1

@[simp] theorem enqueueTileLoad_lastLayoutUpdateMs (e : Engine) (k : TileId) :
    (enqueueTileLoad e k).lastLayoutUpdateMs = e.lastLayoutUpdateMs := (enqueueTileLoad_persist e k).2.2.2.2.1

@[simp] theorem enqueueTileLoad_pendingViewState (e : Engine) (k : TileId) :
    (enqueueTileLoad e k).pendingViewState = e.pendingViewState := (enqueueTileLoad_persist e k).2.2.2.2.2.1

@[simp] theorem enqueueTileLoad_appliedViewState (e : Engine) (k : TileId) :
    (enqueueTileLoad e k).appliedViewState = e.appliedViewState := (enqueueTileLoad_persist e k).2.2.2.2.2.2.1

@[simp] theorem enqueueTileLoad_activeDesiredTiles (e : Engine) (k : TileId) :
    (enqueueTileLoad e k).activeDesiredTiles = e.activeDesiredTiles := (enqueueTileLoad_persist e k).2.2.2.2.2.2.2.1

@[simp] theorem enqueueTileLoad_requestedCount (e : Engine) (k : TileId) :
    (enqueueTileLoad e k).requestedCount = e.requestedCount := (enqueueTileLoad_persist e k).2.2.2.2.2.2.2.2.1

@[simp] theorem enqueueTileLoad_debugInfo (e : Engine) (k : TileId) :
    (enqueueTileLoad e k).debugInfo = e.debugInfo := (enqueueTileLoad_persist e k).2.2.2.2.2.2.2.2.2.1

@[simp] theorem enqueueTileLoad_outstanding (e : Engine) (k : TileId) :
    (enqueueTileLoad e k).outstanding = e.outstanding := (enqueueTileLoad_persist e k).2.2.2.2.2.2.2.2.2.2.1

@[simp] theorem enqueueTileLoad_appliedLog (e : Engine) (k : TileId) :
    (enqueueTileLoad e k).appliedLog = e.appliedLog := (enqueueTileLoad_persist e k).2.2.2.2.2.2.2.2.2.2.2.1

@[simp] theorem enqueueTileLoad_disposeLog (e : Engine) (k : TileId) :
    (enqueueTileLoad e k).disposeLog = e.disposeLog := (enqueueTileLoad_persist e k).2.2.2.2.2.2.2.2.2.2.2.2

@[simp] theorem startTileLoad_cfg (e : Engine) (k : TileId) :
    (startTileLoad e k).cfg = e.cfg := (startTileLoad_persist e k).1

@[simp] theorem startTileLoad_frame (e : Engine) (k : TileId) :
    (startTileLoad e k).frame = e.frame := (startTileLoad_persist e k).2.1

@[simp] theorem startTileLoad_stateKey (e : Engine) (k : TileId) :
    (startTileLoad e k).stateKey = e.stateKey := (startTileLoad_persist e k).2.2.1

@[simp] theorem startTileLoad_loadQueue (e : Engine) (k : TileId) :
    (startTileLoad e k).loadQueue = e.loadQueue := (startTileLoad_persist e k).2.2.2.1

@[simp] theorem startTileLoad_queuedKeys (e : Engine) (k : TileId) :
    (startTileLoad e k).queuedKeys = e.queuedKeys := (startTileLoad_persist e k).2.2.2.2.1

@[simp] theorem startTileLoad_lastLayoutUpdateMs (e : Engine) (k : TileId) :
    (startTileLoad e k).lastLayoutUpdateMs = e.lastLayoutUpdateMs := (startTileLoad_persist e k).2.2.2.2.2.1

@[simp] theorem startTileLoad_pendingViewState (e : Engine) (k : TileId) :
    (startTileLoad e k).pendingViewState = e.pendingViewState := (startTileLoad_persist e k).2.2.2.2.2.2.1

@[simp] theorem startTileLoad_appliedViewState (e : Engine) (k : TileId) :
    (startTileLoad e k).appliedViewState = e.appliedViewState := (startTileLoad_persist e k).2.2.2.2.2.2.2.1

@[simp] theorem startTileLoad_activeDesiredTiles (e : Engine) (k : TileId) :
    (startTileLoad e k).activeDesiredTiles = e.activeDesiredTiles := (startTileLoad_persist e k).2.2.2.2.2.2.2.2.1

@[simp] theorem startTileLoad_requestedCount (e : Engine) (k : TileId) :
    (startTileLoad e k).requestedCount = e.requestedCount := (startTileLoad_persist e k).2.2.2.2.2.2.2.2.2.1

@[simp] theorem startTileLoad_debugInfo (e : Engine) (k : TileId) :
    (startTileLoad e k).debugInfo = e.debugInfo := (startTileLoad_persist e k).2.2.2.2.2.2.2.2.2.2.1

@[simp] theorem startTileLoad_appliedLog (e : Engine) (k : TileId) :
    (startTileLoad e k).appliedLog = e.appliedLog := (startTileLoad_persist e k).2.2.2.2.2.2.2.2.2.2.2.1

@[simp] theorem startTileLoad_disposeLog (e : Engine) (k : TileId) :
    (startTileLoad e k).disposeLog = e.disposeLog := (startTileLoad_persist e k).2.2.2.2.2.2.2.2.2.2.2.2

@[simp] theorem disposeTile_cfg (e : Engine) (k : TileId) :
    (disposeTile e k).cfg = e.cfg := (disposeTile_persist e k).1

@[simp] theorem disposeTile_frame (e : Engine) (k : TileId) :
    (disposeTile e k).frame = e.frame := (disposeTile_persist e k).2.1

@[simp] theorem disposeTile_stateKey (e : Engine) (k : TileId) :
    (disposeTile e k).stateKey = e.stateKey := (disposeTile_persist e k).2.2.1

@[simp] theorem disposeTile_inflightCount (e : Engine) (k : TileId) :
    (disposeTile e k).inflightCount = e.inflightCount := (disposeTile_persist e k).2.2.2.1

@[simp] theorem disposeTile_loadQueue (e : Engine) (k : TileId) :
    (disposeTile e k).loadQueue = e.loadQueue := (disposeTile_persist e k).2.2.2.2.1

@[simp] theorem disposeTile_lastLayoutUpdateMs (e : Engine) (k : TileId) :
    (disposeTile e k).lastLayoutUpdateMs = e.lastLayoutUpdateMs := (disposeTile_persist e k).2.2.2.2.2.1

@[simp] theorem disposeTile_pendingViewState (e : Engine) (k : TileId) :
    (disposeTile e k).pendingViewState = e.pendingViewState := (disposeTile_persist e k).2.2.2.2.2.2.1

@[simp] theorem disposeTile_appliedViewState (e : Engine) (k : TileId) :
    (disposeTile e k).appliedViewState = e.appliedViewState := (disposeTile_persist e k).2.2.2.2.2.2.2.1

@[simp] theorem disposeTile_activeDesiredTiles (e : Engine) (k : TileId) :
    (disposeTile e k).activeDesiredTiles = e.activeDesiredTiles := (disposeTile_persist e k).2.2.2.2.2.2.2.2.1

@[simp] theorem disposeTile_requestedCount (e : Engine) (k : TileId) :
    (disposeTile e k).requestedCount = e.requestedCount := (disposeTile_persist e k).2.2.2.2.2.2.2.2.2.1

@[simp] theorem disposeTile_debugInfo (e : Engine) (k : TileId) :
    (disposeTile e k).debugInfo = e.debugInfo := (disposeTile_persist e k).2.2.2.2.2.2.2.2.2.2.1

@[simp] theorem disposeTile_outstanding (e : Engine) (k : TileId) :
    (disposeTile e k).outstanding = e.outstanding := (disposeTile_persist e k).2.2.2.2.2.2.2.2.2.2.2.1

@[simp] theorem disposeTile_appliedLog (e : Engine) (k : TileId) :
    (disposeTile e k).appliedLog = e.appliedLog := (disposeTile_persist e k).2.2.2.2.2.2.2.2.2.2.2.2

@[simp] theorem applyDesiredStep_cfg (now : Q) (e : Engine) (d : DesiredTile) :
    (applyDesiredStep now e d).cfg = e.cfg := (applyDesiredStep_persist now e d).1

@[simp] theorem applyDesiredStep_frame (now : Q) (e : Engine) (d : DesiredTile) :
    (applyDesiredStep now e d).frame = e.frame := (applyDesiredStep_persist now e d).2.1

@[simp] theorem applyDesiredStep_stateKey (now : Q) (e : Engine) (d : DesiredTile) :
    (applyDesiredStep now e d).stateKey = e.stateKey := (applyDesiredStep_persist now e d).2.2.1

@[simp] theorem applyDesiredStep_inflightCount (now : Q) (e : Engine) (d : DesiredTile) :
    (applyDesiredStep now e d).inflightCount = e.inflightCount := (applyDesiredStep_persist now e d).2.2.2.1

@[simp] theorem applyDesiredStep_lastLayoutUpdateMs (now : Q) (e : Engine) (d : DesiredTile) :
    (applyDesiredStep now e d).lastLayoutUpdateMs = e.lastLayoutUpdateMs := (applyDesiredStep_persist now e d).2.2.2.2.1

@[simp] theorem applyDesiredStep_pendingViewState (now : Q) (e : Engine) (d : DesiredTile) :
    (applyDesiredStep now e d).pendingViewState = e.pendingViewState := (applyDesiredStep_persist now e d).2.2.2.2.2.1

@[simp] theorem applyDesiredStep_appliedViewState (now : Q) (e : Engine) (d : DesiredTile) :
    (applyDesiredStep now e d).appliedViewState = e.appliedViewState := (applyDesiredStep_persist now e d).2.2.2.2.2.2.1

@[simp] theorem applyDesiredStep_activeDesiredTiles (now : Q) (e : Engine) (d : DesiredTile) :
    (applyDesiredStep now e d).activeDesiredTiles = e.activeDesiredTiles := (applyDesiredStep_persist now e d).2.2.2.2.2.2.2.1

@[simp] theorem applyDesiredStep_requestedCount (now : Q) (e : Engine) (d : DesiredTile) :
    (applyDesiredStep now e d).requestedCount = e.requestedCount := (applyDesiredStep_persist now e d).2.2.2.2.2.2.2.2.1

@[simp] theorem applyDesiredStep_debugInfo (now : Q) (e : Engine) (d : DesiredTile) :
    (applyDesiredStep now e d).debugInfo = e.debugInfo := (applyDesiredStep_persist now e d).2.2.2.2.2.2.2.2.2.1

@[simp] theorem applyDesiredStep_outstanding (now : Q) (e : Engine) (d : DesiredTile) :
    (applyDesiredStep now e d).outstanding = e.outstanding := (applyDesiredStep_persist now e d).2.2.2.2.2.2.2.2.2.2.1

@[simp] theorem applyDesiredStep_appliedLog (now : Q) (e : Engine) (d : DesiredTile) :
    (applyDesiredStep now e d).appliedLog = e.appliedLog := (applyDesiredStep_persist now e d).2.2.2.2.2.2.2.2.2.2.2.1

@[simp] theorem applyDesiredStep_disposeLog (now : Q) (e : Engine) (d : DesiredTile) :
    (applyDesiredStep now e d).disposeLog = e.disposeLog := (applyDesiredStep_persist now e d).2.2.2.2.2.2.2.2.2.2.2.2

@[simp] theorem processLoadQueueAux_cfg : ∀ (fuel : ℕ) (e : Engine),
    (processLoadQueueAux fuel e).cfg = e.cfg := by
  intro fuel
  induction fuel with
  | zero => intro e; rfl
  | succ fuel ih =>
    intro e
    rw [processLoadQueueAux]
    split
    · dsimp only
      split
      · rfl
      · split
        · simp [ih]
        · split <;> simp [ih]
    · rfl
@[simp] theorem processLoadQueue_cfg (e : Engine) :
    (processLoadQueue e).cfg = e.cfg := processLoadQueueAux_cfg _ _

@[simp] theorem processLoadQueueAux_frame : ∀ (fuel : ℕ) (e : Engine),
    (processLoadQueueAux fuel e).frame = e.frame := by
  intro fuel
  induction fuel with
  | zero => intro e; rfl
  | succ fuel ih =>
    intro e
    rw [processLoadQueueAux]
    split
    · dsimp only
      split
      · rfl
      · split
        · simp [ih]
        · split <;> simp [ih]
    · rfl

@[simp] theorem processLoadQueue_frame (e : Engine) :
    (processLoadQueue e).frame = e.frame := processLoadQueueAux_frame _ _

@[simp] theorem processLoadQueueAux_stateKey : ∀ (fuel : ℕ) (e : Engine),
    (processLoadQueueAux fuel e).stateKey = e.stateKey := by
  intro fuel
  induction fuel with
  | zero => intro e; rfl
  | succ fuel ih =>
    intro e
    rw [processLoadQueueAux]
    split
    · dsimp only
      split
      · rfl
      · split
        · simp [ih]
        · split <;> simp [ih]
    · rfl

@[simp] theorem processLoadQueue_stateKey (e : Engine) :
    (processLoadQueue e).stateKey = e.stateKey := processLoadQueueAux_stateKey _ _

@[simp] theorem processLoadQueueAux_lastLayoutUpdateMs : ∀ (fuel : ℕ) (e : Engine),
    (processLoadQueueAux fuel e).lastLayoutUpdateMs = e.lastLayoutUpdateMs := by
  intro fuel
  induction fuel with
  | zero => intro e; rfl
  | succ fuel ih =>
    intro e
    rw [processLoadQueueAux]
    split
    · dsimp only
      split
      · rfl
      · split
        · simp [ih]
        · split <;> simp [ih]
    · rfl

@[simp] theorem processLoadQueue_lastLayoutUpdateMs (e : Engine) :
    (processLoadQueue e).lastLayoutUpdateMs = e.lastLayoutUpdateMs := processLoadQueueAux_lastLayoutUpdateMs _ _

@[simp] theorem processLoadQueueAux_pendingViewState : ∀ (fuel : ℕ) (e : Engine),
    (processLoadQueueAux fuel e).pendingViewState = e.pendingViewState := by
  intro fuel
  induction fuel with
  | zero => intro e; rfl
  | succ fuel ih =>
    intro e
    rw [processLoadQueueAux]
    split
    · dsimp only
      split
      · rfl
      · split
        · simp [ih]
        · split <;> simp [ih]
    · rfl

@[simp] theorem processLoadQueue_pendingViewState (e : Engine) :
    (processLoadQueue e).pendingViewState = e.pendingViewState := processLoadQueueAux_pendingViewState _ _

@[simp] theorem processLoadQueueAux_appliedViewState : ∀ (fuel : ℕ) (e : Engine),
    (processLoadQueueAux fuel e).appliedViewState = e.appliedViewState := by
  intro fuel
  induction fuel with
  | zero => intro e; rfl
  | succ fuel ih =>
    intro e
    rw [processLoadQueueAux]
    split
    · dsimp only
      split
      · rfl
      · split
        · simp [ih]
        · split <;> simp [ih]
    · rfl

@[simp] theorem processLoadQueue_appliedViewState (e : Engine) :
    (processLoadQueue e).appliedViewState = e.appliedViewState := processLoadQueueAux_appliedViewState _ _

@[simp] theorem processLoadQueueAux_activeDesiredTiles : ∀ (fuel : ℕ) (e : Engine),
    (processLoadQueueAux fuel e).activeDesiredTiles = e.activeDesiredTiles := by
  intro fuel
  induction fuel with
  | zero => intro e; rfl
  | succ fuel ih =>
    intro e
    rw [processLoadQueueAux]
    split
    · dsimp only
      split
      · rfl
      · split
        · simp [ih]
        · split <;> simp [ih]
    · rfl

@[simp] theorem processLoadQueue_activeDesiredTiles (e : Engine) :
    (processLoadQueue e).activeDesiredTiles = e.activeDesiredTiles := processLoadQueueAux_activeDesiredTiles _ _

@[simp] theorem processLoadQueueAux_requestedCount : ∀ (fuel : ℕ) (e : Engine),
    (processLoadQueueAux fuel e).requestedCount = e.requestedCount := by
  intro fuel
  induction fuel with
  | zero => intro e; rfl
  | succ fuel ih =>
    intro e
    rw [processLoadQueueAux]
    split
    · dsimp only
      split
      · rfl
      · split
        · simp [ih]
        · split <;> simp [ih]
    · rfl

@[simp] theorem processLoadQueue_requestedCount (e : Engine) :
    (processLoadQueue e).requestedCount = e.requestedCount := processLoadQueueAux_requestedCount _ _

@[simp] theorem processLoadQueueAux_debugInfo : ∀ (fuel : ℕ) (e : Engine),
    (processLoadQueueAux fuel e).debugInfo = e.debugInfo := by
  intro fuel
  induction fuel with
  | zero => intro e; rfl
  | succ fuel ih =>
    intro e
    rw [processLoadQueueAux]
    split
    · dsimp only
      split
      · rfl
      · split
        · simp [ih]
        · split <;> simp [ih]
    · rfl

@[simp] theorem processLoadQueue_debugInfo (e : Engine) :
    (processLoadQueue e).debugInfo = e.debugInfo := processLoadQueueAux_debugInfo _ _

@[simp] theorem processLoadQueueAux_appliedLog : ∀ (fuel : ℕ) (e : Engine),
    (processLoadQueueAux fuel e).appliedLog = e.appliedLog := by
  intro fuel
  induction fuel with
  | zero => intro e; rfl
  | succ fuel ih =>
    intro e
    rw [processLoadQueueAux]
    split
    · dsimp only
      split
      · rfl
      · split
        · simp [ih]
        · split <;> simp [ih]
    · rfl

@[simp] theorem processLoadQueue_appliedLog (e : Engine) :
    (processLoadQueue e).appliedLog = e.appliedLog := processLoadQueueAux_appliedLog _ _

@[simp] theorem processLoadQueueAux_disposeLog : ∀ (fuel : ℕ) (e : Engine),
    (processLoadQueueAux fuel e).disposeLog = e.disposeLog := by
  intro fuel
  induction fuel with
  | zero => intro e; rfl
  | succ fuel ih =>
    intro e
    rw [processLoadQueueAux]
    split
    · dsimp only
      split
      · rfl
      · split
        · simp [ih]
        · split <;> simp [ih]
    · rfl

@[simp] theorem processLoadQueue_disposeLog (e : Engine) :
    (processLoadQueue e).disposeLog = e.disposeLog := processLoadQueueAux_disposeLog _ _

@[simp] theorem registerTile_cfg (e : Engine) (key : TileId) (now : Q) :
    (registerTile e key now).cfg = e.cfg := by
  unfold registerTile; split <;> rfl

@[simp] theorem registerTile_frame (e : Engine) (key : TileId) (now : Q) :
    (registerTile e key now).frame = e.frame := by
  unfold registerTile; split <;> rfl

@[simp] theorem registerTile_stateKey (e : Engine) (key : TileId) (now : Q) :
    (registerTile e key now).stateKey = e.stateKey := by
  unfold registerTile; split <;> rfl

@[simp] theorem registerTile_inflightCount (e : Engine) (key : TileId) (now : Q) :
    (registerTile e key now).inflightCount = e.inflightCount := by
  unfold registerTile; split <;> rfl

@[simp] theorem registerTile_lastLayoutUpdateMs (e : Engine) (key : TileId) (now : Q) :
    (registerTile e key now).lastLayoutUpdateMs = e.lastLayoutUpdateMs := by
  unfold registerTile; split <;> rfl

@[simp] theorem registerTile_pendingViewState (e : Engine) (key : TileId) (now : Q) :
    (registerTile e key now).pendingViewState = e.pendingViewState := by
  unfold registerTile; split <;> rfl

@[simp] theorem registerTile_appliedViewState (e : Engine) (key : TileId) (now : Q) :
    (registerTile e key now).appliedViewState = e.appliedViewState := by
  unfold registerTile; split <;> rfl

@[simp] theorem registerTile_activeDesiredTiles (e : Engine) (key : TileId) (now : Q) :
    (registerTile e key now).activeDesiredTiles = e.activeDesiredTiles := by
  unfold registerTile; split <;> rfl

@[simp] theorem registerTile_requestedCount (e : Engine) (key : TileId) (now : Q) :
    (registerTile e key now).requestedCount = e.requestedCount := by
  unfold registerTile; split <;> rfl

@[simp] theorem registerTile_debugInfo (e : Engine) (key : TileId) (now : Q) :
    (registerTile e key now).debugInfo = e.debugInfo := by
  unfold registerTile; split <;> rfl

@[simp] theorem registerTile_outstanding (e : Engine) (key : TileId) (now : Q) :
    (registerTile e key now).outstanding = e.outstanding := by
  unfold registerTile; split <;> rfl

@[simp] theorem registerTile_appliedLog (e : Engine) (key : TileId) (now : Q) :
    (registerTile e key now).appliedLog = e.appliedLog := by
  unfold registerTile; split <;> rfl

@[simp] theorem registerTile_disposeLog (e : Engine) (key : TileId) (now : Q) :
    (registerTile e key now).disposeLog = e.disposeLog := by
  unfold registerTile; split <;> rfl

@[simp] theorem touchAncestor_cfg (e : Engine) (key : TileId) (touched : List TileId) :
    ((touchAncestor e key touched).1).cfg = e.cfg := by
  unfold touchAncestor
  dsimp only
  repeat' split
  all_goals simp

@[simp] theorem touchAncestor_frame (e : Engine) (key : TileId) (touched : List TileId) :
    ((touchAncestor e key touched).1).frame = e.frame := by
  unfold touchAncestor
  dsimp only
  repeat' split
  all_goals simp

@[simp] theorem touchAncestor_stateKey (e : Engine) (key : TileId) (touched : List TileId) :
    ((touchAncestor e key touched).1).stateKey = e.stateKey := by
  unfold touchAncestor
  dsimp only
  repeat' split
  all_goals simp

@[simp] theorem touchAncestor_inflightCount (e : Engine) (key : TileId) (touched : List TileId) :
    ((touchAncestor e key touched).1).inflightCount = e.inflightCount := by
  unfold touchAncestor
  dsimp only
  repeat' split
  all_goals simp

@[simp] theorem touchAncestor_lastLayoutUpdateMs (e : Engine) (key : TileId) (touched : List TileId) :
    ((touchAncestor e key touched).1).lastLayoutUpdateMs = e.lastLayoutUpdateMs := by
  unfold touchAncestor
  dsimp only
  repeat' split
  all_goals simp

@[simp] theorem touchAncestor_pendingViewState (e : Engine) (key : TileId) (touched : List TileId) :
    ((touchAncestor e key touched).1).pendingViewState = e.pendingViewState := by
  unfold touchAncestor
  dsimp only
  repeat' split
  all_goals simp

@[simp] theorem touchAncestor_appliedViewState (e : Engine) (key : TileId) (touched : List TileId) :
    ((touchAncestor e key touched).1).appliedViewState = e.appliedViewState := by
  unfold touchAncestor
  dsimp only
  repeat' split
  all_goals simp

@[simp] theorem touchAncestor_activeDesiredTiles (e : Engine) (key : TileId) (touched : List TileId) :
    ((touchAncestor e key touched).1).activeDesiredTiles = e.activeDesiredTiles := by
  unfold touchAncestor
  dsimp only
  repeat' split
  all_goals simp

@[simp] theorem touchAncestor_requestedCount (e : Engine) (key : TileId) (touched : List TileId) :
    ((touchAncestor e key touched).1).requestedCount = e.requestedCount := by
  unfold touchAncestor
  dsimp only
  repeat' split
  all_goals simp

@[simp] theorem touchAncestor_debugInfo (e : Engine) (key : TileId) (touched : List TileId) :
    ((touchAncestor e key touched).1).debugInfo = e.debugInfo := by
  unfold touchAncestor
  dsimp only
  repeat' split
  all_goals simp

@[simp] theorem touchAncestor_outstanding (e : Engine) (key : TileId) (touched : List TileId) :
    ((touchAncestor e key touched).1).outstanding = e.outstanding := by
  unfold touchAncestor
  dsimp only
  repeat' split
  all_goals simp

@[simp] theorem touchAncestor_appliedLog (e : Engine) (key : TileId) (touched : List TileId) :
    ((touchAncestor e key touched).1).appliedLog = e.appliedLog := by
  unfold touchAncestor
  dsimp only
  repeat' split
  all_goals simp

@[simp] theorem touchAncestor_disposeLog (e : Engine) (key : TileId) (touched : List TileId) :
    ((touchAncestor e key touched).1).disposeLog = e.disposeLog := by
  unfold touchAncestor
  dsimp only
  repeat' split
  all_goals simp

@[simp] theorem findReadyAncestorAux_cfg : ∀ (fuel : ℕ) (x y : ℤ) (z : ℕ)
    (touched : List TileId) (e : Engine) (now : Q),
    ((findReadyAncestorAux now e x y z touched fuel).1).cfg = e.cfg := by
  intro fuel
  induction fuel with
  | zero => intro x y z touched e now; rfl
  | succ fuel ih =>
    intro x y z touched e now
    rw [findReadyAncestorAux]
    split
    · dsimp only
      repeat' split
      all_goals simp [ih]
    · rfl

@[simp] theorem findReadyAncestorAux_frame : ∀ (fuel : ℕ) (x y : ℤ) (z : ℕ)
    (touched : List TileId) (e : Engine) (now : Q),
    ((findReadyAncestorAux now e x y z touched fuel).1).frame = e.frame := by
  intro fuel
  induction fuel with
  | zero => intro x y z touched e now; rfl
  | succ fuel ih =>
    intro x y z touched e now
    rw [findReadyAncestorAux]
    split
    · dsimp only
      repeat' split
      all_goals simp [ih]
    · rfl

@[simp] theorem findReadyAncestorAux_stateKey : ∀ (fuel : ℕ) (x y : ℤ) (z : ℕ)
    (touched : List TileId) (e : Engine) (now : Q),
    ((findReadyAncestorAux now e x y z touched fuel).1).stateKey = e.stateKey := by
  intro fuel
  induction fuel with
  | zero => intro x y z touched e now; rfl
  | succ fuel ih =>
    intro x y z touched e now
    rw [findReadyAncestorAux]
    split
    · dsimp only
      repeat' split
      all_goals simp [ih]
    · rfl

@[simp] theorem findReadyAncestorAux_inflightCount : ∀ (fuel : ℕ) (x y : ℤ) (z : ℕ)
    (touched : List TileId) (e : Engine) (now : Q),
    ((findReadyAncestorAux now e x y z touched fuel).1).inflightCount = e.inflightCount := by
  intro fuel
  induction fuel with
  | zero => intro x y z touched e now; rfl
  | succ fuel ih =>
    intro x y z touched e now
    rw [findReadyAncestorAux]
    split
    · dsimp only
      repeat' split
      all_goals simp [ih]
    · rfl

@[simp] theorem findReadyAncestorAux_lastLayoutUpdateMs : ∀ (fuel : ℕ) (x y : ℤ) (z : ℕ)
    (touched : List TileId) (e : Engine) (now : Q),
    ((findReadyAncestorAux now e x y z touched fuel).1).lastLayoutUpdateMs = e.lastLayoutUpdateMs := by
  intro fuel
  induction fuel with
  | zero => intro x y z touched e now; rfl
  | succ fuel ih =>
    intro x y z touched e now
    rw [findReadyAncestorAux]
    split
    · dsimp only
      repeat' split
      all_goals simp [ih]
    · rfl

@[simp] theorem findReadyAncestorAux_pendingViewState : ∀ (fuel : ℕ) (x y : ℤ) (z : ℕ)
    (touched : List TileId) (e : Engine) (now : Q),
    ((findReadyAncestorAux now e x y z touched fuel).1).pendingViewState = e.pendingViewState := by
  intro fuel
  induction fuel with
  | zero => intro x y z touched e now; rfl
  | succ fuel ih =>
    intro x y z touched e now
    rw [findReadyAncestorAux]
    split
    · dsimp only
      repeat' split
      all_goals simp [ih]
    · rfl

@[simp] theorem findReadyAncestorAux_appliedViewState : ∀ (fuel : ℕ) (x y : ℤ) (z : ℕ)
    (touched : List TileId) (e : Engine) (now : Q),
    ((findReadyAncestorAux now e x y z touched fuel).1).appliedViewState = e.appliedViewState := by
  intro fuel
  induction fuel with
  | zero => intro x y z touched e now; rfl
  | succ fuel ih =>
    intro x y z touched e now
    rw [findReadyAncestorAux]
    split
    · dsimp only
      repeat' split
      all_goals simp [ih]
    · rfl

@[simp] theorem findReadyAncestorAux_activeDesiredTiles : ∀ (fuel : ℕ) (x y : ℤ) (z : ℕ)
    (touched : List TileId) (e : Engine) (now : Q),
    ((findReadyAncestorAux now e x y z touched fuel).1).activeDesiredTiles = e.activeDesiredTiles := by
  intro fuel
  induction fuel with
  | zero => intro x y z touched e now; rfl
  | succ fuel ih =>
    intro x y z touched e now
    rw [findReadyAncestorAux]
    split
    · dsimp only
      repeat' split
      all_goals simp [ih]
    · rfl

@[simp] theorem findReadyAncestorAux_requestedCount : ∀ (fuel : ℕ) (x y : ℤ) (z : ℕ)
    (touched : List TileId) (e : Engine) (now : Q),
    ((findReadyAncestorAux now e x y z touched fuel).1).requestedCount = e.requestedCount := by
  intro fuel
  induction fuel with
  | zero => intro x y z touched e now; rfl
  | succ fuel ih =>
    intro x y z touched e now
    rw [findReadyAncestorAux]
    split
    · dsimp only
      repeat' split
      all_goals simp [ih]
    · rfl

@[simp] theorem findReadyAncestorAux_debugInfo : ∀ (fuel : ℕ) (x y : ℤ) (z : ℕ)
    (touched : List TileId) (e : Engine) (now : Q),
    ((findReadyAncestorAux now e x y z touched fuel).1).debugInfo = e.debugInfo := by
  intro fuel
  induction fuel with
  | zero => intro x y z touched e now; rfl
  | succ fuel ih =>
    intro x y z touched e now
    rw [findReadyAncestorAux]
    split
    · dsimp only
      repeat' split
      all_goals simp [ih]
    · rfl

@[simp] theorem findReadyAncestorAux_outstanding : ∀ (fuel : ℕ) (x y : ℤ) (z : ℕ)
    (touched : List TileId) (e : Engine) (now : Q),
    ((findReadyAncestorAux now e x y z touched fuel).1).outstanding = e.outstanding := by
  intro fuel
  induction fuel with
  | zero => intro x y z touched e now; rfl
  | succ fuel ih =>
    intro x y z touched e now
    rw [findReadyAncestorAux]
    split
    · dsimp only
      repeat' split
      all_goals simp [ih]
    · rfl

@[simp] theorem findReadyAncestorAux_appliedLog : ∀ (fuel : ℕ) (x y : ℤ) (z : ℕ)
    (touched : List TileId) (e : Engine) (now : Q),
    ((findReadyAncestorAux now e x y z touched fuel).1).appliedLog = e.appliedLog := by
  intro fuel
  induction fuel with
  | zero => intro x y z touched e now; rfl
  | succ fuel ih =>
    intro x y z touched e now
    rw [findReadyAncestorAux]
    split
    · dsimp only
      repeat' split
      all_goals simp [ih]
    · rfl

@[simp] theorem findReadyAncestorAux_disposeLog : ∀ (fuel : ℕ) (x y : ℤ) (z : ℕ)
    (touched : List TileId) (e : Engine) (now : Q),
    ((findReadyAncestorAux now e x y z touched fuel).1).disposeLog = e.disposeLog := by
  intro fuel
  induction fuel with
  | zero => intro x y z touched e now; rfl
  | succ fuel ih =>
    intro x y z touched e now
    rw [findReadyAncestorAux]
    split
    · dsimp only
      repeat' split
      all_goals simp [ih]
    · rfl

@[simp] theorem findReadyAncestor_cfg (e : Engine) (tileId : TileId)
    (touched : List TileId) (now : Q) :
    ((findReadyAncestor e tileId touched now).1).cfg = e.cfg :=
  findReadyAncestorAux_cfg _ _ _ _ _ _ _

@[simp] theorem visibilityStep_cfg (now : Q) (acc : Engine × List TileId × List TileId)
    (d : DesiredTile) :
    ((visibilityStep now acc d).1).cfg = (acc.1).cfg := by
  obtain ⟨e, vis, touched⟩ := acc
  unfold visibilityStep
  dsimp only
  split
  · rfl
  · split
    · simp
    · split
      · next e1 t1 a heq =>
        have he1 : e1 = (findReadyAncestor e d.tileId touched now).1 := by rw [heq]
        split
        · subst he1; simp
        · subst he1; simp
      · next e1 t1 heq =>
        have he1 : e1 = (findReadyAncestor e d.tileId touched now).1 := by rw [heq]
        subst he1; simp
@[simp] theorem findReadyAncestor_frame (e : Engine) (tileId : TileId)
    (touched : List TileId) (now : Q) :
    ((findReadyAncestor e tileId touched now).1).frame = e.frame :=
  findReadyAncestorAux_frame _ _ _ _ _ _ _

@[simp] theorem findReadyAncestor_stateKey (e : Engine) (tileId : TileId)
    (touched : List TileId) (now : Q) :
    ((findReadyAncestor e tileId touched now).1).stateKey = e.stateKey :=
  findReadyAncestorAux_stateKey _ _ _ _ _ _ _

@[simp] theorem findReadyAncestor_inflightCount (e : Engine) (tileId : TileId)
    (touched : List TileId) (now : Q) :
    ((findReadyAncestor e tileId touched now).1).inflightCount = e.inflightCount :=
  findReadyAncestorAux_inflightCount _ _ _ _ _ _ _

@[simp] theorem findReadyAncestor_lastLayoutUpdateMs (e : Engine) (tileId : TileId)
    (touched : List TileId) (now : Q) :
    ((findReadyAncestor e tileId touched now).1).lastLayoutUpdateMs = e.lastLayoutUpdateMs :=
  findReadyAncestorAux_lastLayoutUpdateMs _ _ _ _ _ _ _

@[simp] theorem findReadyAncestor_pendingViewState (e : Engine) (tileId : TileId)
    (touched : List TileId) (now : Q) :
    ((findReadyAncestor e tileId touched now).1).pendingViewState = e.pendingViewState :=
  findReadyAncestorAux_pendingViewState _ _ _ _ _ _ _

@[simp] theorem findReadyAncestor_appliedViewState (e : Engine) (tileId : TileId)
    (touched : List TileId) (now : Q) :
    ((findReadyAncestor e tileId touched now).1).appliedViewState = e.appliedViewState :=
  findReadyAncestorAux_appliedViewState _ _ _ _ _ _ _

@[simp] theorem findReadyAncestor_activeDesiredTiles (e : Engine) (tileId : TileId)
    (touched : List TileId) (now : Q) :
    ((findReadyAncestor e tileId touched now).1).activeDesiredTiles = e.activeDesiredTiles :=
  findReadyAncestorAux_activeDesiredTiles _ _ _ _ _ _ _

@[simp] theorem findReadyAncestor_requestedCount (e : Engine) (tileId : TileId)
    (touched : List TileId) (now : Q) :
    ((findReadyAncestor e tileId touched now).1).requestedCount = e.requestedCount :=
  findReadyAncestorAux_requestedCount _ _ _ _ _ _ _

@[simp] theorem findReadyAncestor_debugInfo (e : Engine) (tileId : TileId)
    (touched : List TileId) (now : Q) :
    ((findReadyAncestor e tileId touched now).1).debugInfo = e.debugInfo :=
  findReadyAncestorAux_debugInfo _ _ _ _ _ _ _

@[simp] theorem findReadyAncestor_outstanding (e : Engine) (tileId : TileId)
    (touched : List TileId) (now : Q) :
    ((findReadyAncestor e tileId touched now).1).outstanding = e.outstanding :=
  findReadyAncestorAux_outstanding _ _ _ _ _ _ _

@[simp] theorem findReadyAncestor_appliedLog (e : Engine) (tileId : TileId)
    (touched : List TileId) (now : Q) :
    ((findReadyAncestor e tileId touched now).1).appliedLog = e.appliedLog :=
  findReadyAncestorAux_appliedLog _ _ _ _ _ _ _

@[simp] theorem findReadyAncestor_disposeLog (e : Engine) (tileId : TileId)
    (touched : List TileId) (now : Q) :
    ((findReadyAncestor e tileId touched now).1).disposeLog = e.disposeLog :=
  findReadyAncestorAux_disposeLog _ _ _ _ _ _ _

@[simp] theorem visibilityStep_frame (now : Q) (acc : Engine × List TileId × List TileId)
    (d : DesiredTile) :
    ((visibilityStep now acc d).1).frame = (acc.1).frame := by
  obtain ⟨e, vis, touched⟩ := acc
  unfold visibilityStep
  dsimp only
  split
  · rfl
  · split
    · simp
    · split
      · next e1 t1 a heq =>
        have he1 : e1 = (findReadyAncestor e d.tileId touched now).1 := by rw [heq]
        split
        · subst he1; simp
        · subst he1; simp
      · next e1 t1 heq =>
        have he1 : e1 = (findReadyAncestor e d.tileId touched now).1 := by rw [heq]
        subst he1; simp

@[simp] theorem visibilityStep_stateKey (now : Q) (acc : Engine × List TileId × List TileId)
    (d : DesiredTile) :
    ((visibilityStep now acc d).1).stateKey = (acc.1).stateKey := by
  obtain ⟨e, vis, touched⟩ := acc
  unfold visibilityStep
  dsimp only
  split
  · rfl
  · split
    · simp
    · split
      · next e1 t1 a heq =>
        have he1 : e1 = (findReadyAncestor e d.tileId touched now).1 := by rw [heq]
        split
        · subst he1; simp
        · subst he1; simp
      · next e1 t1 heq =>
        have he1 : e1 = (findReadyAncestor e d.tileId touched now).1 := by rw [heq]
        subst he1; simp

@[simp] theorem visibilityStep_inflightCount (now : Q) (acc : Engine × List TileId × List TileId)
    (d : DesiredTile) :
    ((visibilityStep now acc d).1).inflightCount = (acc.1).inflightCount := by
  obtain ⟨e, vis, touched⟩ := acc
  unfold visibilityStep
  dsimp only
  split
  · rfl
  · split
    · simp
    · split
      · next e1 t1 a heq =>
        have he1 : e1 = (findReadyAncestor e d.tileId touched now).1 := by rw [heq]
        split
        · subst he1; simp
        · subst he1; simp
      · next e1 t1 heq =>
        have he1 : e1 = (findReadyAncestor e d.tileId touched now).1 := by rw [heq]
        subst he1; simp

@[simp] theorem visibilityStep_lastLayoutUpdateMs (now : Q) (acc : Engine × List TileId × List TileId)
    (d : DesiredTile) :
    ((visibilityStep now acc d).1).lastLayoutUpdateMs = (acc.1).lastLayoutUpdateMs := by
  obtain ⟨e, vis, touched⟩ := acc
  unfold visibilityStep
  dsimp only
  split
  · rfl
  · split
    · simp
    · split
      · next e1 t1 a heq =>
        have he1 : e1 = (findReadyAncestor e d.tileId touched now).1 := by rw [heq]
        split
        · subst he1; simp
        · subst he1; simp
      · next e1 t1 heq =>
        have he1 : e1 = (findReadyAncestor e d.tileId touched now).1 := by rw [heq]
        subst he1; simp

@[simp] theorem visibilityStep_pendingViewState (now : Q) (acc : Engine × List TileId × List TileId)
    (d : DesiredTile) :
    ((visibilityStep now acc d).1).pendingViewState = (acc.1).pendingViewState := by
  obtain ⟨e, vis, touched⟩ := acc
  unfold visibilityStep
  dsimp only
  split
  · rfl
  · split
    · simp
    · split
      · next e1 t1 a heq =>
        have he1 : e1 = (findReadyAncestor e d.tileId touched now).1 := by rw [heq]
        split
        · subst he1; simp
        · subst he1; simp
      · next e1 t1 heq =>
        have he1 : e1 = (findReadyAncestor e d.tileId touched now).1 := by rw [heq]
        subst he1; simp

@[simp] theorem visibilityStep_appliedViewState (now : Q) (acc : Engine × List TileId × List TileId)
    (d : DesiredTile) :
    ((visibilityStep now acc d).1).appliedViewState = (acc.1).appliedViewState := by
  obtain ⟨e, vis, touched⟩ := acc
  unfold visibilityStep
  dsimp only
  split
  · rfl
  · split
    · simp
    · split
      · next e1 t1 a heq =>
        have he1 : e1 = (findReadyAncestor e d.tileId touched now).1 := by rw [heq]
        split
        · subst he1; simp
        · subst he1; simp
      · next e1 t1 heq =>
        have he1 : e1 = (findReadyAncestor e d.tileId touched now).1 := by rw [heq]
        subst he1; simp

@[simp] theorem visibilityStep_activeDesiredTiles (now : Q) (acc : Engine × List TileId × List TileId)
    (d : DesiredTile) :
    ((visibilityStep now acc d).1).activeDesiredTiles = (acc.1).activeDesiredTiles := by
  obtain ⟨e, vis, touched⟩ := acc
  unfold visibilityStep
  dsimp only
  split
  · rfl
  · split
    · simp
    · split
      · next e1 t1 a heq =>
        have he1 : e1 = (findReadyAncestor e d.tileId touched now).1 := by rw [heq]
        split
        · subst he1; simp
        · subst he1; simp
      · next e1 t1 heq =>
        have he1 : e1 = (findReadyAncestor e d.tileId touched now).1 := by rw [heq]
        subst he1; simp

@[simp] theorem visibilityStep_requestedCount (now : Q) (acc : Engine × List TileId × List TileId)
    (d : DesiredTile) :
    ((visibilityStep now acc d).1).requestedCount = (acc.1).requestedCount := by
  obtain ⟨e, vis, touched⟩ := acc
  unfold visibilityStep
  dsimp only
  split
  · rfl
  · split
    · simp
    · split
      · next e1 t1 a heq =>
        have he1 : e1 = (findReadyAncestor e d.tileId touched now).1 := by rw [heq]
        split
        · subst he1; simp
        · subst he1; simp
      · next e1 t1 heq =>
        have he1 : e1 = (findReadyAncestor e d.tileId touched now).1 := by rw [heq]
        subst he1; simp

@[simp] theorem visibilityStep_debugInfo (now : Q) (acc : Engine × List TileId × List TileId)
    (d : DesiredTile) :
    ((visibilityStep now acc d).1).debugInfo = (acc.1).debugInfo := by
  obtain ⟨e, vis, touched⟩ := acc
  unfold visibilityStep
  dsimp only
  split
  · rfl
  · split
    · simp
    · split
      · next e1 t1 a heq =>
        have he1 : e1 = (findReadyAncestor e d.tileId touched now).1 := by rw [heq]
        split
        · subst he1; simp
        · subst he1; simp
      · next e1 t1 heq =>
        have he1 : e1 = (findReadyAncestor e d.tileId touched now).1 := by rw [heq]
        subst he1; simp

@[simp] theorem visibilityStep_outstanding (now : Q) (acc : Engine × List TileId × List TileId)
    (d : DesiredTile) :
    ((visibilityStep now acc d).1).outstanding = (acc.1).outstanding := by
  obtain ⟨e, vis, touched⟩ := acc
  unfold visibilityStep
  dsimp only
  split
  · rfl
  · split
    · simp
    · split
      · next e1 t1 a heq =>
        have he1 : e1 = (findReadyAncestor e d.tileId touched now).1 := by rw [heq]
        split
        · subst he1; simp
        · subst he1; simp
      · next e1 t1 heq =>
        have he1 : e1 = (findReadyAncestor e d.tileId touched now).1 := by rw [heq]
        subst he1; simp

@[simp] theorem visibilityStep_appliedLog (now : Q) (acc : Engine × List TileId × List TileId)
    (d : DesiredTile) :
    ((visibilityStep now acc d).1).appliedLog = (acc.1).appliedLog := by
  obtain ⟨e, vis, touched⟩ := acc
  unfold visibilityStep
  dsimp only
  split
  · rfl
  · split
    · simp
    · split
      · next e1 t1 a heq =>
        have he1 : e1 = (findReadyAncestor e d.tileId touched now).1 := by rw [heq]
        split
        · subst he1; simp
        · subst he1; simp
      · next e1 t1 heq =>
        have he1 : e1 = (findReadyAncestor e d.tileId touched now).1 := by rw [heq]
        subst he1; simp

@[simp] theorem visibilityStep_disposeLog (now : Q) (acc : Engine × List TileId × List TileId)
    (d : DesiredTile) :
    ((visibilityStep now acc d).1).disposeLog = (acc.1).disposeLog := by
  obtain ⟨e, vis, touched⟩ := acc
  unfold visibilityStep
  dsimp only
  split
  · rfl
  · split
    · simp
    · split
      · next e1 t1 a heq =>
        have he1 : e1 = (findReadyAncestor e d.tileId touched now).1 := by rw [heq]
        split
        · subst he1; simp
        · subst he1; simp
      · next e1 t1 heq =>
        have he1 : e1 = (findReadyAncestor e d.tileId touched now).1 := by rw [heq]
        subst he1; simp

@[simp] theorem updateProgressiveVisibility_cfg (e0 : Engine) (now : Q) :
    (updateProgressiveVisibility e0 now).cfg = e0.cfg := by
  unfold updateProgressiveVisibility
  have h := foldl_preserve (f := visibilityStep now)
    (P := fun acc => (acc.1).cfg = e0.cfg)
    (fun b a hb => by simp only [visibilityStep_cfg]; exact hb)
    e0.activeDesiredTiles (e0, [], []) rfl
  simpa using h

@[simp] theorem updateProgressiveVisibility_frame (e0 : Engine) (now : Q) :
    (updateProgressiveVisibility e0 now).frame = e0.frame := by
  unfold updateProgressiveVisibility
  have h := foldl_preserve (f := visibilityStep now)
    (P := fun acc => (acc.1).frame = e0.frame)
    (fun b a hb => by simp only [visibilityStep_frame]; exact hb)
    e0.activeDesiredTiles (e0, [], []) rfl
  simpa using h

@[simp] theorem updateProgressiveVisibility_stateKey (e0 : Engine) (now : Q) :
    (updateProgressiveVisibility e0 now).stateKey = e0.stateKey := by
  unfold updateProgressiveVisibility
  have h := foldl_preserve (f := visibilityStep now)
    (P := fun acc => (acc.1).stateKey = e0.stateKey)
    (fun b a hb => by simp only [visibilityStep_stateKey]; exact hb)
    e0.activeDesiredTiles (e0, [], []) rfl
  simpa using h

@[simp] theorem updateProgressiveVisibility_inflightCount (e0 : Engine) (now : Q) :
    (updateProgressiveVisibility e0 now).inflightCount = e0.inflightCount := by
  unfold updateProgressiveVisibility
  have h := foldl_preserve (f := visibilityStep now)
    (P := fun acc => (acc.1).inflightCount = e0.inflightCount)
    (fun b a hb => by simp only [visibilityStep_inflightCount]; exact hb)
    e0.activeDesiredTiles (e0, [], []) rfl
  simpa using h

@[simp] theorem updateProgressiveVisibility_lastLayoutUpdateMs (e0 : Engine) (now : Q) :
    (updateProgressiveVisibility e0 now).lastLayoutUpdateMs = e0.lastLayoutUpdateMs := by
  unfold updateProgressiveVisibility
  have h := foldl_preserve (f := visibilityStep now)
    (P := fun acc => (acc.1).lastLayoutUpdateMs = e0.lastLayoutUpdateMs)
    (fun b a hb => by simp only [visibilityStep_lastLayoutUpdateMs]; exact hb)
    e0.activeDesiredTiles (e0, [], []) rfl
  simpa using h

@[simp] theorem updateProgressiveVisibility_pendingViewState (e0 : Engine) (now : Q) :
    (updateProgressiveVisibility e0 now).pendingViewState = e0.pendingViewState := by
  unfold updateProgressiveVisibility
  have h := foldl_preserve (f := visibilityStep now)
    (P := fun acc => (acc.1).pendingViewState = e0.pendingViewState)
    (fun b a hb => by simp only [visibilityStep_pendingViewState]; exact hb)
    e0.activeDesiredTiles (e0, [], []) rfl
  simpa using h

@[simp] theorem updateProgressiveVisibility_appliedViewState (e0 : Engine) (now : Q) :
    (updateProgressiveVisibility e0 now).appliedViewState = e0.appliedViewState := by
  unfold updateProgressiveVisibility
  have h := foldl_preserve (f := visibilityStep now)
    (P := fun acc => (acc.1).appliedViewState = e0.appliedViewState)
    (fun b a hb => by simp only [visibilityStep_appliedViewState]; exact hb)
    e0.activeDesiredTiles (e0, [], []) rfl
  simpa using h

@[simp] theorem updateProgressiveVisibility_activeDesiredTiles (e0 : Engine) (now : Q) :
    (updateProgressiveVisibility e0 now).activeDesiredTiles = e0.activeDesiredTiles := by
  unfold updateProgressiveVisibility
  have h := foldl_preserve (f := visibilityStep now)
    (P := fun acc => (acc.1).activeDesiredTiles = e0.activeDesiredTiles)
    (fun b a hb => by simp only [visibilityStep_activeDesiredTiles]; exact hb)
    e0.activeDesiredTiles (e0, [], []) rfl
  simpa using h

@[simp] theorem updateProgressiveVisibility_requestedCount (e0 : Engine) (now : Q) :
    (updateProgressiveVisibility e0 now).requestedCount = e0.requestedCount := by
  unfold updateProgressiveVisibility
  have h := foldl_preserve (f := visibilityStep now)
    (P := fun acc => (acc.1).requestedCount = e0.requestedCount)
    (fun b a hb => by simp only [visibilityStep_requestedCount]; exact hb)
    e0.activeDesiredTiles (e0, [], []) rfl
  simpa using h

@[simp] theorem updateProgressiveVisibility_debugInfo (e0 : Engine) (now : Q) :
    (updateProgressiveVisibility e0 now).debugInfo = e0.debugInfo := by
  unfold updateProgressiveVisibility
  have h := foldl_preserve (f := visibilityStep now)
    (P := fun acc => (acc.1).debugInfo = e0.debugInfo)
    (fun b a hb => by simp only [visibilityStep_debugInfo]; exact hb)
    e0.activeDesiredTiles (e0, [], []) rfl
  simpa using h

@[simp] theorem updateProgressiveVisibility_outstanding (e0 : Engine) (now : Q) :
    (updateProgressiveVisibility e0 now).outstanding = e0.outstanding := by
  unfold updateProgressiveVisibility
  have h := foldl_preserve (f := visibilityStep now)
    (P := fun acc => (acc.1).outstanding = e0.outstanding)
    (fun b a hb => by simp only [visibilityStep_outstanding]; exact hb)
    e0.activeDesiredTiles (e0, [], []) rfl
  simpa using h

@[simp] theorem updateProgressiveVisibility_appliedLog (e0 : Engine) (now : Q) :
    (updateProgressiveVisibility e0 now).appliedLog = e0.appliedLog := by
  unfold updateProgressiveVisibility
  have h := foldl_preserve (f := visibilityStep now)
    (P := fun acc => (acc.1).appliedLog = e0.appliedLog)
    (fun b a hb => by simp only [visibilityStep_appliedLog]; exact hb)
    e0.activeDesiredTiles (e0, [], []) rfl
  simpa using h

@[simp] theorem updateProgressiveVisibility_disposeLog (e0 : Engine) (now : Q) :
    (updateProgressiveVisibility e0 now).disposeLog = e0.disposeLog := by
  unfold updateProgressiveVisibility
  have h := foldl_preserve (f := visibilityStep now)
    (P := fun acc => (acc.1).disposeLog = e0.disposeLog)
    (fun b a hb => by simp only [visibilityStep_disposeLog]; exact hb)
    e0.activeDesiredTiles (e0, [], []) rfl
  simpa using h

@[simp] theorem refreshDebugInfo_cfg (e : Engine) (zoom : ℕ) (cx cy : ℤ)
    (tileRadius : ℕ) :
    (refreshDebugInfo e zoom cx cy tileRadius).cfg = e.cfg := rfl

@[simp] theorem refreshDebugInfo_frame (e : Engine) (zoom : ℕ) (cx cy : ℤ)
    (tileRadius : ℕ) :
    (refreshDebugInfo e zoom cx cy tileRadius).frame = e.frame := rfl

@[simp] theorem refreshDebugInfo_stateKey (e : Engine) (zoom : ℕ) (cx cy : ℤ)
    (tileRadius : ℕ) :
    (refreshDebugInfo e zoom cx cy tileRadius).stateKey = e.stateKey := rfl

@[simp] theorem refreshDebugInfo_inflightCount (e : Engine) (zoom : ℕ) (cx cy : ℤ)
    (tileRadius : ℕ) :
    (refreshDebugInfo e zoom cx cy tileRadius).inflightCount = e.inflightCount := rfl

@[simp] theorem refreshDebugInfo_lastLayoutUpdateMs (e : Engine) (zoom : ℕ) (cx cy : ℤ)
    (tileRadius : ℕ) :
    (refreshDebugInfo e zoom cx cy tileRadius).lastLayoutUpdateMs = e.lastLayoutUpdateMs := rfl

@[simp] theorem refreshDebugInfo_pendingViewState (e : Engine) (zoom : ℕ) (cx cy : ℤ)
    (tileRadius : ℕ) :
    (refreshDebugInfo e zoom cx cy tileRadius).pendingViewState = e.pendingViewState := rfl

@[simp] theorem refreshDebugInfo_appliedViewState (e : Engine) (zoom : ℕ) (cx cy : ℤ)
    (tileRadius : ℕ) :
    (refreshDebugInfo e zoom cx cy tileRadius).appliedViewState = e.appliedViewState := rfl

@[simp] theorem refreshDebugInfo_activeDesiredTiles (e : Engine) (zoom : ℕ) (cx cy : ℤ)
    (tileRadius : ℕ) :
    (refreshDebugInfo e zoom cx cy tileRadius).activeDesiredTiles = e.activeDesiredTiles := rfl

@[simp] theorem refreshDebugInfo_requestedCount (e : Engine) (zoom : ℕ) (cx cy : ℤ)
    (tileRadius : ℕ) :
    (refreshDebugInfo e zoom cx cy tileRadius).requestedCount = e.requestedCount := rfl

@[simp] theorem refreshDebugInfo_outstanding (e : Engine) (zoom : ℕ) (cx cy : ℤ)
    (tileRadius : ℕ) :
    (refreshDebugInfo e zoom cx cy tileRadius).outstanding = e.outstanding := rfl

@[simp] theorem refreshDebugInfo_appliedLog (e : Engine) (zoom : ℕ) (cx cy : ℤ)
    (tileRadius : ℕ) :
    (refreshDebugInfo e zoom cx cy tileRadius).appliedLog = e.appliedLog := rfl

@[simp] theorem refreshDebugInfo_disposeLog (e : Engine) (zoom : ℕ) (cx cy : ℤ)
    (tileRadius : ℕ) :
    (refreshDebugInfo e zoom cx cy tileRadius).disposeLog = e.disposeLog := rfl

@[simp] theorem refreshDebugInfo_tiles (e : Engine) (zoom : ℕ) (cx cy : ℤ)
    (tileRadius : ℕ) :
    (refreshDebugInfo e zoom cx cy tileRadius).tiles = e.tiles := rfl

@[simp] theorem refreshDebugInfo_loadQueue (e : Engine) (zoom : ℕ) (cx cy : ℤ)
    (tileRadius : ℕ) :
    (refreshDebugInfo e zoom cx cy tileRadius).loadQueue = e.loadQueue := rfl

@[simp] theorem refreshDebugInfo_queuedKeys (e : Engine) (zoom : ℕ) (cx cy : ℤ)
    (tileRadius : ℕ) :
    (refreshDebugInfo e zoom cx cy tileRadius).queuedKeys = e.queuedKeys := rfl
@[simp] theorem evictCapacityLoop_cfg : ∀ (cands : List (TileId × MTile)) (e : Engine),
    (evictCapacityLoop cands e).cfg = e.cfg := by
  intro cands
  induction cands with
  | nil => intro e; rfl
  | cons c rest ih =>
    intro e
    rw [evictCapacityLoop]
    split
    · rfl
    · simp [ih]

@[simp] theorem evictCapacityLoop_frame : ∀ (cands : List (TileId × MTile)) (e : Engine),
    (evictCapacityLoop cands e).frame = e.frame := by
  intro cands
  induction cands with
  | nil => intro e; rfl
  | cons c rest ih =>
    intro e
    rw [evictCapacityLoop]
    split
    · rfl
    · simp [ih]

@[simp] theorem evictCapacityLoop_stateKey : ∀ (cands : List (TileId × MTile)) (e : Engine),
    (evictCapacityLoop cands e).stateKey = e.stateKey := by
  intro cands
  induction cands with
  | nil => intro e; rfl
  | cons c rest ih =>
    intro e
    rw [evictCapacityLoop]
    split
    · rfl
    · simp [ih]

@[simp] theorem evictCapacityLoop_inflightCount : ∀ (cands : List (TileId × MTile)) (e : Engine),
    (evictCapacityLoop cands e).inflightCount = e.inflightCount := by
  intro cands
  induction cands with
  | nil => intro e; rfl
  | cons c rest ih =>
    intro e
    rw [evictCapacityLoop]
    split
    · rfl
    · simp [ih]

@[simp] theorem evictCapacityLoop_loadQueue : ∀ (cands : List (TileId × MTile)) (e : Engine),
    (evictCapacityLoop cands e).loadQueue = e.loadQueue := by
  intro cands
  induction cands with
  | nil => intro e; rfl
  | cons c rest ih =>
    intro e
    rw [evictCapacityLoop]
    split
    · rfl
    · simp [ih]

@[simp] theorem evictCapacityLoop_lastLayoutUpdateMs : ∀ (cands : List (TileId × MTile)) (e : Engine),
    (evictCapacityLoop cands e).lastLayoutUpdateMs = e.lastLayoutUpdateMs := by
  intro cands
  induction cands with
  | nil => intro e; rfl
  | cons c rest ih =>
    intro e
    rw [evictCapacityLoop]
    split
    · rfl
    · simp [ih]

@[simp] theorem evictCapacityLoop_pendingViewState : ∀ (cands : List (TileId × MTile)) (e : Engine),
    (evictCapacityLoop cands e).pendingViewState = e.pendingViewState := by
  intro cands
  induction cands with
  | nil => intro e; rfl
  | cons c rest ih =>
    intro e
    rw [evictCapacityLoop]
    split
    · rfl
    · simp [ih]

@[simp] theorem evictCapacityLoop_appliedViewState : ∀ (cands : List (TileId × MTile)) (e : Engine),
    (evictCapacityLoop cands e).appliedViewState = e.appliedViewState := by
  intro cands
  induction cands with
  | nil => intro e; rfl
  | cons c rest ih =>
    intro e
    rw [evictCapacityLoop]
    split
    · rfl
    · simp [ih]

@[simp] theorem evictCapacityLoop_activeDesiredTiles : ∀ (cands : List (TileId × MTile)) (e : Engine),
    (evictCapacityLoop cands e).activeDesiredTiles = e.activeDesiredTiles := by
  intro cands
  induction cands with
  | nil => intro e; rfl
  | cons c rest ih =>
    intro e
    rw [evictCapacityLoop]
    split
    · rfl
    · simp [ih]

@[simp] theorem evictCapacityLoop_requestedCount : ∀ (cands : List (TileId × MTile)) (e : Engine),
    (evictCapacityLoop cands e).requestedCount = e.requestedCount := by
  intro cands
  induction cands with
  | nil => intro e; rfl
  | cons c rest ih =>
    intro e
    rw [evictCapacityLoop]
    split
    · rfl
    · simp [ih]

@[simp] theorem evictCapacityLoop_debugInfo : ∀ (cands : List (TileId × MTile)) (e : Engine),
    (evictCapacityLoop cands e).debugInfo = e.debugInfo := by
  intro cands
  induction cands with
  | nil => intro e; rfl
  | cons c rest ih =>
    intro e
    rw [evictCapacityLoop]
    split
    · rfl
    · simp [ih]

@[simp] theorem evictCapacityLoop_outstanding : ∀ (cands : List (TileId × MTile)) (e : Engine),
    (evictCapacityLoop cands e).outstanding = e.outstanding := by
  intro cands
  induction cands with
  | nil => intro e; rfl
  | cons c rest ih =>
    intro e
    rw [evictCapacityLoop]
    split
    · rfl
    · simp [ih]

@[simp] theorem evictCapacityLoop_appliedLog : ∀ (cands : List (TileId × MTile)) (e : Engine),
    (evictCapacityLoop cands e).appliedLog = e.appliedLog := by
  intro cands
  induction cands with
  | nil => intro e; rfl
  | cons c rest ih =>
    intro e
    rw [evictCapacityLoop]
    split
    · rfl
    · simp [ih]

@[simp] theorem evictTiles_cfg (e : Engine) (wantedKeys : List TileId) :
    (evictTiles e wantedKeys).cfg = e.cfg := by
  unfold evictTiles
  dsimp only
  split
  · exact foldl_preserve
      (f := fun e k => if mapContains e.tiles k then disposeTile e k else e)
      (P := fun e2 => e2.cfg = e.cfg)
      (fun b a hb => by dsimp only; split <;> simp [hb]) _ e rfl
  · rw [evictCapacityLoop_cfg]
    exact foldl_preserve
      (f := fun e k => if mapContains e.tiles k then disposeTile e k else e)
      (P := fun e2 => e2.cfg = e.cfg)
      (fun b a hb => by dsimp only; split <;> simp [hb]) _ e rfl

@[simp] theorem evictTiles_frame (e : Engine) (wantedKeys : List TileId) :
    (evictTiles e wantedKeys).frame = e.frame := by
  unfold evictTiles
  dsimp only
  split
  · exact foldl_preserve
      (f := fun e k => if mapContains e.tiles k then disposeTile e k else e)
      (P := fun e2 => e2.frame = e.frame)
      (fun b a hb => by dsimp only; split <;> simp [hb]) _ e rfl
  · rw [evictCapacityLoop_frame]
    exact foldl_preserve
      (f := fun e k => if mapContains e.tiles k then disposeTile e k else e)
      (P := fun e2 => e2.frame = e.frame)
      (fun b a hb => by dsimp only; split <;> simp [hb]) _ e rfl

@[simp] theorem evictTiles_stateKey (e : Engine) (wantedKeys : List TileId) :
    (evictTiles e wantedKeys).stateKey = e.stateKey := by
  unfold evictTiles
  dsimp only
  split
  · exact foldl_preserve
      (f := fun e k => if mapContains e.tiles k then disposeTile e k else e)
      (P := fun e2 => e2.stateKey = e.stateKey)
      (fun b a hb => by dsimp only; split <;> simp [hb]) _ e rfl
  · rw [evictCapacityLoop_stateKey]
    exact foldl_preserve
      (f := fun e k => if mapContains e.tiles k then disposeTile e k else e)
      (P := fun e2 => e2.stateKey = e.stateKey)
      (fun b a hb => by dsimp only; split <;> simp [hb]) _ e rfl

@[simp] theorem evictTiles_inflightCount (e : Engine) (wantedKeys : List TileId) :
    (evictTiles e wantedKeys).inflightCount = e.inflightCount := by
  unfold evictTiles
  dsimp only
  split
  · exact foldl_preserve
      (f := fun e k => if mapContains e.tiles k then disposeTile e k else e)
      (P := fun e2 => e2.inflightCount = e.inflightCount)
      (fun b a hb => by dsimp only; split <;> simp [hb]) _ e rfl
  · rw [evictCapacityLoop_inflightCount]
    exact foldl_preserve
      (f := fun e k => if mapContains e.tiles k then disposeTile e k else e)
      (P := fun e2 => e2.inflightCount = e.inflightCount)
      (fun b a hb => by dsimp only; split <;> simp [hb]) _ e rfl

@[simp] theorem evictTiles_loadQueue (e : Engine) (wantedKeys : List TileId) :
    (evictTiles e wantedKeys).loadQueue = e.loadQueue := by
  unfold evictTiles
  dsimp only
  split
  · exact foldl_preserve
      (f := fun e k => if mapContains e.tiles k then disposeTile e k else e)
      (P := fun e2 => e2.loadQueue = e.loadQueue)
      (fun b a hb => by dsimp only; split <;> simp [hb]) _ e rfl
  · rw [evictCapacityLoop_loadQueue]
    exact foldl_preserve
      (f := fun e k => if mapContains e.tiles k then disposeTile e k else e)
      (P := fun e2 => e2.loadQueue = e.loadQueue)
      (fun b a hb => by dsimp only; split <;> simp [hb]) _ e rfl

@[simp] theorem evictTiles_lastLayoutUpdateMs (e : Engine) (wantedKeys : List TileId) :
    (evictTiles e wantedKeys).lastLayoutUpdateMs = e.lastLayoutUpdateMs := by
  unfold evictTiles
  dsimp only
  split
  · exact foldl_preserve
      (f := fun e k => if mapContains e.tiles k then disposeTile e k else e)
      (P := fun e2 => e2.lastLayoutUpdateMs = e.lastLayoutUpdateMs)
      (fun b a hb => by dsimp only; split <;> simp [hb]) _ e rfl
  · rw [evictCapacityLoop_lastLayoutUpdateMs]
    exact foldl_preserve
      (f := fun e k => if mapContains e.tiles k then disposeTile e k else e)
      (P := fun e2 => e2.lastLayoutUpdateMs = e.lastLayoutUpdateMs)
      (fun b a hb => by dsimp only; split <;> simp [hb]) _ e rfl

@[simp] theorem evictTiles_pendingViewState (e : Engine) (wantedKeys : List TileId) :
    (evictTiles e wantedKeys).pendingViewState = e.pendingViewState := by
  unfold evictTiles
  dsimp only
  split
  · exact foldl_preserve
      (f := fun e k => if mapContains e.tiles k then disposeTile e k else e)
      (P := fun e2 => e2.pendingViewState = e.pendingViewState)
      (fun b a hb => by dsimp only; split <;> simp [hb]) _ e rfl
  · rw [evictCapacityLoop_pendingViewState]
    exact foldl_preserve
      (f := fun e k => if mapContains e.tiles k then disposeTile e k else e)
      (P := fun e2 => e2.pendingViewState = e.pendingViewState)
      (fun b a hb => by dsimp only; split <;> simp [hb]) _ e rfl

@[simp] theorem evictTiles_appliedViewState (e : Engine) (wantedKeys : List TileId) :
    (evictTiles e wantedKeys).appliedViewState = e.appliedViewState := by
  unfold evictTiles
  dsimp only
  split
  · exact foldl_preserve
      (f := fun e k => if mapContains e.tiles k then disposeTile e k else e)
      (P := fun e2 => e2.appliedViewState = e.appliedViewState)
      (fun b a hb => by dsimp only; split <;> simp [hb]) _ e rfl
  · rw [evictCapacityLoop_appliedViewState]
    exact foldl_preserve
      (f := fun e k => if mapContains e.tiles k then disposeTile e k else e)
      (P := fun e2 => e2.appliedViewState = e.appliedViewState)
      (fun b a hb => by dsimp only; split <;> simp [hb]) _ e rfl

@[simp] theorem evictTiles_activeDesiredTiles (e : Engine) (wantedKeys : List TileId) :
    (evictTiles e wantedKeys).activeDesiredTiles = e.activeDesiredTiles := by
  unfold evictTiles
  dsimp only
  split
  · exact foldl_preserve
      (f := fun e k => if mapContains e.tiles k then disposeTile e k else e)
      (P := fun e2 => e2.activeDesiredTiles = e.activeDesiredTiles)
      (fun b a hb => by dsimp only; split <;> simp [hb]) _ e rfl
  · rw [evictCapacityLoop_activeDesiredTiles]
    exact foldl_preserve
      (f := fun e k => if mapContains e.tiles k then disposeTile e k else e)
      (P := fun e2 => e2.activeDesiredTiles = e.activeDesiredTiles)
      (fun b a hb => by dsimp only; split <;> simp [hb]) _ e rfl

@[simp] theorem evictTiles_requestedCount (e : Engine) (wantedKeys : List TileId) :
    (evictTiles e wantedKeys).requestedCount = e.requestedCount := by
  unfold evictTiles
  dsimp only
  split
  · exact foldl_preserve
      (f := fun e k => if mapContains e.tiles k then disposeTile e k else e)
      (P := fun e2 => e2.requestedCount = e.requestedCount)
      (fun b a hb => by dsimp only; split <;> simp [hb]) _ e rfl
  · rw [evictCapacityLoop_requestedCount]
    exact foldl_preserve
      (f := fun e k => if mapContains e.tiles k then disposeTile e k else e)
      (P := fun e2 => e2.requestedCount = e.requestedCount)
      (fun b a hb => by dsimp only; split <;> simp [hb]) _ e rfl

@[simp] theorem evictTiles_debugInfo (e : Engine) (wantedKeys : List TileId) :
    (evictTiles e wantedKeys).debugInfo = e.debugInfo := by
  unfold evictTiles
  dsimp only
  split
  · exact foldl_preserve
      (f := fun e k => if mapContains e.tiles k then disposeTile e k else e)
      (P := fun e2 => e2.debugInfo = e.debugInfo)
      (fun b a hb => by dsimp only; split <;> simp [hb]) _ e rfl
  · rw [evictCapacityLoop_debugInfo]
    exact foldl_preserve
      (f := fun e k => if mapContains e.tiles k then disposeTile e k else e)
      (P := fun e2 => e2.debugInfo = e.debugInfo)
      (fun b a hb => by dsimp only; split <;> simp [hb]) _ e rfl

@[simp] theorem evictTiles_outstanding (e : Engine) (wantedKeys : List TileId) :
    (evictTiles e wantedKeys).outstanding = e.outstanding := by
  unfold evictTiles
  dsimp only
  split
  · exact foldl_preserve
      (f := fun e k => if mapContains e.tiles k then disposeTile e k else e)
      (P := fun e2 => e2.outstanding = e.outstanding)
      (fun b a hb => by dsimp only; split <;> simp [hb]) _ e rfl
  · rw [evictCapacityLoop_outstanding]
    exact foldl_preserve
      (f := fun e k => if mapContains e.tiles k then disposeTile e k else e)
      (P := fun e2 => e2.outstanding = e.outstanding)
      (fun b a hb => by dsimp only; split <;> simp [hb]) _ e rfl

@[simp] theorem evictTiles_appliedLog (e : Engine) (wantedKeys : List TileId) :
    (evictTiles e wantedKeys).appliedLog = e.appliedLog := by
  unfold evictTiles
  dsimp only
  split
  · exact foldl_preserve
      (f := fun e k => if mapContains e.tiles k then disposeTile e k else e)
      (P := fun e2 => e2.appliedLog = e.appliedLog)
      (fun b a hb => by dsimp only; split <;> simp [hb]) _ e rfl
  · rw [evictCapacityLoop_appliedLog]
    exact foldl_preserve
      (f := fun e k => if mapContains e.tiles k then disposeTile e k else e)
      (P := fun e2 => e2.appliedLog = e.appliedLog)
      (fun b a hb => by dsimp only; split <;> simp [hb]) _ e rfl

@[simp] theorem applyViewState_cfg (e : Engine) (s : ViewState) (now : Q) :
    (applyViewState e s now).cfg = e.cfg := by
  unfold applyViewState
  dsimp only
  rw [evictTiles_cfg]
  exact foldl_preserve (f := applyDesiredStep now)
    (P := fun e2 => e2.cfg = e.cfg)
    (fun b a hb => by simp only [applyDesiredStep_cfg]; exact hb) _ _ rfl

@[simp] theorem applyViewState_frame (e : Engine) (s : ViewState) (now : Q) :
    (applyViewState e s now).frame = e.frame := by
  unfold applyViewState
  dsimp only
  rw [evictTiles_frame]
  exact foldl_preserve (f := applyDesiredStep now)
    (P := fun e2 => e2.frame = e.frame)
    (fun b a hb => by simp only [applyDesiredStep_frame]; exact hb) _ _ rfl

@[simp] theorem applyViewState_inflightCount (e : Engine) (s : ViewState) (now : Q) :
    (applyViewState e s now).inflightCount = e.inflightCount := by
  unfold applyViewState
  dsimp only
  rw [evictTiles_inflightCount]
  exact foldl_preserve (f := applyDesiredStep now)
    (P := fun e2 => e2.inflightCount = e.inflightCount)
    (fun b a hb => by simp only [applyDesiredStep_inflightCount]; exact hb) _ _ rfl

@[simp] theorem applyViewState_lastLayoutUpdateMs (e : Engine) (s : ViewState) (now : Q) :
    (applyViewState e s now).lastLayoutUpdateMs = e.lastLayoutUpdateMs := by
  unfold applyViewState
  dsimp only
  rw [evictTiles_lastLayoutUpdateMs]
  exact foldl_preserve (f := applyDesiredStep now)
    (P := fun e2 => e2.lastLayoutUpdateMs = e.lastLayoutUpdateMs)
    (fun b a hb => by simp only [applyDesiredStep_lastLayoutUpdateMs]; exact hb) _ _ rfl

@[simp] theorem applyViewState_pendingViewState (e : Engine) (s : ViewState) (now : Q) :
    (applyViewState e s now).pendingViewState = e.pendingViewState := by
  unfold applyViewState
  dsimp only
  rw [evictTiles_pendingViewState]
  exact foldl_preserve (f := applyDesiredStep now)
    (P := fun e2 => e2.pendingViewState = e.pendingViewState)
    (fun b a hb => by simp only [applyDesiredStep_pendingViewState]; exact hb) _ _ rfl

@[simp] theorem applyViewState_appliedViewState (e : Engine) (s : ViewState) (now : Q) :
    (applyViewState e s now).appliedViewState = e.appliedViewState := by
  unfold applyViewState
  dsimp only
  rw [evictTiles_appliedViewState]
  exact foldl_preserve (f := applyDesiredStep now)
    (P := fun e2 => e2.appliedViewState = e.appliedViewState)
    (fun b a hb => by simp only [applyDesiredStep_appliedViewState]; exact hb) _ _ rfl

@[simp] theorem applyViewState_debugInfo (e : Engine) (s : ViewState) (now : Q) :
    (applyViewState e s now).debugInfo = e.debugInfo := by
  unfold applyViewState
  dsimp only
  rw [evictTiles_debugInfo]
  exact foldl_preserve (f := applyDesiredStep now)
    (P := fun e2 => e2.debugInfo = e.debugInfo)
    (fun b a hb => by simp only [applyDesiredStep_debugInfo]; exact hb) _ _ rfl

@[simp] theorem applyViewState_outstanding (e : Engine) (s : ViewState) (now : Q) :
    (applyViewState e s now).outstanding = e.outstanding := by
  unfold applyViewState
  dsimp only
  rw [evictTiles_outstanding]
  exact foldl_preserve (f := applyDesiredStep now)
    (P := fun e2 => e2.outstanding = e.outstanding)
    (fun b a hb => by simp only [applyDesiredStep_outstanding]; exact hb) _ _ rfl

@[simp] theorem handleSuccess_cfg (e : Engine) (k : TileId) (attempt : ℕ) :
    (handleSuccess e k attempt).cfg = e.cfg := by
  unfold handleSuccess
  dsimp only
  split
  · rfl
  · split <;> rfl

@[simp] theorem handleSuccess_frame (e : Engine) (k : TileId) (attempt : ℕ) :
    (handleSuccess e k attempt).frame = e.frame := by
  unfold handleSuccess
  dsimp only
  split
  · rfl
  · split <;> rfl

@[simp] theorem handleSuccess_stateKey (e : Engine) (k : TileId) (attempt : ℕ) :
    (handleSuccess e k attempt).stateKey = e.stateKey := by
  unfold handleSuccess
  dsimp only
  split
  · rfl
  · split <;> rfl

@[simp] theorem handleSuccess_loadQueue (e : Engine) (k : TileId) (attempt : ℕ) :
    (handleSuccess e k attempt).loadQueue = e.loadQueue := by
  unfold handleSuccess
  dsimp only
  split
  · rfl
  · split <;> rfl

@[simp] theorem handleSuccess_queuedKeys (e : Engine) (k : TileId) (attempt : ℕ) :
    (handleSuccess e k attempt).queuedKeys = e.queuedKeys := by
  unfold handleSuccess
  dsimp only
  split
  · rfl
  · split <;> rfl

@[simp] theorem handleSuccess_lastLayoutUpdateMs (e : Engine) (k : TileId) (attempt : ℕ) :
    (handleSuccess e k attempt).lastLayoutUpdateMs = e.lastLayoutUpdateMs := by
  unfold handleSuccess
  dsimp only
  split
  · rfl
  · split <;> rfl

@[simp] theorem handleSuccess_pendingViewState (e : Engine) (k : TileId) (attempt : ℕ) :
    (handleSuccess e k attempt).pendingViewState = e.pendingViewState := by
  unfold handleSuccess
  dsimp only
  split
  · rfl
  · split <;> rfl

@[simp] theorem handleSuccess_appliedViewState (e : Engine) (k : TileId) (attempt : ℕ) :
    (handleSuccess e k attempt).appliedViewState = e.appliedViewState := by
  unfold handleSuccess
  dsimp only
  split
  · rfl
  · split <;> rfl

@[simp] theorem handleSuccess_activeDesiredTiles (e : Engine) (k : TileId) (attempt : ℕ) :
    (handleSuccess e k attempt).activeDesiredTiles = e.activeDesiredTiles := by
  unfold handleSuccess
  dsimp only
  split
  · rfl
  · split <;> rfl

@[simp] theorem handleSuccess_requestedCount (e : Engine) (k : TileId) (attempt : ℕ) :
    (handleSuccess e k attempt).requestedCount = e.requestedCount := by
  unfold handleSuccess
  dsimp only
  split
  · rfl
  · split <;> rfl

@[simp] theorem handleSuccess_debugInfo (e : Engine) (k : TileId) (attempt : ℕ) :
    (handleSuccess e k attempt).debugInfo = e.debugInfo := by
  unfold handleSuccess
  dsimp only
  split
  · rfl
  · split <;> rfl

@[simp] theorem handleSuccess_appliedLog (e : Engine) (k : TileId) (attempt : ℕ) :
    (handleSuccess e k attempt).appliedLog = e.appliedLog := by
  unfold handleSuccess
  dsimp only
  split
  · rfl
  · split <;> rfl

@[simp] theorem handleSuccess_disposeLog (e : Engine) (k : TileId) (attempt : ℕ) :
    (handleSuccess e k attempt).disposeLog = e.disposeLog := by
  unfold handleSuccess
  dsimp only
  split
  · rfl
  · split <;> rfl

@[simp] theorem handleFailure_cfg (e : Engine) (k : TileId) (attempt : ℕ) :
    (handleFailure e k attempt).cfg = e.cfg := by
  unfold handleFailure
  dsimp only
  split
  · rfl
  · split
    · rfl
    · split <;> simp

@[simp] theorem handleFailure_frame (e : Engine) (k : TileId) (attempt : ℕ) :
    (handleFailure e k attempt).frame = e.frame := by
  unfold handleFailure
  dsimp only
  split
  · rfl
  · split
    · rfl
    · split <;> simp

@[simp] theorem handleFailure_stateKey (e : Engine) (k : TileId) (attempt : ℕ) :
    (handleFailure e k attempt).stateKey = e.stateKey := by
  unfold handleFailure
  dsimp only
  split
  · rfl
  · split
    · rfl
    · split <;> simp

@[simp] theorem handleFailure_lastLayoutUpdateMs (e : Engine) (k : TileId) (attempt : ℕ) :
    (handleFailure e k attempt).lastLayoutUpdateMs = e.lastLayoutUpdateMs := by
  unfold handleFailure
  dsimp only
  split
  · rfl
  · split
    · rfl
    · split <;> simp

@[simp] theorem handleFailure_pendingViewState (e : Engine) (k : TileId) (attempt : ℕ) :
    (handleFailure e k attempt).pendingViewState = e.pendingViewState := by
  unfold handleFailure
  dsimp only
  split
  · rfl
  · split
    · rfl
    · split <;> simp

@[simp] theorem handleFailure_appliedViewState (e : Engine) (k : TileId) (attempt : ℕ) :
    (handleFailure e k attempt).appliedViewState = e.appliedViewState := by
  unfold handleFailure
  dsimp only
  split
  · rfl
  · split
    · rfl
    · split <;> simp

@[simp] theorem handleFailure_activeDesiredTiles (e : Engine) (k : TileId) (attempt : ℕ) :
    (handleFailure e k attempt).activeDesiredTiles = e.activeDesiredTiles := by
  unfold handleFailure
  dsimp only
  split
  · rfl
  · split
    · rfl
    · split <;> simp

@[simp] theorem handleFailure_requestedCount (e : Engine) (k : TileId) (attempt : ℕ) :
    (handleFailure e k attempt).requestedCount = e.requestedCount := by
  unfold handleFailure
  dsimp only
  split
  · rfl
  · split
    · rfl
    · split <;> simp

@[simp] theorem handleFailure_debugInfo (e : Engine) (k : TileId) (attempt : ℕ) :
    (handleFailure e k attempt).debugInfo = e.debugInfo := by
  unfold handleFailure
  dsimp only
  split
  · rfl
  · split
    · rfl
    · split <;> simp

@[simp] theorem handleFailure_appliedLog (e : Engine) (k : TileId) (attempt : ℕ) :
    (handleFailure e k attempt).appliedLog = e.appliedLog := by
  unfold handleFailure
  dsimp only
  split
  · rfl
  · split
    · rfl
    · split <;> simp

@[simp] theorem handleFailure_disposeLog (e : Engine) (k : TileId) (attempt : ℕ) :
    (handleFailure e k attempt).disposeLog = e.disposeLog := by
  unfold handleFailure
  dsimp only
  split
  · rfl
  · split
    · rfl
    · split <;> simp

theorem startTileLoad_counts (e : Engine) (k : TileId) (t : MTile)
    (h : mapLookup e.tiles k = some t) :
    (startTileLoad e k).inflightCount = e.inflightCount + 1 ∧
      (startTileLoad e k).outstanding = e.outstanding ++ [(k, t.attempts + 1)] := by
  unfold startTileLoad
  rw [h]
  exact ⟨rfl, rfl⟩

theorem startTileLoad_wf (e : Engine) (k : TileId) (t : MTile)
    (ht : mapLookup e.tiles k = some t)
    (h1 : e.inflightCount = e.outstanding.length)
    (h2 : e.inflightCount < e.cfg.maxConcurrentRequests) :
    EngineWf (startTileLoad e k) := by
  obtain ⟨hc1, hc2⟩ := startTileLoad_counts e k t ht
  constructor
  · rw [hc1, hc2]
    simp [h1]
  · rw [hc1, startTileLoad_cfg]
    omega

theorem processLoadQueueAux_wf : ∀ (fuel : ℕ) (e : Engine),
    EngineWf e → EngineWf (processLoadQueueAux fuel e) := by
  intro fuel
  induction fuel with
  | zero => intro e h; exact h
  | succ fuel ih =>
    intro e h
    rw [processLoadQueueAux]
    split
    · next hcond =>
      dsimp only
      split
      · exact h
      · next key hk =>
        split
        · exact ih _ ⟨h.1, h.2⟩
        · next t ht =>
          split
          · exact ih _ (startTileLoad_wf _ key t ht h.1 hcond.1)
          · exact ih _ h
    · exact h

theorem processLoadQueue_wf (e : Engine) (h : EngineWf e) :
    EngineWf (processLoadQueue e) := processLoadQueueAux_wf _ _ h

theorem handleSuccess_counts (e : Engine) (k : TileId) (a : ℕ) :
    (handleSuccess e k a).inflightCount = e.inflightCount - 1 ∧
      (handleSuccess e k a).outstanding = e.outstanding.erase (k, a) ∧
      (handleSuccess e k a).cfg = e.cfg := by
  unfold handleSuccess
  dsimp only
  split
  · exact ⟨rfl, rfl, rfl⟩
  · split
    · exact ⟨rfl, rfl, rfl⟩
    · exact ⟨rfl, rfl, rfl⟩

theorem handleFailure_counts (e : Engine) (k : TileId) (a : ℕ) :
    (handleFailure e k a).inflightCount = e.inflightCount - 1 ∧
      (handleFailure e k a).outstanding = e.outstanding.erase (k, a) ∧
      (handleFailure e k a).cfg = e.cfg := by
  unfold handleFailure
  dsimp only
  split
  · exact ⟨rfl, rfl, rfl⟩
  · split
    · exact ⟨rfl, rfl, rfl⟩
    · split
      · constructor
        · simp
        · constructor <;> simp
      · exact ⟨rfl, rfl, rfl⟩

theorem applyCommit_wf (e2 : Engine) (a : ViewState) (now : Q) (h : EngineWf e2) :
    EngineWf { applyViewState e2 a now with
               lastLayoutUpdateMs := now
               appliedViewState := some a } := by
  constructor
  · show (applyViewState e2 a now).inflightCount = (applyViewState e2 a now).outstanding.length
    rw [applyViewState_inflightCount, applyViewState_outstanding]
    exact h.1
  · show (applyViewState e2 a now).inflightCount ≤
      (applyViewState e2 a now).cfg.maxConcurrentRequests
    rw [applyViewState_inflightCount, applyViewState_cfg]
    exact h.2

theorem updateApplyPhase_wf (e : Engine) (vs : ViewState) (now : Q) (h : EngineWf e) :
    EngineWf (updateApplyPhase e vs now) := by
  unfold updateApplyPhase
  dsimp only
  split
  · split
    · exact applyCommit_wf _ _ _ ⟨h.1, h.2⟩
    · exact ⟨h.1, h.2⟩
  · cases hp : e.pendingViewState with
    | some pending =>
      simp only [hp]
      split
      · exact applyCommit_wf _ _ _ ⟨h.1, h.2⟩
      · exact ⟨h.1, h.2⟩
    | none =>
      simp only [hp]
      split
      · exact applyCommit_wf _ _ _ ⟨h.1, h.2⟩
      · exact ⟨h.1, h.2⟩

theorem updateTail_wf (e : Engine) (vs : ViewState) (now : Q) (h : EngineWf e) :
    EngineWf (updateTail e vs now) := by
  unfold updateTail
  dsimp only
  have h3 : EngineWf (updateProgressiveVisibility (processLoadQueue e) now) := by
    have h2 := processLoadQueue_wf e h
    constructor
    · rw [updateProgressiveVisibility_inflightCount, updateProgressiveVisibility_outstanding]
      exact h2.1
    · rw [updateProgressiveVisibility_inflightCount, updateProgressiveVisibility_cfg]
      exact h2.2
  split
  · exact h3
  · exact h3

theorem updateFn_wf (e : Engine) (vs : ViewState) (now : Q) (h : EngineWf e) :
    EngineWf (updateFn e vs now) := by
  unfold updateFn
  split
  · exact h
  · exact updateTail_wf _ _ _ (updateApplyPhase_wf _ _ _ ⟨h.1, h.2⟩)

theorem completeLoad_wf (e : Engine) (k : TileId) (a : ℕ) (ok : Bool)
    (hmem : (k, a) ∈ e.outstanding) (h : EngineWf e) :
    EngineWf (completeLoad e k a ok) := by
  unfold completeLoad
  apply processLoadQueue_wf
  have hlen : 0 < e.outstanding.length := List.length_pos.mpr (List.ne_nil_of_mem hmem)
  cases ok with
  | false =>
    obtain ⟨hc1, hc2, hc3⟩ := handleFailure_counts e k a
    refine ⟨?_, ?_⟩
    · rw [if_neg (by simp), hc1, hc2, List.length_erase_of_mem hmem, h.1]
    · rw [if_neg (by simp), hc1, hc3]
      have := h.2
      omega
  | true =>
    obtain ⟨hc1, hc2, hc3⟩ := handleSuccess_counts e k a
    refine ⟨?_, ?_⟩
    · rw [if_pos rfl, hc1, hc2, List.length_erase_of_mem hmem, h.1]
    · rw [if_pos rfl, hc1, hc3]
      have := h.2
      omega

/-- C5: the in-flight budget.  At construction the in-flight count is zero,
and every event — a frame update or a fetch completion — preserves the
invariant that `_inflightCount` equals the number of dispatched,
uncompleted loads and never exceeds `maxConcurrentRequests`: a dispatch
happens only under `inflightCount < maxConcurrentRequests` (the
`processLoadQueue` loop guard) and both the success and the failure
callback release the slot before draining again. -/
theorem claim_c5 :
    (∀ cfg : Config, EngineWf (initEngine cfg)) ∧
      (∀ e e' : Engine, EngineWf e → Step e e' → EngineWf e') := by
  constructor
  · intro cfg
    exact ⟨rfl, Nat.zero_le _⟩
  · intro e e' hwf hstep
    cases hstep with
    | update vs now => exact updateFn_wf _ _ _ hwf
    | complete k attempt ok hmem => exact completeLoad_wf _ _ _ _ hmem hwf

/-- C5 witness: the invariant holds at construction and across a concrete
update step that dispatches a load. -/
theorem claim_c5_witness :
    EngineWf (initEngine cfgB) ∧ EngineWf exB1 :=
  ⟨claim_c5.1 cfgB, claim_c5.2 _ _ (claim_c5.1 cfgB) (Step.update _ _ _)⟩

theorem mem_insertLE {α : Type} (le : α → α → Bool) (x b : α) :
    ∀ l : List α, b ∈ insertLE le x l ↔ b = x ∨ b ∈ l := by
  intro l
  induction l with
  | nil => simp [insertLE]
  | cons y ys ih =>
    unfold insertLE
    split
    · simp only [List.mem_cons, ih]
      try tauto
    · simp only [List.mem_cons]
      try tauto

theorem mem_stableSortBy_aux {α : Type} (le : α → α → Bool) (b : α) :
    ∀ (l acc : List α),
      (b ∈ l.foldl (fun acc x => insertLE le x acc) acc ↔ b ∈ acc ∨ b ∈ l) := by
  intro l
  induction l with
  | nil => simp
  | cons x xs ih =>
    intro acc
    rw [List.foldl_cons, ih, mem_insertLE]
    simp only [List.mem_cons]
    tauto

theorem mem_stableSortBy {α : Type} (le : α → α → Bool) (b : α) (l : List α) :
    b ∈ stableSortBy le l ↔ b ∈ l := by
  unfold stableSortBy
  rw [mem_stableSortBy_aux]
  simp

theorem evictCapacityLoop_spec : ∀ (cands : List (TileId × MTile)) (e : Engine),
    (evictCapacityLoop cands e).tiles.length ≤ e.cfg.maxCachedTiles ∨
      ∀ p ∈ (evictCapacityLoop cands e).tiles, p ∈ e.tiles ∧ p.1 ∉ cands.map (·.1) := by
  intro cands
  induction cands with
  | nil =>
    intro e
    right
    intro p hp
    exact ⟨hp, List.not_mem_nil _⟩
  | cons c rest ih =>
    intro e
    rw [evictCapacityLoop]
    split
    · left
      assumption
    · rcases ih (disposeTile e c.1) with h | h
      · left
        rw [show (disposeTile e c.1).cfg = e.cfg from disposeTile_cfg _ _] at h
        exact h
      · right
        intro p hp
        obtain ⟨hp1, hp2⟩ := h p hp
        have hp1' : p ∈ mapErase e.tiles c.1 := hp1
        have hmem : p ∈ e.tiles := List.mem_of_mem_filter hp1'
        have hne : p.1 ≠ c.1 := by
          have := List.of_mem_filter hp1'
          simpa using this
        refine ⟨hmem, ?_⟩
        simp only [List.map_cons, List.mem_cons]
        rintro (h1 | h1)
        · exact hne h1
        · exact hp2 h1

/-- C4 amended: after any eviction pass the cache size is within
`maxCachedTiles` unless every remaining entry is wanted by the current view
state or in state `loading` — both are exempt from the capacity pass, so
either can hold the cache over the bound. -/
theorem claim_c4_amended (e : Engine) (wantedKeys : List TileId) :
    (evictTiles e wantedKeys).tiles.length ≤ e.cfg.maxCachedTiles ∨
      ∀ p ∈ (evictTiles e wantedKeys).tiles, p.1 ∈ wantedKeys ∨ p.2.state = .loading := by
  unfold evictTiles
  dsimp only
  have hcfg : ∀ e2 : Engine, (List.foldl
      (fun e k => if mapContains e.tiles k then disposeTile e k else e) e2
      (List.map (fun x => x.1)
        (List.filter (fun p => decide (¬wantedKeys.contains p.1 = true ∧
          p.2.state ≠ TState.loading ∧ (e.cfg.retainFrames : ℤ) < e.frame - p.2.lastWantedFrame))
        e.tiles))).cfg = e2.cfg := by
    intro e2
    exact foldl_preserve
      (f := fun e k => if mapContains e.tiles k then disposeTile e k else e)
      (P := fun e3 => e3.cfg = e2.cfg)
      (fun b a hb => by dsimp only; split <;> simp [hb]) _ e2 rfl
  split
  · next hle =>
    left
    rw [hcfg e] at hle
    exact hle
  · rcases evictCapacityLoop_spec _ _ with h | h
    · left
      rw [hcfg e] at h
      exact h
    · right
      intro p hp
      by_contra hcon
      push_neg at hcon
      obtain ⟨hw, hl⟩ := hcon
      obtain ⟨hp1, hp2⟩ := h p hp
      apply hp2
      refine List.mem_map_of_mem (fun x : TileId × MTile => x.1) ?_
      rw [mem_stableSortBy]
      refine List.mem_filter.mpr ⟨hp1, ?_⟩
      simp [hw, hl]

theorem list_decomp_of_getElem? {α : Type} {l : List α} {i : ℕ} {key : α}
    (hk : l[i]? = some key) : l = l.take i ++ key :: l.drop (i + 1) := by
  have hlt : i < l.length := by
    by_contra hge
    rw [List.getElem?_eq_none (Nat.le_of_not_lt hge)] at hk
    exact Option.noConfusion hk
  have h1 : l[i] = key := by
    have := List.getElem?_eq_getElem hlt
    rw [hk] at this
    exact (Option.some.injEq _ _).mp this.symm
  conv_lhs => rw [← List.take_append_drop i l]
  rw [List.drop_eq_getElem_cons hlt, h1]

theorem mem_eraseIdx_of_ne {α : Type} {l : List α} {i : ℕ} {key x : α}
    (hk : l[i]? = some key) (hx : x ∈ l) (hne : x ≠ key) : x ∈ l.eraseIdx i := by
  have hd := list_decomp_of_getElem? hk
  rw [List.eraseIdx_eq_take_drop_succ]
  rw [hd] at hx
  rcases List.mem_append.mp hx with h | h
  · exact List.mem_append.mpr (Or.inl h)
  · rcases List.mem_cons.mp h with h | h
    · exact absurd h hne
    · exact List.mem_append.mpr (Or.inr h)

theorem not_mem_eraseIdx_self {α : Type} {l : List α} {i : ℕ} {key : α}
    (hnd : l.Nodup) (hk : l[i]? = some key) : key ∉ l.eraseIdx i := by
  have hd := list_decomp_of_getElem? hk
  rw [List.eraseIdx_eq_take_drop_succ]
  rw [hd] at hnd
  intro hmem
  rcases List.mem_append.mp hmem with h | h
  · exact (List.disjoint_of_nodup_append hnd) h (List.mem_cons_self _ _)
  · exact ((List.nodup_cons.mp (List.Nodup.of_append_right hnd)).1) h

theorem queueDedup_of_eq (e1 e2 : Engine) (hq : e2.queuedKeys = e1.queuedKeys)
    (hl : e2.loadQueue = e1.loadQueue) (h : QueueDedup e1) : QueueDedup e2 := by
  unfold QueueDedup
  rw [hq, hl]
  exact h

theorem enqueueTileLoad_dedup (e : Engine) (k : TileId) (h : QueueDedup e) :
    QueueDedup (enqueueTileLoad e k) := by
  unfold enqueueTileLoad
  cases hl : mapLookup e.tiles k with
  | none => exact h
  | some t =>
    dsimp only
    split
    · exact h
    · split
      · exact h
      · next hc =>
        have hknotq : k ∉ e.queuedKeys := by simpa using hc
        have hknotl : k ∉ e.loadQueue := fun hmem => hknotq (h.2.1 k hmem)
        refine ⟨?_, ?_, ?_⟩
        · intro x hx
          rcases List.mem_append.mp hx with hx | hx
          · exact List.mem_append.mpr (Or.inl (h.1 x hx))
          · exact List.mem_append.mpr (Or.inr hx)
        · intro x hx
          rcases List.mem_append.mp hx with hx | hx
          · exact List.mem_append.mpr (Or.inl (h.2.1 x hx))
          · exact List.mem_append.mpr (Or.inr hx)
        · refine List.Nodup.append h.2.2 (List.nodup_singleton k) ?_
          intro a ha hb
          rw [List.mem_singleton] at hb
          subst hb
          exact hknotl ha

theorem dequeue_dedup (e : Engine) (key : TileId)
    (hk : e.loadQueue[pickBestQueueIndex e]? = some key) (h : QueueDedup e) :
    QueueDedup { e with loadQueue := e.loadQueue.eraseIdx (pickBestQueueIndex e)
                        queuedKeys := e.queuedKeys.filter (· ≠ key) } := by
  refine ⟨?_, ?_, ?_⟩
  · intro x hx
    have hx' : x ∈ e.queuedKeys ∧ x ≠ key := by
      have h1 := List.mem_of_mem_filter hx
      have h2 := List.of_mem_filter hx
      exact ⟨h1, by simpa using h2⟩
    exact mem_eraseIdx_of_ne hk (h.1 x hx'.1) hx'.2
  · intro x hx
    have hx1 : x ∈ e.loadQueue := List.mem_of_mem_eraseIdx hx
    have hxne : x ≠ key := by
      intro heq
      subst heq
      exact not_mem_eraseIdx_self h.2.2 hk hx
    exact List.mem_filter.mpr ⟨h.2.1 x hx1, by simpa using hxne⟩
  · exact List.Nodup.eraseIdx _ h.2.2

theorem processLoadQueueAux_dedup : ∀ (fuel : ℕ) (e : Engine),
    QueueDedup e → QueueDedup (processLoadQueueAux fuel e) := by
  intro fuel
  induction fuel with
  | zero => intro e h; exact h
  | succ fuel ih =>
    intro e h
    rw [processLoadQueueAux]
    split
    · dsimp only
      split
      · exact h
      · next key hk =>
        have he' := dequeue_dedup e key hk h
        split
        · exact ih _ he'
        · split
          · refine ih _ (queueDedup_of_eq _ _ ?_ ?_ he')
            · exact (startTileLoad_persist _ _).2.2.2.2.1
            · exact (startTileLoad_persist _ _).2.2.2.1
          · exact ih _ he'
    · exact h

theorem processLoadQueue_dedup (e : Engine) (h : QueueDedup e) :
    QueueDedup (processLoadQueue e) := processLoadQueueAux_dedup _ _ h

theorem handleFailure_dedup (e : Engine) (k : TileId) (a : ℕ) (h : QueueDedup e) :
    QueueDedup (handleFailure e k a) := by
  unfold handleFailure
  dsimp only
  split
  · exact h
  · split
    · exact h
    · split
      · exact enqueueTileLoad_dedup _ _ h
      · exact h

theorem completeLoad_dedup (e : Engine) (k : TileId) (a : ℕ) (ok : Bool)
    (h : QueueDedup e) : QueueDedup (completeLoad e k a ok) := by
  unfold completeLoad
  apply processLoadQueue_dedup
  cases ok with
  | true =>
    rw [if_pos rfl]
    refine queueDedup_of_eq _ _ ?_ ?_ h
    · exact handleSuccess_queuedKeys _ _ _
    · exact handleSuccess_loadQueue _ _ _
  | false =>
    rw [if_neg (by simp)]
    exact handleFailure_dedup _ _ _ h

theorem disposeTile_dedup (e : Engine) (k : TileId) (hnl : k ∉ e.loadQueue)
    (h : QueueDedup e) : QueueDedup (disposeTile e k) := by
  unfold disposeTile
  refine ⟨?_, ?_, h.2.2⟩
  · intro x hx
    exact h.1 x (List.mem_of_mem_filter hx)
  · intro x hx
    have hxne : x ≠ k := fun heq => hnl (heq ▸ hx)
    exact List.mem_filter.mpr ⟨h.2.1 x hx, by simpa using hxne⟩

/-- C9 amended: the queue/dedup-set coupling (`_queuedKeys` tracks exactly
the queued keys, no duplicates in `_loadQueue`) is preserved by enqueueing,
by the queue drain, by load completions, and by disposal of any key not
currently in the queue; `disposeTile` of a still-queued key is the one
operation that breaks it (it removes the key from the set but not the
queue), which is what the counterexample exercises. -/
theorem claim_c9_amended :
    (∀ (e : Engine) (k : TileId), QueueDedup e → QueueDedup (enqueueTileLoad e k)) ∧
      (∀ e : Engine, QueueDedup e → QueueDedup (processLoadQueue e)) ∧
      (∀ (e : Engine) (k : TileId) (a : ℕ) (ok : Bool),
        QueueDedup e → QueueDedup (completeLoad e k a ok)) ∧
      (∀ (e : Engine) (k : TileId), k ∉ e.loadQueue → QueueDedup e →
        QueueDedup (disposeTile e k)) :=
  ⟨enqueueTileLoad_dedup, processLoadQueue_dedup, completeLoad_dedup, disposeTile_dedup⟩

/-- C9 amended witness: the preserved coupling at a concrete engine state
with a two-key queue. -/
theorem claim_c9_amended_witness :
    QueueDedup (enqueueTileLoad exF1 tB) ∧ QueueDedup (processLoadQueue exF1) ∧
      QueueDedup (completeLoad exF1 tB 1 true) ∧ QueueDedup (disposeTile exF1 tB) :=
  ⟨claim_c9_amended.1 exF1 tB (by decide), claim_c9_amended.2.1 exF1 (by decide),
    claim_c9_amended.2.2.1 exF1 tB 1 true (by decide),
    claim_c9_amended.2.2.2 exF1 tB (by decide) (by decide)⟩

theorem startTileLoad_lookup_ne (e : Engine) (k id : TileId) (h : id ≠ k) :
    mapLookup (startTileLoad e k).tiles id = mapLookup e.tiles id := by
  unfold startTileLoad
  cases hl : mapLookup e.tiles k with
  | none => rfl
  | some t => simp [mapLookup_mapSet_ne _ _ _ _ h]

theorem startTileLoad_lookup_self (e : Engine) (k : TileId) (t : MTile)
    (ht : mapLookup e.tiles k = some t) :
    mapLookup (startTileLoad e k).tiles k =
      some { t with state := .loading, attempts := t.attempts + 1 } := by
  unfold startTileLoad
  rw [ht]
  simp [mapLookup_mapSet_self]

theorem enqueueTileLoad_lookup (e : Engine) (k id : TileId) :
    mapLookup (enqueueTileLoad e k).tiles id = mapLookup e.tiles id ∨
      (id = k ∧ ∃ t, mapLookup e.tiles id = some t ∧
        ¬ (t.state = .loading ∨ t.state = .queued ∨ t.state = .ready) ∧
        mapLookup (enqueueTileLoad e k).tiles id = some { t with state := .queued }) := by
  unfold enqueueTileLoad
  cases hl : mapLookup e.tiles k with
  | none => exact Or.inl rfl
  | some t =>
    dsimp only
    split
    · exact Or.inl rfl
    · next hst =>
      by_cases hid : id = k
      · subst hid
        refine Or.inr ⟨rfl, t, hl, hst, ?_⟩
        split <;> simp [mapLookup_mapSet_self]
      · left
        split <;> simp [mapLookup_mapSet_ne _ _ _ _ hid]

theorem animateTileOpacity_fields (cfg : Config) (t : MTile) (now : Q) :
    (animateTileOpacity cfg t now).attempts = t.attempts ∧
      (animateTileOpacity cfg t now).state = t.state ∧
      (animateTileOpacity cfg t now).tileId = t.tileId ∧
      (animateTileOpacity cfg t now).lastWantedFrame = t.lastWantedFrame ∧
      (animateTileOpacity cfg t now).targetOpacity = t.targetOpacity ∧
      (animateTileOpacity cfg t now).lastTouchedFrame = t.lastTouchedFrame ∧
      (animateTileOpacity cfg t now).priority = t.priority := by
  unfold animateTileOpacity
  split
  · simp
  · dsimp only
    split
    · simp
    · split <;> simp

theorem mapLookup_mapValues (g : TileId × MTile → MTile) (m : TileMap) (id : TileId) :
    mapLookup (m.map (fun p => (p.1, g p))) id = (mapLookup m id).map (fun t => g (id, t)) := by
  induction m with
  | nil => rfl
  | cons p rest ih =>
    obtain ⟨k0, t0⟩ := p
    by_cases h : k0 = id
    · subst h
      rw [List.map_cons]
      dsimp only
      rw [mapLookup_cons_self, mapLookup_cons_self]
      rfl
    · rw [List.map_cons]
      dsimp only
      rw [mapLookup_cons_ne _ _ _ _ h, mapLookup_cons_ne _ _ _ _ h, ih]

theorem processLoadQueueAux_lookup : ∀ (fuel : ℕ) (e : Engine) (id : TileId) (t : MTile),
    mapLookup e.tiles id = some t →
    ∃ t', mapLookup (processLoadQueueAux fuel e).tiles id = some t' ∧
      (t' = t ∨ (t.state = .queued ∧
        t' = { t with state := .loading, attempts := t.attempts + 1 })) := by
  intro fuel
  induction fuel with
  | zero => intro e id t h; exact ⟨t, h, Or.inl rfl⟩
  | succ fuel ih =>
    intro e id t h
    rw [processLoadQueueAux]
    split
    · dsimp only
      split
      · exact ⟨t, h, Or.inl rfl⟩
      · next key hk =>
        split
        · exact ih _ id t h
        · next tk htk =>
          split
          · next hq =>
            by_cases hid : id = key
            · subst hid
              have h2 : mapLookup e.tiles id = some tk := htk
              have htt : tk = t := by
                rw [h] at h2
                exact (Option.some.injEq _ _).mp h2.symm
              subst htt
              have h3 : mapLookup (startTileLoad
                  { e with loadQueue := e.loadQueue.eraseIdx (pickBestQueueIndex e)
                           queuedKeys := e.queuedKeys.filter (· ≠ id) } id).tiles id =
                  some { tk with state := .loading, attempts := tk.attempts + 1 } :=
                startTileLoad_lookup_self _ id tk htk
              obtain ⟨t', hlook, hdis⟩ := ih _ id _ h3
              refine ⟨t', hlook, Or.inr ⟨hq, ?_⟩⟩
              rcases hdis with h4 | h4
              · exact h4
              · exact absurd h4.1 (by simp)
            · have h2 : mapLookup (startTileLoad
                  { e with loadQueue := e.loadQueue.eraseIdx (pickBestQueueIndex e)
                           queuedKeys := e.queuedKeys.filter (· ≠ key) } key).tiles id =
                  some t := by
                rw [startTileLoad_lookup_ne _ _ _ hid]
                exact h
              exact ih _ id t h2
          · exact ih _ id t h
    · exact ⟨t, h, Or.inl rfl⟩

theorem processLoadQueue_lookup (e : Engine) (id : TileId) (t : MTile)
    (h : mapLookup e.tiles id = some t) :
    ∃ t', mapLookup (processLoadQueue e).tiles id = some t' ∧
      (t' = t ∨ (t.state = .queued ∧
        t' = { t with state := .loading, attempts := t.attempts + 1 })) :=
  processLoadQueueAux_lookup _ _ _ _ h

theorem stepRel_trans (RL : ℕ) (t t2 t' : MTile)
    (a1 : t2.attempts = t.attempts)
    (s1 : t2.state = t.state ∨
      ((t.state = .idle ∨ (t.state = .error ∧ t.attempts ≤ RL)) ∧ t2.state = .queued))
    (a2 : t'.attempts = t2.attempts)
    (s2 : t'.state = t2.state ∨
      ((t2.state = .idle ∨ (t2.state = .error ∧ t2.attempts ≤ RL)) ∧ t'.state = .queued)) :
    t'.attempts = t.attempts ∧ (t'.state = t.state ∨
      ((t.state = .idle ∨ (t.state = .error ∧ t.attempts ≤ RL)) ∧ t'.state = .queued)) := by
  refine ⟨a2.trans a1, ?_⟩
  rcases s1 with s1 | ⟨c1, q1⟩
  · rcases s2 with s2 | ⟨c2, q2⟩
    · left
      rw [s2, s1]
    · right
      refine ⟨?_, q2⟩
      rw [s1] at c2
      rw [a1] at c2
      exact c2
  · rcases s2 with s2 | ⟨c2, q2⟩
    · right
      exact ⟨c1, s2.trans q1⟩
    · rcases c2 with c2 | c2
      · rw [q1] at c2
        exact absurd c2 (by simp)
      · rw [q1] at c2
        exact absurd c2.1 (by simp)

theorem registerTile_lookup_of_some (e : Engine) (key : TileId) (now : Q) (id : TileId)
    (t : MTile) (h : mapLookup e.tiles id = some t) :
    mapLookup (registerTile e key now).tiles id = some t := by
  unfold registerTile
  split
  · exact h
  · next hnc =>
    by_cases hk : id = key
    · subst hk
      exact absurd (by simp [mapContains, h]) hnc
    · rw [mapLookup_mapSet_ne _ _ _ _ hk]
      exact h

theorem touchAncestor_lookup (e : Engine) (key : TileId) (touched : List TileId)
    (id : TileId) (t : MTile) (h : mapLookup e.tiles id = some t) :
    ∃ t', mapLookup ((touchAncestor e key touched).1).tiles id = some t' ∧
      t'.attempts = t.attempts ∧
      (t'.state = t.state ∨
        ((t.state = .idle ∨ (t.state = .error ∧ t.attempts ≤ e.cfg.retryLimit)) ∧
          t'.state = .queued)) := by
  unfold touchAncestor
  split
  · exact ⟨t, h, rfl, Or.inl rfl⟩
  · cases hl : mapLookup e.tiles key with
    | none => exact ⟨t, h, rfl, Or.inl rfl⟩
    | some parent =>
      dsimp only
      set p2 : MTile := { parent with lastWantedFrame := e.frame, lastTouchedFrame := e.frame } with hp2
      set e2 : Engine := { e with tiles := mapSet e.tiles key p2 } with he2
      by_cases hid : id = key
      · subst hid
        have hpt : parent = t := by
          rw [h] at hl
          exact ((Option.some.injEq _ _).mp hl).symm
        have hset : mapLookup e2.tiles id = some p2 := by
          rw [he2]
          exact mapLookup_mapSet_self _ _ _
        have hsame : p2.state = t.state := by
          rw [hp2, ← hpt]
        have hatt : p2.attempts = t.attempts := by
          rw [hp2, ← hpt]
        split
        · next hidle =>
          rcases enqueueTileLoad_lookup e2 id id with hu | ⟨_, t0, hl0, _, hres⟩
          · rw [hu, hset]
            exact ⟨p2, rfl, hatt, Or.inl hsame⟩
          · rw [hset] at hl0
            have ht0 : t0 = p2 := ((Option.some.injEq _ _).mp hl0).symm
            subst ht0
            refine ⟨_, hres, hatt, Or.inr ⟨Or.inl ?_, rfl⟩⟩
            rw [← hsame]
            exact hidle
        · split
          · next herr =>
            rcases enqueueTileLoad_lookup e2 id id with hu | ⟨_, t0, hl0, _, hres⟩
            · rw [hu, hset]
              exact ⟨p2, rfl, hatt, Or.inl hsame⟩
            · rw [hset] at hl0
              have ht0 : t0 = p2 := ((Option.some.injEq _ _).mp hl0).symm
              subst ht0
              refine ⟨_, hres, hatt, Or.inr ⟨Or.inr ⟨?_, ?_⟩, rfl⟩⟩
              · rw [← hsame]
                exact herr.1
              · rw [← hatt]
                exact herr.2
          · exact ⟨p2, hset, hatt, Or.inl hsame⟩
      · have hset : mapLookup e2.tiles id = some t := by
          rw [he2]
          rw [mapLookup_mapSet_ne _ _ _ _ hid]
          exact h
        split
        · rcases enqueueTileLoad_lookup e2 key id with hu | ⟨heq, _, _, _, _⟩
          · rw [hu, hset]
            exact ⟨t, rfl, rfl, Or.inl rfl⟩
          · exact absurd heq hid
        · split
          · rcases enqueueTileLoad_lookup e2 key id with hu | ⟨heq, _, _, _, _⟩
            · rw [hu, hset]
              exact ⟨t, rfl, rfl, Or.inl rfl⟩
            · exact absurd heq hid
          · exact ⟨t, hset, rfl, Or.inl rfl⟩

theorem findReadyAncestorAux_lookup : ∀ (fuel : ℕ) (x y : ℤ) (z : ℕ)
    (touched : List TileId) (e : Engine) (now : Q) (id : TileId) (t : MTile),
    mapLookup e.tiles id = some t →
    ∃ t', mapLookup ((findReadyAncestorAux now e x y z touched fuel).1).tiles id = some t' ∧
      t'.attempts = t.attempts ∧
      (t'.state = t.state ∨
        ((t.state = .idle ∨ (t.state = .error ∧ t.attempts ≤ e.cfg.retryLimit)) ∧
          t'.state = .queued)) := by
  intro fuel
  induction fuel with
  | zero => intro x y z touched e now id t h; exact ⟨t, h, rfl, Or.inl rfl⟩
  | succ fuel ih =>
    intro x y z touched e now id t h
    rw [findReadyAncestorAux]
    split
    · dsimp only
      have h1 : mapLookup (registerTile e (ancestorKey x y z) now).tiles id = some t :=
        registerTile_lookup_of_some e _ now id t h
      obtain ⟨t2, h2, ha2, hs2⟩ :=
        touchAncestor_lookup (registerTile e (ancestorKey x y z) now) (ancestorKey x y z)
          touched id t h1
      rw [registerTile_cfg] at hs2
      split
      · split
        · exact ⟨t2, h2, ha2, hs2⟩
        · obtain ⟨t', h', ha', hs'⟩ := ih _ _ _ _ _ now id t2 h2
          simp only [touchAncestor_cfg, registerTile_cfg] at hs'
          obtain ⟨hA, hS⟩ := stepRel_trans e.cfg.retryLimit t t2 t' ha2 hs2 ha' hs'
          exact ⟨t', h', hA, hS⟩
      · obtain ⟨t', h', ha', hs'⟩ := ih _ _ _ _ _ now id t2 h2
        simp only [touchAncestor_cfg, registerTile_cfg] at hs'
        obtain ⟨hA, hS⟩ := stepRel_trans e.cfg.retryLimit t t2 t' ha2 hs2 ha' hs'
        exact ⟨t', h', hA, hS⟩
    · exact ⟨t, h, rfl, Or.inl rfl⟩

theorem findReadyAncestor_lookup (e : Engine) (tileId : TileId) (touched : List TileId)
    (now : Q) (id : TileId) (t : MTile) (h : mapLookup e.tiles id = some t) :
    ∃ t', mapLookup ((findReadyAncestor e tileId touched now).1).tiles id = some t' ∧
      t'.attempts = t.attempts ∧
      (t'.state = t.state ∨
        ((t.state = .idle ∨ (t.state = .error ∧ t.attempts ≤ e.cfg.retryLimit)) ∧
          t'.state = .queued)) :=
  findReadyAncestorAux_lookup _ _ _ _ _ _ now id t h

theorem visibilityStep_lookup (now : Q) (acc : Engine × List TileId × List TileId)
    (d : DesiredTile) (id : TileId) (t : MTile)
    (h : mapLookup acc.1.tiles id = some t) :
    ∃ t', mapLookup ((visibilityStep now acc d).1).tiles id = some t' ∧
      t'.attempts = t.attempts := by
  obtain ⟨e, vis, touched⟩ := acc
  unfold visibilityStep
  dsimp only at h ⊢
  cases hl : mapLookup e.tiles d.tileId with
  | none => exact ⟨t, h, rfl⟩
  | some current =>
    dsimp only
    split
    · by_cases hid : id = d.tileId
      · subst hid
        have hct : current = t := by
          rw [h] at hl
          exact ((Option.some.injEq _ _).mp hl).symm
        subst hct
        exact ⟨_, mapLookup_mapSet_self _ _ _, rfl⟩
      · refine ⟨t, ?_, rfl⟩
        rw [mapLookup_mapSet_ne _ _ _ _ hid]
        exact h
    · obtain ⟨t2, h2, ha2, _⟩ := findReadyAncestor_lookup e d.tileId touched now id t h
      split
      · next e2 touched2 a heq =>
        rw [heq] at h2
        dsimp only at h2
        split
        · next fallback heq2 =>
          by_cases hid : id = a
          · subst hid
            have hft : fallback = t2 := by
              rw [h2] at heq2
              exact ((Option.some.injEq _ _).mp heq2).symm
            subst hft
            exact ⟨_, mapLookup_mapSet_self _ _ _, ha2⟩
          · refine ⟨t2, ?_, ha2⟩
            rw [mapLookup_mapSet_ne _ _ _ _ hid]
            exact h2
        · exact ⟨t2, h2, ha2⟩
      · next e2 touched2 heq =>
        rw [heq] at h2
        exact ⟨t2, h2, ha2⟩

theorem visibilityFold_lookup : ∀ (ds : List DesiredTile) (now : Q)
    (acc : Engine × List TileId × List TileId) (id : TileId) (t : MTile),
    mapLookup acc.1.tiles id = some t →
    ∃ t', mapLookup ((ds.foldl (visibilityStep now) acc).1).tiles id = some t' ∧
      t'.attempts = t.attempts := by
  intro ds
  induction ds with
  | nil => intro now acc id t h; exact ⟨t, h, rfl⟩
  | cons d ds ih =>
    intro now acc id t h
    rw [List.foldl_cons]
    obtain ⟨t1, h1, ha1⟩ := visibilityStep_lookup now acc d id t h
    obtain ⟨t', h', ha'⟩ := ih now _ id t1 h1
    exact ⟨t', h', ha'.trans ha1⟩

theorem exists_attempts_of_map (g : TileId × MTile → MTile) (m : TileMap)
    (id : TileId) (t a : MTile)
    (hg : ∀ p, (g p).attempts = p.2.attempts)
    (h : mapLookup m id = some t) (hat : t.attempts = a.attempts) :
    ∃ t', mapLookup (m.map (fun p => (p.1, g p))) id = some t' ∧ t'.attempts = a.attempts := by
  rw [mapLookup_mapValues, h]
  exact ⟨g (id, t), rfl, (hg (id, t)).trans hat⟩

theorem updateProgressiveVisibility_lookup (e0 : Engine) (now : Q) (id : TileId) (t : MTile)
    (h : mapLookup e0.tiles id = some t) :
    ∃ t', mapLookup (updateProgressiveVisibility e0 now).tiles id = some t' ∧
      t'.attempts = t.attempts := by
  unfold updateProgressiveVisibility
  dsimp only
  obtain ⟨t2, h2, ha2⟩ := visibilityFold_lookup e0.activeDesiredTiles now (e0, [], []) id t h
  refine exists_attempts_of_map _ _ id t2 t ?_ h2 ha2
  intro p
  exact (animateTileOpacity_fields _ _ _).1

theorem updateTail_lookup (e : Engine) (vs : ViewState) (now : Q) (id : TileId) (t : MTile)
    (h : mapLookup e.tiles id = some t) :
    ∃ t', mapLookup (updateTail e vs now).tiles id = some t' ∧
      (t'.attempts = t.attempts ∨ (t.state = .queued ∧ t'.attempts = t.attempts + 1)) := by
  unfold updateTail
  dsimp only
  obtain ⟨t1, h1, hd⟩ := processLoadQueue_lookup e id t h
  obtain ⟨t2, h2, ha⟩ := updateProgressiveVisibility_lookup (processLoadQueue e) now id t1 h1
  have hout : ∀ t2, mapLookup
      (updateProgressiveVisibility (processLoadQueue e) now).tiles id = some t2 →
      t2.attempts = t1.attempts →
      ∃ t', mapLookup
        (match (updateProgressiveVisibility (processLoadQueue e) now).appliedViewState with
          | some a => refreshDebugInfo (updateProgressiveVisibility (processLoadQueue e) now)
              a.zoom a.centerX a.centerY a.tileRadius
          | none => refreshDebugInfo (updateProgressiveVisibility (processLoadQueue e) now)
              vs.zoom vs.centerX vs.centerY vs.tileRadius).tiles id = some t' ∧
        (t'.attempts = t.attempts ∨ (t.state = .queued ∧ t'.attempts = t.attempts + 1)) := by
    intro t2 h2 ha
    exact ⟨t2, by split <;> simpa using h2, by
      rcases hd with h4 | h4
      · exact Or.inl (by rw [ha, h4])
      · exact Or.inr ⟨h4.1, by rw [ha, h4.2]⟩⟩
  exact hout t2 h2 ha

theorem updateApplyPhase_noop (e : Engine) (vs : ViewState) (now : Q)
    (hsk : e.stateKey = some vs) (hp : e.pendingViewState = none) :
    updateApplyPhase e vs now = e := by
  unfold updateApplyPhase
  rw [hp]
  simp [hsk]

theorem updateTail_appliedLog (e : Engine) (vs : ViewState) (now : Q) :
    (updateTail e vs now).appliedLog = e.appliedLog := by
  unfold updateTail
  dsimp only
  split <;> simp

/-- C6: corrected form.  Calling `update` again with the view state that is
already committed (and no deferred state pending) re-applies nothing — the
applied-state log is unchanged — and no tile's load is restarted: every
cached tile keeps its attempt count, except that a tile still awaiting
dispatch in the load queue (state `queued`) may now be dispatched by the
drain, incrementing its attempts by exactly one. -/
theorem claim_c6_amended (e : Engine) (vs : ViewState) (now : Q)
    (hen : e.cfg.enabled = true) (hsk : e.stateKey = some vs)
    (hp : e.pendingViewState = none) :
    (updateFn e vs now).appliedLog = e.appliedLog ∧
      ∀ id t, mapLookup e.tiles id = some t →
        ∃ t', mapLookup (updateFn e vs now).tiles id = some t' ∧
          (t'.attempts = t.attempts ∨
            (t.state = .queued ∧ t'.attempts = t.attempts + 1)) := by
  unfold updateFn
  rw [if_neg (by simp [hen])]
  dsimp only
  rw [updateApplyPhase_noop { e with frame := e.frame + 1 } vs now hsk hp]
  constructor
  · rw [updateTail_appliedLog]
  · intro id t h
    exact updateTail_lookup { e with frame := e.frame + 1 } vs now id t h

/-- C6 witness: the engine after a first update with the small test layout
satisfies the hypotheses, and the theorem applies to a second update with
the identical view state. -/
theorem claim_c6_amended_witness :
    exF1.cfg.enabled = true ∧ exF1.stateKey = some vsF ∧
      exF1.pendingViewState = none ∧
      ((updateFn exF1 vsF 1000).appliedLog = exF1.appliedLog ∧
        ∀ id t, mapLookup exF1.tiles id = some t →
          ∃ t', mapLookup (updateFn exF1 vsF 1000).tiles id = some t' ∧
            (t'.attempts = t.attempts ∨
              (t.state = .queued ∧ t'.attempts = t.attempts + 1))) :=
  ⟨by decide, by decide, by decide,
    claim_c6_amended exF1 vsF 1000 (by decide) (by decide) (by decide)⟩

@[simp] theorem applyViewState_stateKey (e : Engine) (s : ViewState) (now : Q) :
    (applyViewState e s now).stateKey = some s := by
  unfold applyViewState
  dsimp only
  rw [evictTiles_stateKey]

@[simp] theorem applyViewState_appliedLog (e : Engine) (s : ViewState) (now : Q) :
    (applyViewState e s now).appliedLog = e.appliedLog ++ [s] := by
  unfold applyViewState
  dsimp only
  rw [evictTiles_appliedLog]
  exact foldl_preserve (f := applyDesiredStep now)
    (P := fun e2 => e2.appliedLog = e.appliedLog ++ [s])
    (fun b a hb => by simp only [applyDesiredStep_appliedLog]; exact hb) _ _ rfl

theorem updateTail_stateKey (e : Engine) (vs : ViewState) (now : Q) :
    (updateTail e vs now).stateKey = e.stateKey := by
  unfold updateTail
  dsimp only
  split <;> simp

theorem updateTail_pendingViewState (e : Engine) (vs : ViewState) (now : Q) :
    (updateTail e vs now).pendingViewState = e.pendingViewState := by
  unfold updateTail
  dsimp only
  split <;> simp

theorem updateTail_appliedViewState (e : Engine) (vs : ViewState) (now : Q) :
    (updateTail e vs now).appliedViewState = e.appliedViewState := by
  unfold updateTail
  dsimp only
  split <;> simp

theorem updateTail_lastLayoutUpdateMs (e : Engine) (vs : ViewState) (now : Q) :
    (updateTail e vs now).lastLayoutUpdateMs = e.lastLayoutUpdateMs := by
  unfold updateTail
  dsimp only
  split <;> simp

theorem updateTail_cfg (e : Engine) (vs : ViewState) (now : Q) :
    (updateTail e vs now).cfg = e.cfg := by
  unfold updateTail
  dsimp only
  split <;> simp

theorem updateApplyPhase_deferred (e : Engine) (v : ViewState) (t : Q)
    (hsa : e.stateKey = e.appliedViewState)
    (hne : some v ≠ e.stateKey) (hth : shouldApplyNow e v t = false) :
    updateApplyPhase e v t = { e with pendingViewState := some v } := by
  cases ha : e.appliedViewState with
  | none =>
    rw [ha] at hsa
    rw [shouldApplyNow] at hth
    rw [hsa, ha] at hth
    simp at hth
  | some a =>
    unfold updateApplyPhase
    dsimp only
    rw [if_pos (show (some v ≠ e.stateKey ∧ ¬ shouldApplyNow e v t = true) from
      ⟨hne, by simp [hth]⟩)]
    dsimp only
    rw [ha]
    dsimp only [Option.getD]
    rw [if_neg (show ¬ some a ≠ e.stateKey by rw [hsa, ha]; simp)]

theorem updateFn_deferred (e : Engine) (v : ViewState) (t : Q)
    (hen : e.cfg.enabled = true) (hsa : e.stateKey = e.appliedViewState)
    (hne : some v ≠ e.stateKey) (hth : shouldApplyNow e v t = false) :
    (updateFn e v t).appliedLog = e.appliedLog ∧
      (updateFn e v t).stateKey = e.stateKey ∧
      (updateFn e v t).appliedViewState = e.appliedViewState ∧
      (updateFn e v t).lastLayoutUpdateMs = e.lastLayoutUpdateMs ∧
      (updateFn e v t).cfg = e.cfg ∧
      (updateFn e v t).pendingViewState = some v := by
  unfold updateFn
  rw [if_neg (by simp [hen])]
  dsimp only
  have hsa' : ({ e with frame := e.frame + 1 } : Engine).stateKey =
      ({ e with frame := e.frame + 1 } : Engine).appliedViewState := hsa
  have hne' : some v ≠ ({ e with frame := e.frame + 1 } : Engine).stateKey := hne
  have hth' : shouldApplyNow { e with frame := e.frame + 1 } v t = false := hth
  rw [updateApplyPhase_deferred _ v t hsa' hne' hth']
  refine ⟨?_, ?_, ?_, ?_, ?_, ?_⟩
  · rw [updateTail_appliedLog]
  · rw [updateTail_stateKey]
  · rw [updateTail_appliedViewState]
  · rw [updateTail_lastLayoutUpdateMs]
  · rw [updateTail_cfg]
  · rw [updateTail_pendingViewState]

theorem deferredRun_fold : ∀ (L : List (ViewState × Q)) (e : Engine),
    e.cfg.enabled = true → e.stateKey = e.appliedViewState →
    deferredRun e L = true →
    ((L.foldl (fun e p => updateFn e p.1 p.2) e).appliedLog = e.appliedLog ∧
      (L.foldl (fun e p => updateFn e p.1 p.2) e).stateKey = e.stateKey ∧
      (L.foldl (fun e p => updateFn e p.1 p.2) e).appliedViewState = e.appliedViewState ∧
      (L.foldl (fun e p => updateFn e p.1 p.2) e).lastLayoutUpdateMs = e.lastLayoutUpdateMs ∧
      (L.foldl (fun e p => updateFn e p.1 p.2) e).cfg = e.cfg ∧
      ∀ q, L.getLast? = some q →
        (L.foldl (fun e p => updateFn e p.1 p.2) e).pendingViewState = some q.1 ∧
          some q.1 ≠ e.stateKey) := by
  intro L
  induction L with
  | nil =>
    intro e hen hsa hrun
    exact ⟨rfl, rfl, rfl, rfl, rfl, fun q hq => by simp at hq⟩
  | cons p rest ih =>
    intro e hen hsa hrun
    obtain ⟨v, t⟩ := p
    rw [deferredRun] at hrun
    simp only [Bool.and_eq_true, Bool.not_eq_true', decide_eq_true_eq] at hrun
    obtain ⟨⟨hne, hth⟩, hrest⟩ := hrun
    obtain ⟨hlog, hsk, hav, hll, hcfg, hpv⟩ := updateFn_deferred e v t hen hsa hne hth
    rw [List.foldl_cons]
    dsimp only
    have hen2 : (updateFn e v t).cfg.enabled = true := by rw [hcfg]; exact hen
    have hsa2 : (updateFn e v t).stateKey = (updateFn e v t).appliedViewState := by
      rw [hsk, hav, hsa]
    obtain ⟨ilog, isk, iav, ill, icfg, ilast⟩ := ih (updateFn e v t) hen2 hsa2 hrest
    refine ⟨ilog.trans hlog, isk.trans hsk, iav.trans hav, ill.trans hll,
      icfg.trans hcfg, ?_⟩
    intro q hq
    cases rest with
    | nil =>
      simp only [List.getLast?_singleton, Option.some.injEq] at hq
      subst hq
      exact ⟨by simpa using hpv, hne⟩
    | cons r rest2 =>
      rw [List.getLast?_cons_cons] at hq
      obtain ⟨hfpv, hfne⟩ := ilast q hq
      refine ⟨hfpv, ?_⟩
      rw [hsk] at hfne
      exact hfne

theorem updateApplyPhase_trigger (e : Engine) (vs : ViewState) (now : Q) (p : ViewState)
    (hp : e.pendingViewState = some p) (hth : shouldApplyNow e vs now = true)
    (hne : some p ≠ e.stateKey) :
    updateApplyPhase e vs now =
      { applyViewState { e with pendingViewState := none } p now with
        lastLayoutUpdateMs := now
        appliedViewState := some p } := by
  unfold updateApplyPhase
  dsimp only
  rw [if_neg (show ¬ (some vs ≠ e.stateKey ∧ ¬ shouldApplyNow e vs now = true) by
    simp [hth])]
  rw [hp]
  dsimp only
  rw [if_pos hne]

theorem updateFn_trigger (e : Engine) (vs : ViewState) (t : Q) (p : ViewState)
    (hen : e.cfg.enabled = true) (hp : e.pendingViewState = some p)
    (hth : shouldApplyNow e vs t = true) (hne : some p ≠ e.stateKey) :
    (updateFn e vs t).appliedLog = e.appliedLog ++ [p] ∧
      (updateFn e vs t).pendingViewState = none ∧
      (updateFn e vs t).stateKey = some p ∧
      (updateFn e vs t).appliedViewState = some p := by
  unfold updateFn
  rw [if_neg (by simp [hen])]
  dsimp only
  have hp' : ({ e with frame := e.frame + 1 } : Engine).pendingViewState = some p := hp
  have hth' : shouldApplyNow { e with frame := e.frame + 1 } vs t = true := hth
  have hne' : some p ≠ ({ e with frame := e.frame + 1 } : Engine).stateKey := hne
  rw [updateApplyPhase_trigger _ vs t p hp' hth' hne']
  refine ⟨?_, ?_, ?_, ?_⟩
  · rw [updateTail_appliedLog]
    simp
  · rw [updateTail_pendingViewState]
    simp
  · rw [updateTail_stateKey]
    simp
  · rw [updateTail_appliedViewState]

/-- C3: for every run of updates in which application is deferred by the
throttle (the state key changed but `shouldApplyNow` said no at each step),
the engine applies nothing during the run — applied-state log, commit key,
applied state and throttle clock are untouched — and stores the most recent
deferred view state as pending; when a subsequent update triggers
(`shouldApplyNow` holds), exactly that latest deferred state is applied,
exactly once (the log grows by that single state), never an intermediate
one, and the pending slot is cleared. -/
theorem claim_c3 (e0 : Engine) (L : List (ViewState × Q)) (v : ViewState) (q : Q)
    (vs' : ViewState) (t' : Q)
    (hen : e0.cfg.enabled = true) (hsa : e0.stateKey = e0.appliedViewState)
    (hrun : deferredRun e0 L = true) (hlast : L.getLast? = some (v, q))
    (htrig : shouldApplyNow (L.foldl (fun e p => updateFn e p.1 p.2) e0) vs' t' = true) :
    (L.foldl (fun e p => updateFn e p.1 p.2) e0).appliedLog = e0.appliedLog ∧
      (L.foldl (fun e p => updateFn e p.1 p.2) e0).pendingViewState = some v ∧
      (updateFn (L.foldl (fun e p => updateFn e p.1 p.2) e0) vs' t').appliedLog =
        e0.appliedLog ++ [v] ∧
      (updateFn (L.foldl (fun e p => updateFn e p.1 p.2) e0) vs' t').pendingViewState =
        none ∧
      (updateFn (L.foldl (fun e p => updateFn e p.1 p.2) e0) vs' t').stateKey = some v ∧
      (updateFn (L.foldl (fun e p => updateFn e p.1 p.2) e0) vs' t').appliedViewState =
        some v := by
  obtain ⟨hlog, hsk, hav, hll, hcfg, hlastf⟩ := deferredRun_fold L e0 hen hsa hrun
  obtain ⟨hpv, hne⟩ := hlastf (v, q) hlast
  have hen1 : (L.foldl (fun e p => updateFn e p.1 p.2) e0).cfg.enabled = true := by
    rw [hcfg]; exact hen
  have hne1 : some v ≠ (L.foldl (fun e p => updateFn e p.1 p.2) e0).stateKey := by
    rw [hsk]; exact hne
  obtain ⟨tlog, tpv, tsk, tav⟩ := updateFn_trigger _ vs' t' v hen1 hpv htrig hne1
  exact ⟨hlog, hpv, by rw [tlog, hlog], tpv, tsk, tav⟩

/-- C3 witness: spec Scenario D — after an initial application at time 0,
a pan of one tile at 50ms is deferred; the next update at 85ms (past the
80ms throttle) applies exactly the deferred state. -/
theorem claim_c3_witness :
    exD0.cfg.enabled = true ∧ exD0.stateKey = exD0.appliedViewState ∧
      deferredRun exD0 [(vsD1, (50 : Q))] = true ∧
      ([(vsD1, (50 : Q))] : List (ViewState × Q)).getLast? = some (vsD1, 50) ∧
      shouldApplyNow
        ([((vsD1 : ViewState), (50 : Q))].foldl (fun e p => updateFn e p.1 p.2) exD0)
        vsD1 85 = true ∧
      (([((vsD1 : ViewState), (50 : Q))].foldl
          (fun e p => updateFn e p.1 p.2) exD0).appliedLog = exD0.appliedLog ∧
        ([((vsD1 : ViewState), (50 : Q))].foldl
          (fun e p => updateFn e p.1 p.2) exD0).pendingViewState = some vsD1 ∧
        (updateFn ([((vsD1 : ViewState), (50 : Q))].foldl
          (fun e p => updateFn e p.1 p.2) exD0) vsD1 85).appliedLog =
            exD0.appliedLog ++ [vsD1] ∧
        (updateFn ([((vsD1 : ViewState), (50 : Q))].foldl
          (fun e p => updateFn e p.1 p.2) exD0) vsD1 85).pendingViewState = none ∧
        (updateFn ([((vsD1 : ViewState), (50 : Q))].foldl
          (fun e p => updateFn e p.1 p.2) exD0) vsD1 85).stateKey = some vsD1 ∧
        (updateFn ([((vsD1 : ViewState), (50 : Q))].foldl
          (fun e p => updateFn e p.1 p.2) exD0) vsD1 85).appliedViewState = some vsD1) :=
  ⟨by decide, by decide, by decide, by decide, by decide,
    claim_c3 exD0 [(vsD1, (50 : Q))] vsD1 50 vsD1 85
      (by decide) (by decide) (by decide) (by decide) (by decide)⟩

theorem enqueueTileLoad_lookup_ne (e : Engine) (k id : TileId) (h : id ≠ k) :
    mapLookup (enqueueTileLoad e k).tiles id = mapLookup e.tiles id := by
  unfold enqueueTileLoad
  cases hl : mapLookup e.tiles k with
  | none => rfl
  | some t =>
    dsimp only
    split
    · rfl
    · split <;> simp [mapLookup_mapSet_ne _ _ _ _ h]

theorem registerTile_lookup_ne (e : Engine) (key : TileId) (now : Q) (id : TileId)
    (h : id ≠ key) :
    mapLookup (registerTile e key now).tiles id = mapLookup e.tiles id := by
  unfold registerTile
  split
  · rfl
  · rw [mapLookup_mapSet_ne _ _ _ _ h]

theorem registerTile_lookup_absent (e : Engine) (key : TileId) (now : Q)
    (h : mapLookup e.tiles key = none) :
    mapLookup (registerTile e key now).tiles key =
      some (createTileShell key e.frame now) := by
  unfold registerTile
  rw [if_neg (by simp [mapContains, h])]
  exact mapLookup_mapSet_self _ _ _

theorem touchAncestor_lookup_ne (e : Engine) (key : TileId) (touched : List TileId)
    (id : TileId) (h : id ≠ key) :
    mapLookup ((touchAncestor e key touched).1).tiles id = mapLookup e.tiles id := by
  unfold touchAncestor
  split
  · rfl
  · cases hl : mapLookup e.tiles key with
    | none => rfl
    | some parent =>
      dsimp only
      split
      · rw [enqueueTileLoad_lookup_ne _ _ _ h]
        dsimp only
        rw [mapLookup_mapSet_ne _ _ _ _ h]
      · split
        · rw [enqueueTileLoad_lookup_ne _ _ _ h]
          dsimp only
          rw [mapLookup_mapSet_ne _ _ _ _ h]
        · dsimp only
          rw [mapLookup_mapSet_ne _ _ _ _ h]

theorem enqueueTileLoad_isReady (e : Engine) (k id : TileId) :
    isReadyAt (enqueueTileLoad e k).tiles id = isReadyAt e.tiles id := by
  by_cases hid : id = k
  · subst hid
    rcases enqueueTileLoad_lookup e id id with hu | ⟨_, t0, hl0, hst, hres⟩
    · rw [isReadyAt, isReadyAt, hu]
    · rw [isReadyAt, isReadyAt, hl0, hres]
      dsimp only
      have hq : ¬ t0.state = .ready := fun hc => hst (Or.inr (Or.inr hc))
      simp [hq]
  · rw [isReadyAt, isReadyAt, enqueueTileLoad_lookup_ne _ _ _ hid]

theorem registerTile_isReady (e : Engine) (key : TileId) (now : Q) (id : TileId) :
    isReadyAt (registerTile e key now).tiles id = isReadyAt e.tiles id := by
  by_cases hid : id = key
  · subst hid
    cases hl : mapLookup e.tiles id with
    | some t =>
      rw [isReadyAt, isReadyAt, registerTile_lookup_of_some e _ now _ t hl, hl]
    | none =>
      rw [isReadyAt, isReadyAt, registerTile_lookup_absent e _ now hl, hl]
      rfl
  · rw [isReadyAt, isReadyAt, registerTile_lookup_ne _ _ _ _ hid]

theorem touchAncestor_isReady (e : Engine) (key : TileId) (touched : List TileId)
    (id : TileId) :
    isReadyAt ((touchAncestor e key touched).1).tiles id = isReadyAt e.tiles id := by
  by_cases hid : id = key
  · subst hid
    cases hl : mapLookup e.tiles id with
    | none =>
      have : mapLookup ((touchAncestor e id touched).1).tiles id = none := by
        unfold touchAncestor
        split
        · exact hl
        · rw [hl]
          exact hl
      rw [isReadyAt, isReadyAt, this, hl]
    | some t =>
      obtain ⟨t2, h2, _, hs2⟩ := touchAncestor_lookup e id touched id t hl
      rw [isReadyAt, isReadyAt, h2, hl]
      dsimp only
      rcases hs2 with h | ⟨hc, hq⟩
      · rw [h]
      · rw [hq]
        rcases hc with hc | hc
        · rw [hc]
          rfl
        · rw [hc.1]
          rfl
  · rw [isReadyAt, isReadyAt, touchAncestor_lookup_ne _ _ _ _ hid]

theorem findReadyAncestorAux_isReady : ∀ (fuel : ℕ) (x y : ℤ) (z : ℕ)
    (touched : List TileId) (e : Engine) (now : Q) (id : TileId),
    isReadyAt ((findReadyAncestorAux now e x y z touched fuel).1).tiles id =
      isReadyAt e.tiles id := by
  intro fuel
  induction fuel with
  | zero => intro x y z touched e now id; rfl
  | succ fuel ih =>
    intro x y z touched e now id
    rw [findReadyAncestorAux]
    split
    · dsimp only
      split
      · split
        · rw [touchAncestor_isReady, registerTile_isReady]
        · rw [ih, touchAncestor_isReady, registerTile_isReady]
      · rw [ih, touchAncestor_isReady, registerTile_isReady]
    · rfl

theorem nearestReadyAncestorAux_congr : ∀ (fuel : ℕ) (m m' : TileMap) (minZoom : ℕ)
    (x y : ℤ) (z : ℕ),
    (∀ k : TileId, isReadyAt m' k = isReadyAt m k) →
    nearestReadyAncestorAux m' minZoom x y z fuel =
      nearestReadyAncestorAux m minZoom x y z fuel := by
  intro fuel
  induction fuel with
  | zero => intro m m' minZoom x y z h; rfl
  | succ fuel ih =>
    intro m m' minZoom x y z h
    rw [nearestReadyAncestorAux, nearestReadyAncestorAux]
    by_cases hz : minZoom < z
    · rw [if_pos hz, if_pos hz]
      dsimp only
      have hk := h (ancestorKey x y z)
      rw [isReadyAt, isReadyAt] at hk
      cases hl' : mapLookup m' (ancestorKey x y z) with
      | some p' =>
        cases hl : mapLookup m (ancestorKey x y z) with
        | some p =>
          rw [hl, hl'] at hk
          dsimp only at hk ⊢
          rw [decide_eq_decide] at hk
          by_cases hr : p'.state = .ready
          · rw [if_pos hr, if_pos (hk.mp hr)]
          · rw [if_neg hr, if_neg (fun hc => hr (hk.mpr hc))]
            exact ih m m' minZoom _ _ _ h
        | none =>
          rw [hl, hl'] at hk
          dsimp only at hk ⊢
          rw [decide_eq_false_iff_not] at hk
          rw [if_neg hk]
          exact ih m m' minZoom _ _ _ h
      | none =>
        cases hl : mapLookup m (ancestorKey x y z) with
        | some p =>
          rw [hl, hl'] at hk
          dsimp only at hk ⊢
          rw [eq_comm, decide_eq_false_iff_not] at hk
          rw [if_neg hk]
          exact ih m m' minZoom _ _ _ h
        | none => exact ih m m' minZoom _ _ _ h
    · rw [if_neg hz, if_neg hz]

theorem findReadyAncestorAux_scan : ∀ (fuel : ℕ) (x y : ℤ) (z : ℕ) (touched : List TileId)
    (e : Engine) (now : Q),
    (findReadyAncestorAux now e x y z touched fuel).2.2 =
      nearestReadyAncestorAux e.tiles e.cfg.minZoom x y z fuel := by
  intro fuel
  induction fuel with
  | zero => intro x y z touched e now; rfl
  | succ fuel ih =>
    intro x y z touched e now
    rw [findReadyAncestorAux, nearestReadyAncestorAux]
    by_cases hz : e.cfg.minZoom < z
    · rw [if_pos hz, if_pos hz]
      dsimp only
      have hready : isReadyAt ((touchAncestor (registerTile e (ancestorKey x y z) now)
          (ancestorKey x y z) touched).1).tiles (ancestorKey x y z) =
          isReadyAt e.tiles (ancestorKey x y z) := by
        rw [touchAncestor_isReady, registerTile_isReady]
      have hsome : ∃ t2, mapLookup ((touchAncestor (registerTile e (ancestorKey x y z) now)
          (ancestorKey x y z) touched).1).tiles (ancestorKey x y z) = some t2 := by
        cases hl : mapLookup e.tiles (ancestorKey x y z) with
        | some t =>
          obtain ⟨t2, h2, _⟩ := touchAncestor_lookup _ _ touched _ t
            (registerTile_lookup_of_some e _ now _ t hl)
          exact ⟨t2, h2⟩
        | none =>
          obtain ⟨t2, h2, _⟩ := touchAncestor_lookup _ _ touched _ _
            (registerTile_lookup_absent e _ now hl)
          exact ⟨t2, h2⟩
      obtain ⟨t2, h2⟩ := hsome
      rw [h2]
      dsimp only
      rw [isReadyAt, h2] at hready
      cases hl : mapLookup e.tiles (ancestorKey x y z) with
      | some p =>
        rw [isReadyAt, hl] at hready
        dsimp only at hready ⊢
        rw [decide_eq_decide] at hready
        by_cases hr : t2.state = .ready
        · rw [if_pos hr, if_pos (hready.mp hr)]
        · rw [if_neg hr, if_neg (fun hc => hr (hready.mpr hc))]
          rw [ih]
          simp only [touchAncestor_cfg, registerTile_cfg]
          apply nearestReadyAncestorAux_congr
          intro k
          rw [touchAncestor_isReady, registerTile_isReady]
      | none =>
        rw [isReadyAt, hl] at hready
        dsimp only at hready
        rw [decide_eq_false_iff_not] at hready
        rw [if_neg hready]
        rw [ih]
        simp only [touchAncestor_cfg, registerTile_cfg]
        apply nearestReadyAncestorAux_congr
        intro k
        rw [touchAncestor_isReady, registerTile_isReady]
    · rw [if_neg hz, if_neg hz]

theorem findReadyAncestorAux_found : ∀ (fuel : ℕ) (x y : ℤ) (z : ℕ)
    (touched : List TileId) (e : Engine) (now : Q) (a : TileId),
    (findReadyAncestorAux now e x y z touched fuel).2.2 = some a →
    ∃ tf, mapLookup ((findReadyAncestorAux now e x y z touched fuel).1).tiles a = some tf ∧
      tf.state = .ready := by
  intro fuel
  induction fuel with
  | zero => intro x y z touched e now a h; cases h
  | succ fuel ih =>
    intro x y z touched e now a h
    rw [findReadyAncestorAux] at h ⊢
    by_cases hz : e.cfg.minZoom < z
    · rw [if_pos hz] at h ⊢
      dsimp only at h ⊢
      split at h
      · next t2 heq =>
        split at h
        · next hr =>
          rw [if_pos hr]
          dsimp only at h
          have ha : a = ancestorKey x y z := by
            injection h with h
            exact h.symm
          subst ha
          exact ⟨t2, heq, hr⟩
        · next hr =>
          rw [if_neg hr]
          exact ih _ _ _ _ _ now a h
      · next heq =>
        exact ih _ _ _ _ _ now a h
    · rw [if_neg hz] at h
      cases h

theorem findReadyAncestor_scan (e : Engine) (tileId : TileId) (touched : List TileId)
    (now : Q) :
    (findReadyAncestor e tileId touched now).2.2 = nearestReadyAncestor e tileId := by
  unfold findReadyAncestor nearestReadyAncestor
  exact findReadyAncestorAux_scan _ _ _ _ touched e now

theorem findReadyAncestor_found (e : Engine) (tileId : TileId) (touched : List TileId)
    (now : Q) (a : TileId)
    (h : (findReadyAncestor e tileId touched now).2.2 = some a) :
    ∃ tf, mapLookup ((findReadyAncestor e tileId touched now).1).tiles a = some tf ∧
      tf.state = .ready := by
  unfold findReadyAncestor at h ⊢
  exact findReadyAncestorAux_found _ _ _ _ touched e now a h

theorem enqueueTileLoad_ready (e : Engine) (k a : TileId) (tf : MTile)
    (hl : mapLookup e.tiles a = some tf) (hr : tf.state = .ready) :
    mapLookup (enqueueTileLoad e k).tiles a = some tf := by
  by_cases hid : a = k
  · subst hid
    unfold enqueueTileLoad
    rw [hl]
    dsimp only
    rw [if_pos (Or.inr (Or.inr hr))]
    exact hl
  · rw [enqueueTileLoad_lookup_ne _ _ _ hid]
    exact hl

theorem touchAncestor_ready (e : Engine) (key : TileId) (touched : List TileId)
    (a : TileId) (tf : MTile) (hl : mapLookup e.tiles a = some tf)
    (hr : tf.state = .ready) :
    ∃ tf', mapLookup ((touchAncestor e key touched).1).tiles a = some tf' ∧
      tf'.state = .ready ∧
      (tf'.lastWantedFrame = tf.lastWantedFrame ∨ tf'.lastWantedFrame = e.frame) := by
  unfold touchAncestor
  split
  · exact ⟨tf, hl, hr, Or.inl rfl⟩
  · cases hlk : mapLookup e.tiles key with
    | none => exact ⟨tf, hl, hr, Or.inl rfl⟩
    | some parent =>
      dsimp only
      by_cases hid : a = key
      · subst hid
        have hpt : parent = tf := by
          rw [hl] at hlk
          exact ((Option.some.injEq _ _).mp hlk).symm
        subst hpt
        rw [if_neg (by rw [hr]; simp)]
        rw [if_neg (by rw [hr]; simp)]
        dsimp only
        exact ⟨_, mapLookup_mapSet_self _ _ _, hr, Or.inr rfl⟩
      · have hset : mapLookup (mapSet e.tiles key
            { parent with lastWantedFrame := e.frame, lastTouchedFrame := e.frame }) a =
            some tf := by
          rw [mapLookup_mapSet_ne _ _ _ _ hid]
          exact hl
        split
        · refine ⟨tf, ?_, hr, Or.inl rfl⟩
          rw [enqueueTileLoad_lookup_ne _ _ _ hid]
          exact hset
        · split
          · refine ⟨tf, ?_, hr, Or.inl rfl⟩
            rw [enqueueTileLoad_lookup_ne _ _ _ hid]
            exact hset
          · exact ⟨tf, hset, hr, Or.inl rfl⟩

theorem findReadyAncestorAux_ready : ∀ (fuel : ℕ) (x y : ℤ) (z : ℕ)
    (touched : List TileId) (e : Engine) (now : Q) (a : TileId) (tf : MTile),
    mapLookup e.tiles a = some tf → tf.state = .ready →
    ∃ tf', mapLookup ((findReadyAncestorAux now e x y z touched fuel).1).tiles a = some tf' ∧
      tf'.state = .ready ∧
      (tf'.lastWantedFrame = tf.lastWantedFrame ∨ tf'.lastWantedFrame = e.frame) := by
  intro fuel
  induction fuel with
  | zero => intro x y z touched e now a tf hl hr; exact ⟨tf, hl, hr, Or.inl rfl⟩
  | succ fuel ih =>
    intro x y z touched e now a tf hl hr
    rw [findReadyAncestorAux]
    split
    · dsimp only
      have h1 : mapLookup (registerTile e (ancestorKey x y z) now).tiles a = some tf :=
        registerTile_lookup_of_some e _ now a tf hl
      obtain ⟨tf2, h2, hr2, hw2⟩ :=
        touchAncestor_ready (registerTile e (ancestorKey x y z) now) (ancestorKey x y z)
          touched a tf h1 hr
      rw [registerTile_frame] at hw2
      split
      · split
        · exact ⟨tf2, h2, hr2, hw2⟩
        · obtain ⟨tf', h', hr', hw'⟩ := ih _ _ _ _ _ now a tf2 h2 hr2
          simp only [touchAncestor_frame, registerTile_frame] at hw'
          refine ⟨tf', h', hr', ?_⟩
          rcases hw' with hw' | hw'
          · rw [hw']
            exact hw2
          · exact Or.inr hw'
      · obtain ⟨tf', h', hr', hw'⟩ := ih _ _ _ _ _ now a tf2 h2 hr2
        simp only [touchAncestor_frame, registerTile_frame] at hw'
        refine ⟨tf', h', hr', ?_⟩
        rcases hw' with hw' | hw'
        · rw [hw']
          exact hw2
        · exact Or.inr hw'
    · exact ⟨tf, hl, hr, Or.inl rfl⟩

theorem findReadyAncestor_ready (e : Engine) (tileId : TileId) (touched : List TileId)
    (now : Q) (a : TileId) (tf : MTile)
    (hl : mapLookup e.tiles a = some tf) (hr : tf.state = .ready) :
    ∃ tf', mapLookup ((findReadyAncestor e tileId touched now).1).tiles a = some tf' ∧
      tf'.state = .ready ∧
      (tf'.lastWantedFrame = tf.lastWantedFrame ∨ tf'.lastWantedFrame = e.frame) := by
  unfold findReadyAncestor
  exact findReadyAncestorAux_ready _ _ _ _ touched e now a tf hl hr

theorem isReadyAt_mapSet_same_state (m : TileMap) (key : TileId) (t t' : MTile)
    (hl : mapLookup m key = some t) (hs : t'.state = t.state) (k : TileId) :
    isReadyAt (mapSet m key t') k = isReadyAt m k := by
  by_cases hk : k = key
  · subst hk
    rw [isReadyAt, isReadyAt, mapLookup_mapSet_self, hl]
    dsimp only
    rw [hs]
  · rw [isReadyAt, isReadyAt, mapLookup_mapSet_ne _ _ _ _ hk]

theorem visibilityStep_isReady (now : Q) (acc : Engine × List TileId × List TileId)
    (d : DesiredTile) (k : TileId) :
    isReadyAt ((visibilityStep now acc d).1).tiles k = isReadyAt acc.1.tiles k := by
  obtain ⟨e, vis, touched⟩ := acc
  unfold visibilityStep
  dsimp only
  split
  · rfl
  · next current hcur =>
    split
    · exact isReadyAt_mapSet_same_state e.tiles d.tileId current
        { current with lastWantedFrame := e.frame } hcur rfl k
    · split
      · next e3 touched3 a heq =>
        have hwalk : isReadyAt ((findReadyAncestor e d.tileId touched now).1).tiles k =
            isReadyAt e.tiles k := by
          unfold findReadyAncestor
          exact findReadyAncestorAux_isReady _ _ _ _ touched e now k
        rw [heq] at hwalk
        dsimp only at hwalk
        split
        · next fallback hfb =>
          dsimp only
          rw [isReadyAt_mapSet_same_state e3.tiles a fallback
            { fallback with lastWantedFrame := e3.frame } hfb rfl k]
          exact hwalk
        · exact hwalk
      · next e3 touched3 heq =>
        have hwalk : isReadyAt ((findReadyAncestor e d.tileId touched now).1).tiles k =
            isReadyAt e.tiles k := by
          unfold findReadyAncestor
          exact findReadyAncestorAux_isReady _ _ _ _ touched e now k
        rw [heq] at hwalk
        exact hwalk

theorem visibilityStep_vis_mono (now : Q) (acc : Engine × List TileId × List TileId)
    (d : DesiredTile) (a : TileId) (h : a ∈ acc.2.1) :
    a ∈ (visibilityStep now acc d).2.1 := by
  obtain ⟨e, vis, touched⟩ := acc
  unfold visibilityStep
  dsimp only at h ⊢
  split
  · exact h
  · split
    · simp only [List.mem_append]
      exact Or.inl h
    · split
      · split
        · simp only [List.mem_append]
          exact Or.inl h
        · exact h
      · exact h

theorem visibilityFold_isReady : ∀ (ds : List DesiredTile) (now : Q)
    (acc : Engine × List TileId × List TileId) (k : TileId),
    isReadyAt ((ds.foldl (visibilityStep now) acc).1).tiles k = isReadyAt acc.1.tiles k := by
  intro ds
  induction ds with
  | nil => intro now acc k; rfl
  | cons d ds ih =>
    intro now acc k
    rw [List.foldl_cons]
    rw [ih, visibilityStep_isReady]

theorem visibilityFold_frame : ∀ (ds : List DesiredTile) (now : Q)
    (acc : Engine × List TileId × List TileId),
    ((ds.foldl (visibilityStep now) acc).1).frame = acc.1.frame := by
  intro ds
  induction ds with
  | nil => intro now acc; rfl
  | cons d ds ih =>
    intro now acc
    rw [List.foldl_cons, ih, visibilityStep_frame]

theorem visibilityFold_cfg : ∀ (ds : List DesiredTile) (now : Q)
    (acc : Engine × List TileId × List TileId),
    ((ds.foldl (visibilityStep now) acc).1).cfg = acc.1.cfg := by
  intro ds
  induction ds with
  | nil => intro now acc; rfl
  | cons d ds ih =>
    intro now acc
    rw [List.foldl_cons, ih, visibilityStep_cfg]

theorem visibilityStep_marks (now : Q) (acc : Engine × List TileId × List TileId)
    (d : DesiredTile) (t1 : MTile) (a : TileId)
    (hl : mapLookup acc.1.tiles d.tileId = some t1) (hnr : ¬ t1.state = .ready)
    (hscan : nearestReadyAncestor acc.1 d.tileId = some a) :
    a ∈ (visibilityStep now acc d).2.1 ∧
      ∃ tf, mapLookup ((visibilityStep now acc d).1).tiles a = some tf ∧
        tf.state = .ready ∧ tf.lastWantedFrame = acc.1.frame := by
  obtain ⟨e, vis, touched⟩ := acc
  dsimp only at hl hscan ⊢
  have hwalk : (findReadyAncestor e d.tileId touched now).2.2 = some a := by
    rw [findReadyAncestor_scan]
    exact hscan
  unfold visibilityStep
  dsimp only
  rw [hl]
  dsimp only
  rw [if_neg hnr]
  split
  · next e3 touched3 a' heq =>
    have ha' : a' = a := by
      rw [heq] at hwalk
      exact (Option.some.injEq _ _).mp hwalk
    subst ha'
    obtain ⟨tf, hft, hfr⟩ := findReadyAncestor_found e d.tileId touched now a' hwalk
    rw [heq] at hft
    dsimp only at hft
    have hfr3 : e3.frame = e.frame := by
      have := congrArg (fun p => p.1.frame) heq
      dsimp only at this
      rw [← this, findReadyAncestor_frame]
    rw [hft]
    dsimp only
    refine ⟨by simp, ?_⟩
    refine ⟨_, mapLookup_mapSet_self _ _ _, hfr, ?_⟩
    exact hfr3
  · next e3 touched3 heq =>
    rw [heq] at hwalk
    cases hwalk

theorem visibilityStep_marked_preserve (now : Q) (acc : Engine × List TileId × List TileId)
    (d : DesiredTile) (a : TileId) (tf : MTile)
    (hmem : a ∈ acc.2.1) (hl : mapLookup acc.1.tiles a = some tf)
    (hr : tf.state = .ready) (hw : tf.lastWantedFrame = acc.1.frame) :
    a ∈ (visibilityStep now acc d).2.1 ∧
      ∃ tf', mapLookup ((visibilityStep now acc d).1).tiles a = some tf' ∧
        tf'.state = .ready ∧ tf'.lastWantedFrame = acc.1.frame := by
  refine ⟨visibilityStep_vis_mono now acc d a hmem, ?_⟩
  obtain ⟨e, vis, touched⟩ := acc
  dsimp only at hl hw ⊢
  unfold visibilityStep
  dsimp only
  split
  · exact ⟨tf, hl, hr, hw⟩
  · next current hcur =>
    split
    · by_cases hid : a = d.tileId
      · subst hid
        have hct : current = tf := by
          rw [hl] at hcur
          exact ((Option.some.injEq _ _).mp hcur).symm
        subst hct
        exact ⟨_, mapLookup_mapSet_self _ _ _, hr, rfl⟩
      · refine ⟨tf, ?_, hr, hw⟩
        rw [mapLookup_mapSet_ne _ _ _ _ hid]
        exact hl
    · obtain ⟨tf2, h2, hr2, hw2⟩ := findReadyAncestor_ready e d.tileId touched now a tf hl hr
      have hw2' : tf2.lastWantedFrame = e.frame := by
        rcases hw2 with h | h
        · rw [h, hw]
        · exact h
      split
      · next e3 touched3 a' heq =>
        rw [heq] at h2
        dsimp only at h2
        have hfr3 : e3.frame = e.frame := by
          have := congrArg (fun p => p.1.frame) heq
          dsimp only at this
          rw [← this, findReadyAncestor_frame]
        split
        · next fallback hfb =>
          by_cases hid : a = a'
          · subst hid
            have hft : fallback = tf2 := by
              rw [h2] at hfb
              exact ((Option.some.injEq _ _).mp hfb).symm
            subst hft
            refine ⟨_, mapLookup_mapSet_self _ _ _, hr2, ?_⟩
            exact hfr3
          · refine ⟨tf2, ?_, hr2, hw2'⟩
            rw [mapLookup_mapSet_ne _ _ _ _ hid]
            exact h2
        · exact ⟨tf2, h2, hr2, hw2'⟩
      · next e3 touched3 heq =>
        rw [heq] at h2
        exact ⟨tf2, h2, hr2, hw2'⟩

theorem visibilityFold_marked : ∀ (ds : List DesiredTile) (now : Q)
    (acc : Engine × List TileId × List TileId) (a : TileId),
    a ∈ acc.2.1 →
    (∃ tf, mapLookup acc.1.tiles a = some tf ∧ tf.state = .ready ∧
      tf.lastWantedFrame = acc.1.frame) →
    (a ∈ (ds.foldl (visibilityStep now) acc).2.1 ∧
      ∃ tf, mapLookup ((ds.foldl (visibilityStep now) acc).1).tiles a = some tf ∧
        tf.state = .ready ∧
        tf.lastWantedFrame = acc.1.frame) := by
  intro ds
  induction ds with
  | nil => intro now acc a hmem h; exact ⟨hmem, h⟩
  | cons d ds ih =>
    intro now acc a hmem h
    obtain ⟨tf, hl, hr, hw⟩ := h
    rw [List.foldl_cons]
    obtain ⟨hmem2, tf2, h2, hr2, hw2⟩ :=
      visibilityStep_marked_preserve now acc d a tf hmem hl hr hw
    have hfr : (visibilityStep now acc d).1.frame = acc.1.frame := by
      rw [visibilityStep_frame]
    obtain ⟨hmem3, tf3, h3, hr3, hw3⟩ := ih now (visibilityStep now acc d) a hmem2
      ⟨tf2, h2, hr2, by rw [hw2, hfr]⟩
    exact ⟨hmem3, tf3, h3, hr3, by rw [hw3, hfr]⟩

theorem mapLookup_map_at (g : TileId × MTile → MTile) (m : TileMap) (a : TileId)
    (tf : MTile) (h : mapLookup m a = some tf) :
    mapLookup (m.map (fun p => (p.1, g p))) a = some (g (a, tf)) := by
  rw [mapLookup_mapValues, h]
  rfl

/-- C7: in a frame's visibility pass, every desired tile that is not
`ready` but has a `ready` ancestor within `maxParentSearchDepth` steps and
above `minZoom` — the nearest such ancestor, as computed by the pure scan
`nearestReadyAncestor` — gets that ancestor marked visible in the same
frame: after the pass the ancestor is still `ready`, its target opacity is
the configured full opacity and its last-wanted frame is the current
frame. -/
theorem claim_c7 (e : Engine) (now : Q) (d : DesiredTile) (t : MTile) (a : TileId)
    (hmem : d ∈ e.activeDesiredTiles) (hl : mapLookup e.tiles d.tileId = some t)
    (hnr : t.state ≠ .ready) (ha : nearestReadyAncestor e d.tileId = some a) :
    ∃ t', mapLookup (updateProgressiveVisibility e now).tiles a = some t' ∧
      t'.state = .ready ∧ t'.targetOpacity = e.cfg.opacity ∧
      t'.lastWantedFrame = e.frame := by
  obtain ⟨pre, post, hsplit⟩ := List.append_of_mem hmem
  have hfold : a ∈ (e.activeDesiredTiles.foldl (visibilityStep now) (e, [], [])).2.1 ∧
      ∃ tf, mapLookup
          ((e.activeDesiredTiles.foldl (visibilityStep now) (e, [], [])).1).tiles a =
          some tf ∧ tf.state = .ready ∧ tf.lastWantedFrame = e.frame := by
    rw [hsplit, List.foldl_append, List.foldl_cons]
    obtain ⟨t1, h1, _⟩ := visibilityFold_lookup pre now (e, [], []) d.tileId t hl
    have h1nr : ¬ t1.state = .ready := by
      have hir := visibilityFold_isReady pre now (e, [], []) d.tileId
      rw [isReadyAt, isReadyAt, h1] at hir
      dsimp only at hir
      rw [hl] at hir
      dsimp only at hir
      rw [decide_eq_decide] at hir
      exact fun hc => hnr (hir.mp hc)
    have hscanA : nearestReadyAncestor
        (List.foldl (visibilityStep now) (e, [], []) pre).1 d.tileId = some a := by
      unfold nearestReadyAncestor at ha ⊢
      rw [visibilityFold_cfg]
      dsimp only
      rw [nearestReadyAncestorAux_congr _ _ _ _ _ _ _
        (visibilityFold_isReady pre now (e, [], []))]
      exact ha
    obtain ⟨hBmem, tf, hB, hBr, hBw⟩ := visibilityStep_marks now _ d t1 a h1 h1nr hscanA
    obtain ⟨hCmem, tf3, h3, hr3, hw3⟩ := visibilityFold_marked post now _ a hBmem
      ⟨tf, hB, hBr, by rw [hBw, visibilityStep_frame]⟩
    refine ⟨hCmem, tf3, h3, hr3, ?_⟩
    rw [hw3, visibilityStep_frame, visibilityFold_frame]
  obtain ⟨hvis, tf, hlf, hrf, hwf⟩ := hfold
  have hfrC : (e.activeDesiredTiles.foldl (visibilityStep now) (e, [], [])).1.frame =
      e.frame := by
    rw [visibilityFold_frame]
  have hcfgC : (e.activeDesiredTiles.foldl (visibilityStep now) (e, [], [])).1.cfg =
      e.cfg := by
    rw [visibilityFold_cfg]
  unfold updateProgressiveVisibility
  dsimp only
  refine ⟨_, mapLookup_map_at _ _ a tf hlf, ?_, ?_, ?_⟩
  · rw [(animateTileOpacity_fields _ _ _).2.1]
    exact hrf
  · rw [(animateTileOpacity_fields _ _ _).2.2.2.2.1]
    dsimp only
    rw [if_pos ⟨List.elem_eq_true_of_mem hvis, hrf, by
      rw [hfrC, hwf]
      simp⟩]
    rw [hcfgC]
  · rw [(animateTileOpacity_fields _ _ _).2.2.2.1]
    exact hwf

/-- C7 witness: a queued desired tile at zoom 2 whose parent at zoom 1 is
`ready` — the pass marks the parent visible in the frame. -/
theorem claim_c7_witness :
    ({ tileId := tK, priority := 0 } : DesiredTile) ∈ exK.activeDesiredTiles ∧
      mapLookup exK.tiles tK = some { createTileShell tK 5 0 with state := .queued } ∧
      ({ createTileShell tK 5 0 with state := .queued } : MTile).state ≠ .ready ∧
      nearestReadyAncestor exK tK = some pK ∧
      ∃ t', mapLookup (updateProgressiveVisibility exK 10).tiles pK = some t' ∧
        t'.state = .ready ∧ t'.targetOpacity = exK.cfg.opacity ∧
        t'.lastWantedFrame = exK.frame :=
  ⟨by decide, by decide, by decide, by decide,
    claim_c7 exK 10 { tileId := tK, priority := 0 }
      { createTileShell tK 5 0 with state := .queued } pK
      (by decide) (by decide) (by decide) (by decide)⟩

theorem handleFailure_requeue (e : Engine) (k : TileId) (t : MTile) (attempt : ℕ)
    (hl : mapLookup e.tiles k = some t) (hcur : t.attempts = attempt)
    (hle : t.attempts ≤ e.cfg.retryLimit) (hqk : k ∈ e.queuedKeys → k ∈ e.loadQueue) :
    ∃ t', mapLookup (handleFailure e k attempt).tiles k = some t' ∧
      t'.state = .queued ∧ k ∈ (handleFailure e k attempt).loadQueue := by
  unfold handleFailure
  dsimp only
  split
  · next heq =>
    rw [hl] at heq
    cases heq
  · next current heq =>
    rw [hl] at heq
    have hct : t = current := (Option.some.injEq _ _).mp heq
    subst hct
    rw [if_neg (show ¬ t.attempts ≠ attempt from fun hc => hc hcur)]
    rw [if_pos hle]
    unfold enqueueTileLoad
    dsimp only
    have hset : mapLookup (mapSet (mapSet e.tiles k { t with state := .error }) k
        { t with state := .idle }) k = some { t with state := .idle } :=
      mapLookup_mapSet_self _ _ _
    split
    · next heq2 =>
      rw [hset] at heq2
      cases heq2
    · next t0 heq2 =>
      rw [hset] at heq2
      have ht0 : { t with state := TState.idle } = t0 :=
        (Option.some.injEq _ _).mp heq2
      subst ht0
      rw [if_neg (by simp)]
      dsimp only
      split
      · next hc =>
        refine ⟨_, mapLookup_mapSet_self _ _ _, rfl, ?_⟩
        exact hqk (by simpa using hc)
      · refine ⟨_, mapLookup_mapSet_self _ _ _, rfl, ?_⟩
        simp

theorem applyDesiredStep_terminal (now : Q) (e : Engine) (d : DesiredTile) (k : TileId)
    (t : MTile) (A : ℕ)
    (hl : mapLookup e.tiles k = some t) (hA : t.attempts = A)
    (hs : t.state = .error ∨ t.state = .ready) (hRL : e.cfg.retryLimit < A) :
    ∃ t', mapLookup (applyDesiredStep now e d).tiles k = some t' ∧ t'.attempts = A ∧
      (t'.state = .error ∨ t'.state = .ready) := by
  unfold applyDesiredStep
  dsimp only
  by_cases hid : d.tileId = k
  · rw [hid]
    rw [if_pos (show (mapContains e.tiles k : Prop) by simp [mapContains, hl])]
    split
    · next heq =>
      rw [hl] at heq
      cases heq
    · next tile heq =>
      rw [hl] at heq
      have hct : t = tile := (Option.some.injEq _ _).mp heq
      subst hct
      rw [if_neg (show ¬ t.state = .idle by rcases hs with h | h <;> simp [h])]
      rw [if_neg (show ¬ (t.state = .error ∧ t.attempts ≤ e.cfg.retryLimit) from
        fun hc => absurd (hA ▸ hc.2) (by omega))]
      refine ⟨_, mapLookup_mapSet_self _ _ _, hA, ?_⟩
      rcases hs with h | h
      · exact Or.inl h
      · exact Or.inr h
  · have hne : k ≠ d.tileId := fun hc => hid hc.symm
    refine ⟨t, ?_, hA, hs⟩
    repeat' split
    all_goals try rw [enqueueTileLoad_lookup_ne _ _ _ hne]
    all_goals try dsimp only
    all_goals repeat rw [mapLookup_mapSet_ne _ _ _ _ hne]
    all_goals exact hl

theorem desiredFold_terminal : ∀ (ds : List DesiredTile) (now : Q) (e : Engine)
    (k : TileId) (t : MTile) (A : ℕ),
    mapLookup e.tiles k = some t → t.attempts = A →
    (t.state = .error ∨ t.state = .ready) → e.cfg.retryLimit < A →
    ∃ t', mapLookup (ds.foldl (applyDesiredStep now) e).tiles k = some t' ∧
      t'.attempts = A ∧ (t'.state = .error ∨ t'.state = .ready) := by
  intro ds
  induction ds with
  | nil => intro now e k t A hl hA hs hRL; exact ⟨t, hl, hA, hs⟩
  | cons d ds ih =>
    intro now e k t A hl hA hs hRL
    rw [List.foldl_cons]
    obtain ⟨t1, h1, hA1, hs1⟩ := applyDesiredStep_terminal now e d k t A hl hA hs hRL
    exact ih now _ k t1 A h1 hA1 hs1 (by rw [applyDesiredStep_cfg]; exact hRL)

theorem mapLookup_map_keyfix (F : TileId × MTile → TileId × MTile)
    (hF : ∀ p, (F p).1 = p.1) : ∀ (m : TileMap) (id : TileId),
    mapLookup (m.map F) id = (mapLookup m id).map (fun t => (F (id, t)).2) := by
  intro m
  induction m with
  | nil => intro id; rfl
  | cons p rest ih =>
    intro id
    obtain ⟨k0, t0⟩ := p
    rw [List.map_cons]
    by_cases h : k0 = id
    · subst h
      have hr : F (k0, t0) = (k0, (F (k0, t0)).2) := Prod.ext (hF (k0, t0)) rfl
      rw [hr]
      rw [mapLookup_cons_self, mapLookup_cons_self]
      rfl
    · have hr : F (k0, t0) = ((F (k0, t0)).1, (F (k0, t0)).2) := rfl
      rw [hr]
      rw [hF (k0, t0)]
      rw [mapLookup_cons_ne _ _ _ _ h, mapLookup_cons_ne _ _ _ _ h, ih]

theorem disposeTile_lookup_ne (e : Engine) (c k : TileId) (h : k ≠ c) (t : MTile)
    (hl : mapLookup e.tiles k = some t) :
    mapLookup (disposeTile e c).tiles k = some t := by
  unfold disposeTile
  dsimp only
  rw [mapLookup_mapErase_ne _ _ _ h]
  exact hl

theorem evictCapacityLoop_disposeLog_mono : ∀ (cands : List (TileId × MTile)) (e : Engine),
    ∃ l, (evictCapacityLoop cands e).disposeLog = e.disposeLog ++ l := by
  intro cands
  induction cands with
  | nil => intro e; exact ⟨[], by simp [evictCapacityLoop]⟩
  | cons c rest ih =>
    intro e
    rw [evictCapacityLoop]
    split
    · exact ⟨[], by simp⟩
    · obtain ⟨l, hl⟩ := ih (disposeTile e c.1)
      refine ⟨[c.1] ++ l, ?_⟩
      rw [hl]
      unfold disposeTile
      dsimp only
      rw [List.append_assoc]

theorem evictCapacityLoop_terminal : ∀ (cands : List (TileId × MTile)) (e : Engine)
    (k : TileId) (t : MTile),
    mapLookup e.tiles k = some t →
    ((∃ l, (evictCapacityLoop cands e).disposeLog = e.disposeLog ++ l ∧ k ∈ l) ∨
      mapLookup (evictCapacityLoop cands e).tiles k = some t) := by
  intro cands
  induction cands with
  | nil => intro e k t hl; exact Or.inr hl
  | cons c rest ih =>
    intro e k t hl
    rw [evictCapacityLoop]
    split
    · exact Or.inr hl
    · by_cases hk : k = c.1
      · obtain ⟨l, hlog⟩ := evictCapacityLoop_disposeLog_mono rest (disposeTile e c.1)
        left
        refine ⟨[c.1] ++ l, ?_, by simp [hk]⟩
        rw [hlog]
        unfold disposeTile
        dsimp only
        rw [List.append_assoc]
      · rcases ih (disposeTile e c.1) k t (disposeTile_lookup_ne e c.1 k hk t hl) with
          ⟨l, hlog, hkin⟩ | h
        · left
          refine ⟨[c.1] ++ l, ?_, by simp [hkin]⟩
          rw [hlog]
          unfold disposeTile
          dsimp only
          rw [List.append_assoc]
        · exact Or.inr h

theorem fade_terminal (C : TileId × MTile → Prop) [DecidablePred C] (m : TileMap)
    (k : TileId) (t : MTile) (hl : mapLookup m k = some t) :
    ∃ t2, mapLookup
        (m.map (fun p => if C p then (p.1, { p.2 with targetOpacity := 0 }) else p)) k =
        some t2 ∧ t2.attempts = t.attempts ∧ t2.state = t.state := by
  rw [mapLookup_map_keyfix _ (fun p => by dsimp only; split <;> rfl), hl]
  refine ⟨_, rfl, ?_, ?_⟩
  · dsimp only
    split <;> rfl
  · dsimp only
    split <;> rfl

theorem staleFold_disposeLog_mono : ∀ (ks : List TileId) (e : Engine),
    ∃ l, (ks.foldl (fun e k => if mapContains e.tiles k then disposeTile e k else e)
      e).disposeLog = e.disposeLog ++ l := by
  intro ks
  induction ks with
  | nil => intro e; exact ⟨[], by simp⟩
  | cons c rest ih =>
    intro e
    rw [List.foldl_cons]
    obtain ⟨l, hl⟩ := ih (if mapContains e.tiles c then disposeTile e c else e)
    rw [hl]
    split
    · refine ⟨[c] ++ l, ?_⟩
      unfold disposeTile
      dsimp only
      rw [List.append_assoc]
    · exact ⟨l, rfl⟩

theorem staleFold_terminal : ∀ (ks : List TileId) (e : Engine) (k : TileId) (t : MTile),
    mapLookup e.tiles k = some t →
    ((∃ l, (ks.foldl (fun e k => if mapContains e.tiles k then disposeTile e k else e)
        e).disposeLog = e.disposeLog ++ l ∧ k ∈ l) ∨
      mapLookup ((ks.foldl (fun e k =>
        if mapContains e.tiles k then disposeTile e k else e) e)).tiles k = some t) := by
  intro ks
  induction ks with
  | nil => intro e k t hl; exact Or.inr hl
  | cons c rest ih =>
    intro e k t hl
    rw [List.foldl_cons]
    by_cases hk : k = c
    · subst hk
      obtain ⟨l, hlog⟩ :=
        staleFold_disposeLog_mono rest (if mapContains e.tiles k then disposeTile e k else e)
      rw [hlog]
      rw [if_pos (show (mapContains e.tiles k : Prop) by simp [mapContains, hl])]
      left
      refine ⟨[k] ++ l, ?_, by simp⟩
      unfold disposeTile
      dsimp only
      rw [List.append_assoc]
    · have hl2 : mapLookup (if mapContains e.tiles c then disposeTile e c
          else e).tiles k = some t := by
        split
        · exact disposeTile_lookup_ne e c k hk t hl
        · exact hl
      rcases ih (if mapContains e.tiles c then disposeTile e c else e) k t hl2 with
        ⟨l, hlog, hkin⟩ | h
      · rw [hlog]
        split
        · left
          refine ⟨[c] ++ l, ?_, by simp [hkin]⟩
          unfold disposeTile
          dsimp only
          rw [List.append_assoc]
        · exact Or.inl ⟨l, rfl, hkin⟩
      · exact Or.inr h

theorem evictTiles_terminal (e : Engine) (w : List TileId) (k : TileId) (t : MTile)
    (hl : mapLookup e.tiles k = some t) :
    ((∃ l, (evictTiles e w).disposeLog = e.disposeLog ++ l ∧ k ∈ l) ∨
      mapLookup (evictTiles e w).tiles k = some t) := by
  unfold evictTiles
  dsimp only
  rcases staleFold_terminal _ e k t hl with ⟨l, hlog, hkin⟩ | h
  · split
    · exact Or.inl ⟨l, hlog, hkin⟩
    · obtain ⟨l2, hlog2⟩ := evictCapacityLoop_disposeLog_mono _ _
      refine Or.inl ⟨l ++ l2, ?_, by simp [hkin]⟩
      rw [hlog2, hlog, List.append_assoc]
  · split
    · exact Or.inr h
    · obtain ⟨l1, hlog1⟩ := staleFold_disposeLog_mono _ e
      rcases evictCapacityLoop_terminal _ _ k t h with ⟨l2, hlog2, hkin2⟩ | h2
      · refine Or.inl ⟨l1 ++ l2, ?_, by simp [hkin2]⟩
        rw [hlog2, hlog1, List.append_assoc]
      · exact Or.inr h2

theorem applyViewState_terminal (e : Engine) (s : ViewState) (now : Q) (k : TileId)
    (t : MTile) (A : ℕ)
    (hl : mapLookup e.tiles k = some t) (hA : t.attempts = A)
    (hs : t.state = .error ∨ t.state = .ready) (hRL : e.cfg.retryLimit < A) :
    (∃ l, (applyViewState e s now).disposeLog = e.disposeLog ++ l ∧ k ∈ l) ∨
      (∃ t', mapLookup (applyViewState e s now).tiles k = some t' ∧ t'.attempts = A ∧
        (t'.state = .error ∨ t'.state = .ready)) := by
  unfold applyViewState
  dsimp only
  set desired := collectDesiredTiles e.cfg s with hdes
  set e1 : Engine := { e with requestedCount := desired.length, activeDesiredTiles := desired, appliedLog := e.appliedLog ++ [s] } with he1
  set e2 : Engine := desired.foldl (applyDesiredStep now) e1 with he2
  obtain ⟨t1, ht1, hA1, hs1⟩ := desiredFold_terminal desired now e1 k t A
    (show mapLookup e1.tiles k = some t from hl) hA hs
    (show e1.cfg.retryLimit < A from hRL)
  rw [← he2] at ht1
  have hdlog : e2.disposeLog = e.disposeLog := by
    rw [he2]
    exact foldl_preserve (f := applyDesiredStep now)
      (P := fun x => x.disposeLog = e.disposeLog)
      (fun b a hb => by simp only [applyDesiredStep_disposeLog]; exact hb) _ _ rfl
  obtain ⟨t2, ht2, hA2, hs2⟩ := fade_terminal
    (fun p : TileId × MTile => ¬ (desired.map fun d => d.tileId).contains p.1 ∧
      (e2.cfg.retainFrames : ℤ) < e2.frame - p.2.lastWantedFrame)
    e2.tiles k t1 ht1
  rcases evictTiles_terminal
      { e2 with tiles := e2.tiles.map (fun p : TileId × MTile => if ¬ (desired.map fun d => d.tileId).contains p.1 ∧ (e2.cfg.retainFrames : ℤ) < e2.frame - p.2.lastWantedFrame then (p.1, { p.2 with targetOpacity := 0 }) else p), stateKey := some s }
      (desired.map fun d => d.tileId) k t2
      (show _ = some t2 from ht2) with ⟨l, hlog, hkin⟩ | h
  · refine Or.inl ⟨l, ?_, hkin⟩
    rw [hlog]
    rw [show ({ e2 with tiles := e2.tiles.map (fun p : TileId × MTile => if ¬ (desired.map fun d => d.tileId).contains p.1 ∧ (e2.cfg.retainFrames : ℤ) < e2.frame - p.2.lastWantedFrame then (p.1, { p.2 with targetOpacity := 0 }) else p), stateKey := some s } : Engine).disposeLog = e.disposeLog from hdlog]
  · exact Or.inr ⟨t2, h, hA2.trans hA1, by rw [hs2]; exact hs1⟩

theorem processLoadQueue_terminal (e : Engine) (k : TileId) (t : MTile) (A : ℕ)
    (hl : mapLookup e.tiles k = some t) (hA : t.attempts = A)
    (hs : t.state = .error ∨ t.state = .ready) :
    mapLookup (processLoadQueue e).tiles k = some t := by
  obtain ⟨t', h', hd⟩ := processLoadQueue_lookup e k t hl
  rcases hd with h | h
  · rw [h] at h'
    exact h'
  · rcases hs with hss | hss <;> (rw [h.1] at hss; cases hss)

theorem visibilityStep_terminal (now : Q) (acc : Engine × List TileId × List TileId)
    (d : DesiredTile) (k : TileId) (t : MTile) (A : ℕ)
    (hl : mapLookup acc.1.tiles k = some t) (hA : t.attempts = A)
    (hs : t.state = .error ∨ t.state = .ready) (hRL : acc.1.cfg.retryLimit < A) :
    ∃ t', mapLookup ((visibilityStep now acc d).1).tiles k = some t' ∧ t'.attempts = A ∧
      (t'.state = .error ∨ t'.state = .ready) := by
  obtain ⟨e, vis, touched⟩ := acc
  dsimp only at hl hRL ⊢
  unfold visibilityStep
  dsimp only
  split
  · exact ⟨t, hl, hA, hs⟩
  · next current hcur =>
    split
    · by_cases hid : k = d.tileId
      · subst hid
        have hct : current = t := by
          rw [hl] at hcur
          exact ((Option.some.injEq _ _).mp hcur).symm
        subst hct
        exact ⟨_, mapLookup_mapSet_self _ _ _, hA, hs⟩
      · refine ⟨t, ?_, hA, hs⟩
        rw [mapLookup_mapSet_ne _ _ _ _ hid]
        exact hl
    · obtain ⟨t2, h2, ha2, hs2⟩ := findReadyAncestor_lookup e d.tileId touched now k t hl
      have hst2 : t2.state = t.state := by
        rcases hs2 with h | ⟨hc, _⟩
        · exact h
        · exfalso
          rcases hc with hc | hc
          · rcases hs with hss | hss <;> (rw [hss] at hc; cases hc)
          · rcases hs with hss | hss
            · rw [hss] at hc
              have h2le := hc.2
              rw [hA] at h2le
              omega
            · rw [hss] at hc
              cases hc.1
      split
      · next e3 touched3 a heq =>
        rw [heq] at h2
        dsimp only at h2
        split
        · next fallback hfb =>
          by_cases hid : k = a
          · subst hid
            have hft : fallback = t2 := by
              rw [h2] at hfb
              exact ((Option.some.injEq _ _).mp hfb).symm
            subst hft
            refine ⟨_, mapLookup_mapSet_self _ _ _, ha2.trans hA, ?_⟩
            show fallback.state = .error ∨ fallback.state = .ready
            rw [hst2]
            exact hs
          · refine ⟨t2, ?_, ha2.trans hA, by rw [hst2]; exact hs⟩
            rw [mapLookup_mapSet_ne _ _ _ _ hid]
            exact h2
        · exact ⟨t2, h2, ha2.trans hA, by rw [hst2]; exact hs⟩
      · next e3 touched3 heq =>
        rw [heq] at h2
        exact ⟨t2, h2, ha2.trans hA, by rw [hst2]; exact hs⟩

theorem visibilityFold_terminal : ∀ (ds : List DesiredTile) (now : Q)
    (acc : Engine × List TileId × List TileId) (k : TileId) (t : MTile) (A : ℕ),
    mapLookup acc.1.tiles k = some t → t.attempts = A →
    (t.state = .error ∨ t.state = .ready) → acc.1.cfg.retryLimit < A →
    ∃ t', mapLookup ((ds.foldl (visibilityStep now) acc).1).tiles k = some t' ∧
      t'.attempts = A ∧ (t'.state = .error ∨ t'.state = .ready) := by
  intro ds
  induction ds with
  | nil => intro now acc k t A hl hA hs hRL; exact ⟨t, hl, hA, hs⟩
  | cons d ds ih =>
    intro now acc k t A hl hA hs hRL
    rw [List.foldl_cons]
    obtain ⟨t1, h1, hA1, hs1⟩ := visibilityStep_terminal now acc d k t A hl hA hs hRL
    exact ih now _ k t1 A h1 hA1 hs1 (by rw [visibilityStep_cfg]; exact hRL)

theorem updateProgressiveVisibility_terminal (e0 : Engine) (now : Q) (k : TileId)
    (t : MTile) (A : ℕ)
    (hl : mapLookup e0.tiles k = some t) (hA : t.attempts = A)
    (hs : t.state = .error ∨ t.state = .ready) (hRL : e0.cfg.retryLimit < A) :
    ∃ t', mapLookup (updateProgressiveVisibility e0 now).tiles k = some t' ∧
      t'.attempts = A ∧ (t'.state = .error ∨ t'.state = .ready) := by
  unfold updateProgressiveVisibility
  dsimp only
  obtain ⟨t2, h2, hA2, hs2⟩ := visibilityFold_terminal e0.activeDesiredTiles now
    (e0, [], []) k t A hl hA hs hRL
  refine ⟨_, mapLookup_map_at _ _ k t2 h2, ?_, ?_⟩
  · rw [(animateTileOpacity_fields _ _ _).1]
    exact hA2
  · rcases hs2 with h | h
    · left
      rw [(animateTileOpacity_fields _ _ _).2.1]
      exact h
    · right
      rw [(animateTileOpacity_fields _ _ _).2.1]
      exact h

theorem updateTail_terminal (e : Engine) (vs : ViewState) (now : Q) (k : TileId)
    (t : MTile) (A : ℕ)
    (hl : mapLookup e.tiles k = some t) (hA : t.attempts = A)
    (hs : t.state = .error ∨ t.state = .ready) (hRL : e.cfg.retryLimit < A) :
    (updateTail e vs now).disposeLog = e.disposeLog ∧
      ∃ t', mapLookup (updateTail e vs now).tiles k = some t' ∧ t'.attempts = A ∧
        (t'.state = .error ∨ t'.state = .ready) := by
  unfold updateTail
  dsimp only
  have h1 := processLoadQueue_terminal e k t A hl hA hs
  obtain ⟨t2, h2, hA2, hs2⟩ := updateProgressiveVisibility_terminal (processLoadQueue e)
    now k t A h1 hA hs (by rw [processLoadQueue_cfg]; exact hRL)
  constructor
  · split <;> simp
  · refine ⟨t2, ?_, hA2, hs2⟩
    split <;> simpa using h2

theorem updateTail_disposeLog (e : Engine) (vs : ViewState) (now : Q) :
    (updateTail e vs now).disposeLog = e.disposeLog := by
  unfold updateTail
  dsimp only
  split <;> simp

theorem updateApplyPhase_cfg (e : Engine) (vs : ViewState) (now : Q) :
    (updateApplyPhase e vs now).cfg = e.cfg := by
  unfold updateApplyPhase
  dsimp only
  repeat' split
  all_goals simp [applyViewState_cfg]

theorem updateApplyPhase_terminal (e : Engine) (vs : ViewState) (now : Q) (k : TileId)
    (t : MTile) (A : ℕ)
    (hl : mapLookup e.tiles k = some t) (hA : t.attempts = A)
    (hs : t.state = .error ∨ t.state = .ready) (hRL : e.cfg.retryLimit < A) :
    (∃ l, (updateApplyPhase e vs now).disposeLog = e.disposeLog ++ l ∧ k ∈ l) ∨
      (∃ t', mapLookup (updateApplyPhase e vs now).tiles k = some t' ∧ t'.attempts = A ∧
        (t'.state = .error ∨ t'.state = .ready)) := by
  unfold updateApplyPhase
  dsimp only
  by_cases hc : some vs ≠ e.stateKey ∧ ¬ shouldApplyNow e vs now = true
  · rw [if_pos hc]
    dsimp only
    by_cases h2 : some (e.appliedViewState.getD vs) ≠ e.stateKey
    · rw [if_pos h2]
      rcases applyViewState_terminal { e with pendingViewState := some vs }
          (e.appliedViewState.getD vs) now k t A hl hA hs hRL with
        ⟨l, hlog, hkin⟩ | ⟨t', ht', hA', hs'⟩
      · exact Or.inl ⟨l, hlog, hkin⟩
      · exact Or.inr ⟨t', ht', hA', hs'⟩
    · rw [if_neg h2]
      exact Or.inr ⟨t, hl, hA, hs⟩
  · rw [if_neg hc]
    cases hp : e.pendingViewState with
    | some p =>
      dsimp only
      by_cases h2 : some p ≠ e.stateKey
      · rw [if_pos h2]
        rcases applyViewState_terminal { e with pendingViewState := none } p now k t A
            hl hA hs hRL with ⟨l, hlog, hkin⟩ | ⟨t', ht', hA', hs'⟩
        · exact Or.inl ⟨l, hlog, hkin⟩
        · exact Or.inr ⟨t', ht', hA', hs'⟩
      · rw [if_neg h2]
        exact Or.inr ⟨t, hl, hA, hs⟩
    | none =>
      dsimp only
      by_cases h2 : some vs ≠ e.stateKey
      · rw [if_pos h2]
        rcases applyViewState_terminal e vs now k t A hl hA hs hRL with
          ⟨l, hlog, hkin⟩ | ⟨t', ht', hA', hs'⟩
        · exact Or.inl ⟨l, hlog, hkin⟩
        · exact Or.inr ⟨t', ht', hA', hs'⟩
      · rw [if_neg h2]
        exact Or.inr ⟨t, hl, hA, hs⟩

theorem updateFn_terminal (e : Engine) (vs : ViewState) (now : Q) (k : TileId)
    (t : MTile) (A : ℕ)
    (hl : mapLookup e.tiles k = some t) (hA : t.attempts = A)
    (hs : t.state = .error ∨ t.state = .ready) (hRL : e.cfg.retryLimit < A) :
    (∃ l, (updateFn e vs now).disposeLog = e.disposeLog ++ l ∧ k ∈ l) ∨
      (∃ t', mapLookup (updateFn e vs now).tiles k = some t' ∧ t'.attempts = A ∧
        (t'.state = .error ∨ t'.state = .ready)) := by
  unfold updateFn
  split
  · exact Or.inr ⟨t, hl, hA, hs⟩
  · dsimp only
    rcases updateApplyPhase_terminal { e with frame := e.frame + 1 } vs now k t A hl hA
        hs hRL with ⟨l, hlog, hkin⟩ | ⟨t', ht', hA', hs'⟩
    · refine Or.inl ⟨l, ?_, hkin⟩
      rw [updateTail_disposeLog]
      exact hlog
    · obtain ⟨hlog2, t2, ht2, hA2, hs2⟩ := updateTail_terminal
        (updateApplyPhase { e with frame := e.frame + 1 } vs now) vs now k t' A ht' hA' hs'
        (by rw [updateApplyPhase_cfg]; exact hRL)
      exact Or.inr ⟨t2, ht2, hA2, hs2⟩

theorem handleSuccess_terminal (e : Engine) (k2 k : TileId) (attempt : ℕ) (t : MTile)
    (A : ℕ) (hl : mapLookup e.tiles k = some t) (hA : t.attempts = A)
    (hs : t.state = .error ∨ t.state = .ready) :
    ∃ t', mapLookup (handleSuccess e k2 attempt).tiles k = some t' ∧ t'.attempts = A ∧
      (t'.state = .error ∨ t'.state = .ready) := by
  unfold handleSuccess
  dsimp only
  split
  · exact ⟨t, hl, hA, hs⟩
  · next current heq =>
    split
    · exact ⟨t, hl, hA, hs⟩
    · by_cases hid : k = k2
      · subst hid
        have hct : current = t := by
          rw [hl] at heq
          exact ((Option.some.injEq _ _).mp heq).symm
        subst hct
        exact ⟨_, mapLookup_mapSet_self _ _ _, hA, Or.inr rfl⟩
      · refine ⟨t, ?_, hA, hs⟩
        rw [mapLookup_mapSet_ne _ _ _ _ hid]
        exact hl

theorem handleFailure_terminal (e : Engine) (k2 k : TileId) (attempt : ℕ) (t : MTile)
    (A : ℕ) (hl : mapLookup e.tiles k = some t) (hA : t.attempts = A)
    (hs : t.state = .error ∨ t.state = .ready) (hRL : e.cfg.retryLimit < A) :
    ∃ t', mapLookup (handleFailure e k2 attempt).tiles k = some t' ∧ t'.attempts = A ∧
      (t'.state = .error ∨ t'.state = .ready) := by
  unfold handleFailure
  dsimp only
  split
  · exact ⟨t, hl, hA, hs⟩
  · next current heq =>
    split
    · exact ⟨t, hl, hA, hs⟩
    · by_cases hid : k = k2
      · subst hid
        have hct : current = t := by
          rw [hl] at heq
          exact ((Option.some.injEq _ _).mp heq).symm
        subst hct
        rw [if_neg (show ¬ current.attempts ≤ e.cfg.retryLimit by rw [hA]; omega)]
        exact ⟨_, mapLookup_mapSet_self _ _ _, hA, Or.inl rfl⟩
      · split
        · refine ⟨t, ?_, hA, hs⟩
          rw [enqueueTileLoad_lookup_ne _ _ _ hid]
          dsimp only
          rw [mapLookup_mapSet_ne _ _ _ _ hid, mapLookup_mapSet_ne _ _ _ _ hid]
          exact hl
        · refine ⟨t, ?_, hA, hs⟩
          dsimp only
          rw [mapLookup_mapSet_ne _ _ _ _ hid]
          exact hl

theorem completeLoad_terminal (e : Engine) (k2 k : TileId) (attempt : ℕ) (ok : Bool)
    (t : MTile) (A : ℕ) (hl : mapLookup e.tiles k = some t) (hA : t.attempts = A)
    (hs : t.state = .error ∨ t.state = .ready) (hRL : e.cfg.retryLimit < A) :
    ∃ t', mapLookup (completeLoad e k2 attempt ok).tiles k = some t' ∧ t'.attempts = A ∧
      (t'.state = .error ∨ t'.state = .ready) := by
  unfold completeLoad
  cases ok with
  | false =>
    obtain ⟨t1, h1, hA1, hs1⟩ := handleFailure_terminal e k2 k attempt t A hl hA hs hRL
    refine ⟨t1, ?_, hA1, hs1⟩
    rw [if_neg (by simp)]
    exact processLoadQueue_terminal _ k t1 A h1 hA1 hs1
  | true =>
    obtain ⟨t1, h1, hA1, hs1⟩ := handleSuccess_terminal e k2 k attempt t A hl hA hs
    refine ⟨t1, ?_, hA1, hs1⟩
    rw [if_pos (by simp)]
    exact processLoadQueue_terminal _ k t1 A h1 hA1 hs1

/-- C1: the retry/terminal-error policy.  (1) A failure completion that is
still current (the completing attempt equals the tile's attempts counter)
with the attempts counter within `retryLimit` re-queues the tile: it ends
in state `queued` and its key is in the load queue (given the queue/key-set
consistency invariant).  (2) Once a tile is in terminal `error`
(`retryLimit < attempts`), any engine step — an `update` call with its
desired-set registration, ancestor walk, queue drain and eviction, or any
load completion — either disposes the tile (recorded in the dispose log,
the "evicted and recreated" escape hatch) or leaves it with the same
attempts counter and in state `error` (or `ready`, if a stale matching
success completion lands); it is never re-enqueued or re-dispatched. -/
theorem claim_c1 :
    (∀ (e : Engine) (k : TileId) (t : MTile) (attempt : ℕ),
      mapLookup e.tiles k = some t → t.attempts = attempt →
      t.attempts ≤ e.cfg.retryLimit → (k ∈ e.queuedKeys → k ∈ e.loadQueue) →
      ∃ t', mapLookup (handleFailure e k attempt).tiles k = some t' ∧
        t'.state = .queued ∧ k ∈ (handleFailure e k attempt).loadQueue) ∧
    (∀ (e e' : Engine) (k : TileId) (A : ℕ), Step e e' → TerminalError e k A →
      (∃ l, e'.disposeLog = e.disposeLog ++ l ∧ k ∈ l) ∨
      (∃ t', mapLookup e'.tiles k = some t' ∧ t'.attempts = A ∧
        (t'.state = .error ∨ t'.state = .ready))) := by
  constructor
  · intro e k t attempt hl hcur hle hqk
    exact handleFailure_requeue e k t attempt hl hcur hle hqk
  · intro e e' k A hstep hterm
    obtain ⟨t, hl, hserr, hA, hRL⟩ := hterm
    cases hstep with
    | update vs now =>
      exact updateFn_terminal e vs now k t A hl hA (Or.inl hserr) hRL
    | complete k2 attempt ok hmem =>
      obtain ⟨t', ht', hA', hs'⟩ :=
        completeLoad_terminal e k2 k attempt ok t A hl hA (Or.inl hserr) hRL
      exact Or.inr ⟨t', ht', hA', hs'⟩

/-- C1 witness: spec Scenario B — the first current failure of the single
desired tile (attempts 1 ≤ retryLimit 2) re-queues it, and after the third
failure the tile is in terminal error (attempts 3 > 2); the next `update`
step leaves it disposed-or-error with attempts 3. -/
theorem claim_c1_witness :
    (mapLookup exB1.tiles tB = some
      { tileId := tB, state := .loading, attempts := 1, priority := some 0,
        lastWantedFrame := 1, lastTouchedFrame := 1, currentOpacity := 0,
        targetOpacity := 0, lastFadeUpdateMs := 0, meshVisible := false } ∧
      (1 : ℕ) ≤ exB1.cfg.retryLimit ∧
      (∃ t', mapLookup (handleFailure exB1 tB 1).tiles tB = some t' ∧
        t'.state = .queued ∧ tB ∈ (handleFailure exB1 tB 1).loadQueue)) ∧
    (TerminalError exB4 tB 3 ∧
      ((∃ l, (updateFn exB4 vsB 100).disposeLog = exB4.disposeLog ++ l ∧ tB ∈ l) ∨
        (∃ t', mapLookup (updateFn exB4 vsB 100).tiles tB = some t' ∧ t'.attempts = 3 ∧
          (t'.state = .error ∨ t'.state = .ready)))) :=
  ⟨⟨by decide, by decide,
    claim_c1.1 exB1 tB
      { tileId := tB, state := .loading, attempts := 1, priority := some 0,
        lastWantedFrame := 1, lastTouchedFrame := 1, currentOpacity := 0,
        targetOpacity := 0, lastFadeUpdateMs := 0, meshVisible := false } 1
      (by decide) (by decide) (by decide) (by decide)⟩,
   ⟨by decide,
    claim_c1.2 exB4 (updateFn exB4 vsB 100) tB 3 (Step.update exB4 vsB 100)
      (by decide)⟩⟩
